import Mathlib

/-!
# Content reallocation and inode persistence (`core/mutators.go`)

A shallow embedding of `updateContent`, `updateBlockIdsInInode`, `updateInode`,
`UpdateFile`, `RenameFile` and `UpdateDirectory`.

Modelling conventions.

* The storage region `[]byte` is a type parameter `σ`.  Every function of package
  `core` that the file calls but does not define and that touches the region
  (`ReadMetadata`, `getInodeValue`, `ReadInode`, `clearFile`, `clearInode`,
  `findFreeBitmapPosition`, `markOnBitmap`, `Write`), the directory codec
  `diracts.EncodeDirectoryContent` and the constant `structures.InodeSize` are fields of
  the structure `Collab σ`.  Readers return a value only, mutators return the new storage.
  What a theorem needs of them is a hypothesis of that theorem.
* The pure helper `cutContent` is defined from the words of the specification.
* Go `int` values that are lengths, offsets, positions in a bitmap (block indices) and
  inode numbers handed to the collaborators are natural numbers: a negative one is
  outside the model.  `uint32(x)` is `x % 2 ^ 32`.  The argument `inode int` of
  `RenameFile`, which the caller chooses and which is only tested against 0 and converted
  by `uint32`, is an integer of either sign.
* `int(math.Ceil(float64(a) / float64(b)))` is the integer ceiling `ceilDiv a b`; the
  two agree for `0 < b` and `a, b < 2 ^ 53`.  A block size of `0` is outside the model.
* A Go `error` made by `fmt.Errorf` in this file is `Fault.err text`; an error handed
  over by a collaborator and returned as it is, is `Fault.collab text`; a run-time
  panic (slice bound or array index out of range) is `Fault.panic`.
* Functions that mutate the storage return the outcome paired with the storage they
  leave behind, whether the outcome is a success or a failure.  `UpdateFile` and
  `UpdateDirectory` return, in place of `nil`, the inode record they have written.
* Calls of `logger.Log` have no effect on the storage and are left out.
-/

namespace Core

/-- One byte of the storage region or of a Go string. -/
abbrev Byte := Nat

/-- The two occupancy bitmaps, `structures.Inodes` and `structures.Blocks`. -/
inductive Bitmap where
  | Inodes
  | Blocks
deriving DecidableEq, Repr

/-- The fields of `structures.Metadata` that the file reads. -/
structure Metadata where
  BlockSize : Nat
  Root : Nat
  FirstBlock : Nat
deriving DecidableEq, Repr

/-- The record `structures.Inode`: `Size` is a `uint32`, `BlocksLocations` a `[12]uint32`. -/
structure Inode where
  Mode : Nat
  Size : Nat
  BlocksLocations : List Nat
  size_lt : Size < 2 ^ 32
  slots_len : BlocksLocations.length = 12
  slots_lt : ∀ p ∈ BlocksLocations, p < 2 ^ 32

/-- The record `structures.DirectoryEntry`: `Inode` is a `uint32`. -/
structure DirectoryEntry where
  Inode : Nat
  FileName : String
  inode_lt : Inode < 2 ^ 32
deriving DecidableEq

/-- The fields of `structures.DirectoryIterator` that the file uses. -/
structure DirectoryIterator where
  DirectoryInode : Nat
  DirectoryContent : List DirectoryEntry
deriving DecidableEq

/-- What a call can end with other than its result. -/
inductive Fault where
  | err (text : String)
  | collab (text : String)
  | panic
deriving DecidableEq, Repr

/-- The functions and the constant that `mutators.go` takes from elsewhere. -/
structure Collab (σ : Type) where
  InodeSize : Nat
  ReadMetadata : σ → Metadata
  getInodeValue : σ → Metadata → Bitmap → Nat → Bool
  ReadInode : σ → Metadata → Nat → Except String Inode
  clearFile : σ → List Nat → Metadata → σ
  clearInode : σ → Metadata → Nat → σ
  findFreeBitmapPosition : σ → Metadata → Bitmap → List Nat → Except String Nat
  markOnBitmap : σ → Metadata → Bool → Nat → Bitmap → σ
  Write : σ → List Byte → Nat → σ
  EncodeDirectoryContent : List DirectoryEntry → Except String (List Byte)

/-- Integer ceiling of `a / b`, the value of `int(math.Ceil(float64(a) / float64(b)))`. -/
def ceilDiv (a b : Nat) : Nat := (a + b - 1) / b

/-- The block count of `len` bytes: the ceiling, with `0` replaced by `1`
(`updateContent`, lines 14-17 and 21-24). -/
def blocksFor (len blockSize : Nat) : Nat :=
  let n := ceilDiv len blockSize
  if n = 0 then 1 else n

/-- The decimal text that `fmt.Sprint` gives an unsigned integer. -/
def Sprint (n : Nat) : List Byte := (Nat.repr n).toList.map Char.toNat

/-- Modelled from the spec: `cutContent` (in package `core`, outside this file) gives
chunk `i` of the content split into `blockSize`-sized chunks, the last one possibly
shorter. -/
def cutContent (content : List Byte) (i blockSize : Nat) : List Byte :=
  (content.drop (i * blockSize)).take blockSize

/-- The non-sentinel pointers of an inode in slot order (`updateContent`, lines 26-31). -/
def gather (inode : Inode) : List Nat := inode.BlocksLocations.filter (fun value => value ≠ 0)

/-- The allocation loop of `updateContent` (lines 38-44) with `n` iterations left. -/
def allocLoop {σ : Type} (c : Collab σ) (storage : σ) (fsdata : Metadata) :
    Nat → List Nat → Except String (List Nat)
  | 0, gatheredBlocks => .ok gatheredBlocks
  | n + 1, gatheredBlocks =>
    match c.findFreeBitmapPosition storage fsdata Bitmap.Blocks gatheredBlocks with
    | .error e => .error e
    | .ok freeBlock => allocLoop c storage fsdata n (gatheredBlocks ++ [freeBlock])

/-- The commit loop of `updateContent` (lines 47-52), at chunk index `i`. -/
def commitLoop {σ : Type} (c : Collab σ) (fsdata : Metadata) (content : List Byte) :
    List Nat → Nat → σ → σ
  | [], _, storage => storage
  | value :: rest, i, storage =>
    let blocksBeginning := fsdata.FirstBlock
    let offset := blocksBeginning + value * fsdata.BlockSize
    let storage := c.Write storage (cutContent content i fsdata.BlockSize) offset
    let storage := c.markOnBitmap storage fsdata true value Bitmap.Blocks
    commitLoop c fsdata content rest (i + 1) storage

/-- The function `updateContent`. -/
def updateContent {σ : Type} (c : Collab σ) (storage : σ) (fsdata : Metadata) (inode : Inode)
    (content : List Byte) : Except Fault (List Nat) × σ :=
  let numberOfRequiredBlocks := blocksFor content.length fsdata.BlockSize
  if 12 ≤ numberOfRequiredBlocks then
    (.error (.err "file is too long"), storage)
  else
    let numberOfTakenBlocks := blocksFor inode.Size fsdata.BlockSize
    let gatheredBlocks := gather inode
    if numberOfRequiredBlocks < numberOfTakenBlocks ∧
        gatheredBlocks.length < numberOfTakenBlocks - numberOfRequiredBlocks then
      (.error .panic, storage)
    else
      let gatheredBlocks :=
        if numberOfRequiredBlocks < numberOfTakenBlocks then
          gatheredBlocks.take (gatheredBlocks.length - (numberOfTakenBlocks - numberOfRequiredBlocks))
        else gatheredBlocks
      let grown :=
        if numberOfTakenBlocks < numberOfRequiredBlocks then
          allocLoop c storage fsdata (numberOfRequiredBlocks - numberOfTakenBlocks) gatheredBlocks
        else .ok gatheredBlocks
      match grown with
      | .error e => (.error (.collab e), storage)
      | .ok gatheredBlocks => (.ok gatheredBlocks, commitLoop c fsdata content gatheredBlocks 0 storage)

/-- The inode with every pointer slot set to the sentinel (`updateBlockIdsInInode`, lines 57-59). -/
def Inode.zeroSlots (inodeInfo : Inode) : Inode :=
  { inodeInfo with
    BlocksLocations := inodeInfo.BlocksLocations.map (fun _ => 0)
    slots_len := by simp [inodeInfo.slots_len]
    slots_lt := by intro p hp; simp at hp; omega }

/-- The assignment `inodeInfo.BlocksLocations[i] = uint32(value)` for `i < 12`. -/
def Inode.setSlot (inodeInfo : Inode) (i value : Nat) : Inode :=
  { inodeInfo with
    BlocksLocations := inodeInfo.BlocksLocations.set i (value % 2 ^ 32)
    slots_len := by simp [inodeInfo.slots_len]
    slots_lt := by
      intro p hp
      rcases List.mem_or_eq_of_mem_set hp with h | h
      · exact inodeInfo.slots_lt p h
      · subst h; exact Nat.mod_lt _ (by decide) }

/-- The second loop of `updateBlockIdsInInode` (lines 60-62), at index `i`; index 12 is
out of range. -/
def fillSlots : Inode → Nat → List Nat → Except Fault Inode
  | inodeInfo, _, [] => .ok inodeInfo
  | inodeInfo, i, value :: rest =>
    if i < 12 then fillSlots (inodeInfo.setSlot i value) (i + 1) rest else .error .panic

/-- The function `updateBlockIdsInInode`.  The entries of `blocks` are block indices: prior
pointers converted from `uint32` and positions that the allocator found in the block
bitmap. -/
def updateBlockIdsInInode (inodeInfo : Inode) (blocks : List Nat) : Except Fault Inode :=
  fillSlots inodeInfo.zeroSlots 0 blocks

/-- The assignment `inodeInfo.Size = uint32(n)`. -/
def Inode.setSize (inodeInfo : Inode) (n : Nat) : Inode :=
  { inodeInfo with
    Size := n % 2 ^ 32
    size_lt := Nat.mod_lt _ (by decide) }

/-- The function `updateInode`. -/
def updateInode {σ : Type} (c : Collab σ) (storage : σ) (fsdata : Metadata) (inodeInfo : Inode)
    (inode : Nat) : σ :=
  let inodesBeginning := fsdata.Root
  let offset := inodesBeginning + inode * c.InodeSize
  let storage := c.Write storage (Sprint inodeInfo.Mode) offset
  let offset := offset + 3
  let storage := c.Write storage (Sprint inodeInfo.Size) offset
  let offset := offset + 10
  ((List.range 12).foldl
    (fun (st : σ × Nat) i =>
      (c.Write st.1 (Sprint (inodeInfo.BlocksLocations.getD i 0)) st.2, st.2 + 10))
    (storage, offset)).1

/-- The tail that `UpdateFile` and `UpdateDirectory` share once the inode is read and its
type tag accepted: lines 96-105 and 149-158.  On success the committed inode record is
returned next to the storage. -/
def commit {σ : Type} (c : Collab σ) (tag : String) (storage : σ) (fsdata : Metadata)
    (inodeInfo : Inode) (inode : Nat) (content : List Byte) : Except Fault Inode × σ :=
  match updateContent c storage fsdata inodeInfo content with
  | (.error .panic, storage) => (.error .panic, storage)
  | (.error _, storage) => (.error (.err (tag ++ ": could not update content")), storage)
  | (.ok blocks, storage) =>
    match updateBlockIdsInInode inodeInfo blocks with
    | .error f => (.error f, storage)
    | .ok inodeInfo =>
      let inodeInfo := inodeInfo.setSize content.length
      let storage := c.clearInode storage fsdata inode
      let storage := updateInode c storage fsdata inodeInfo inode
      (.ok inodeInfo, storage)

/-- The function `UpdateFile`.  Where Go returns `nil` the model returns the inode record
that was written. -/
def UpdateFile {σ : Type} (c : Collab σ) (storage : σ) (inode : Nat) (content : List Byte) :
    Except Fault Inode × σ :=
  if inode = 0 then
    (.error (.err "update file: inode cannot be 0"), storage)
  else
    let fsdata := c.ReadMetadata storage
    if !c.getInodeValue storage fsdata Bitmap.Inodes inode then
      (.error (.err "update file: file does not exits"), storage)
    else
      match c.ReadInode storage fsdata inode with
      | .error _ => (.error (.err "update file: could not read inode"), storage)
      | .ok inodeInfo =>
        if inodeInfo.Mode = 0 then
          (.error (.err "update file: file is directory"), storage)
        else
          let storage := c.clearFile storage inodeInfo.BlocksLocations fsdata
          commit c "update file" storage fsdata inodeInfo inode content

/-- The function `UpdateDirectory`.  Where Go returns `nil` the model returns the inode
record that was written. -/
def UpdateDirectory {σ : Type} (c : Collab σ) (storage : σ) (inode : Nat)
    (content : List DirectoryEntry) : Except Fault Inode × σ :=
  if inode = 0 then
    (.error (.err "update directory: inode cannot be 0"), storage)
  else
    let fsdata := c.ReadMetadata storage
    if !c.getInodeValue storage fsdata Bitmap.Inodes inode then
      (.error (.err "update directory: directory does not exits"), storage)
    else
      match c.ReadInode storage fsdata inode with
      | .error _ => (.error (.err "update directory: could not read inode"), storage)
      | .ok inodeInfo =>
        if inodeInfo.Mode = 1 then
          (.error (.err "update directory: directory is file"), storage)
        else
          let storage := c.clearFile storage inodeInfo.BlocksLocations fsdata
          match c.EncodeDirectoryContent content with
          | .error e => (.error (.collab e), storage)
          | .ok encoded => commit c "update directory" storage fsdata inodeInfo inode encoded

/-- The test `strings.ContainsAny(newName, "\\:-")`: the name holds a backslash, a colon
or a dash. -/
def containsReserved (newName : String) : Bool :=
  newName.toList.any (fun ch => ch = Char.ofNat 92 || ch = ':' || ch = '-')

/-- The text of the error of line 114, `fmt.Errorf` with `%q` of the three separators. -/
def reservedNameText : String := "rename file: name cannot contain [\"\\\\\" \"-\" \":\"]"

/-- The conversion `uint32(x)` of a Go `int` of either sign: the value of `x` modulo
`2^32`, between 0 and `2^32 - 1`. -/
def uint32 (x : Int) : Nat := (x % 2 ^ 32).toNat

/-- The loop of `RenameFile` (lines 116-122) up to the call of `UpdateDirectory`: the first
entry whose inode number is `target` gets the new name; `none` when no entry matches. -/
def renameEntry (target : Nat) (newName : String) :
    List DirectoryEntry → Option (List DirectoryEntry)
  | [] => none
  | dirEntry :: rest =>
    if dirEntry.Inode = target then
      some ({ dirEntry with FileName := newName } :: rest)
    else
      (renameEntry target newName rest).map (fun renamed => dirEntry :: renamed)

/-- The function `RenameFile`.  The directory iterator is a pointer in Go: the model
returns the iterator as the call leaves it, next to the outcome and the storage.  The
value that `UpdateDirectory` returns is dropped at line 119; a panic inside it is not a
return value and goes on. -/
def RenameFile {σ : Type} (c : Collab σ) (storage : σ) (currentDirectory : DirectoryIterator)
    (inode : Int) (newName : String) : Except Fault Unit × DirectoryIterator × σ :=
  if inode = 0 then
    (.error (.err "rename file: inode cannot be 0"), currentDirectory, storage)
  else if containsReserved newName then
    (.error (.err reservedNameText), currentDirectory, storage)
  else
    match renameEntry (uint32 inode) newName currentDirectory.DirectoryContent with
    | some renamed =>
      let currentDirectory := { currentDirectory with DirectoryContent := renamed }
      match UpdateDirectory c storage currentDirectory.DirectoryInode
          currentDirectory.DirectoryContent with
      | (.error .panic, storage) => (.error .panic, currentDirectory, storage)
      | (_, storage) => (.ok (), currentDirectory, storage)
    | none => (.error (.err "rename file: file not found"), currentDirectory, storage)

/-! ## Storage effects -/

/-- A call of one of the four collaborators that mutate the storage. -/
inductive Effect where
  | write (payload : List Byte) (offset : Nat)
  | mark (used : Bool) (index : Nat) (bitmap : Bitmap)
  | clearFile (blocks : List Nat)
  | clearInode (inode : Nat)
deriving DecidableEq

/-- An environment that behaves as `c` and appends every call of a mutating collaborator
to a log kept next to the storage. -/
def recorder {σ : Type} (c : Collab σ) : Collab (σ × List Effect) where
  InodeSize := c.InodeSize
  ReadMetadata := fun s => c.ReadMetadata s.1
  getInodeValue := fun s fsdata bitmap index => c.getInodeValue s.1 fsdata bitmap index
  ReadInode := fun s fsdata inode => c.ReadInode s.1 fsdata inode
  clearFile := fun s blocks fsdata => (c.clearFile s.1 blocks fsdata, s.2 ++ [Effect.clearFile blocks])
  clearInode := fun s fsdata inode => (c.clearInode s.1 fsdata inode, s.2 ++ [Effect.clearInode inode])
  findFreeBitmapPosition := fun s fsdata bitmap except =>
    c.findFreeBitmapPosition s.1 fsdata bitmap except
  markOnBitmap := fun s fsdata used index bitmap =>
    (c.markOnBitmap s.1 fsdata used index bitmap, s.2 ++ [Effect.mark used index bitmap])
  Write := fun s payload offset => (c.Write s.1 payload offset, s.2 ++ [Effect.write payload offset])
  EncodeDirectoryContent := c.EncodeDirectoryContent

/-- The sequence of effects that the specification gives the commit step for the block
list `blocks`, from chunk index `i` on: for every index in order the write of its chunk at
`FirstBlock + index * BlockSize`, then the setting of its flag. -/
def commitEffects (fsdata : Metadata) (content : List Byte) : List Nat → Nat → List Effect
  | [], _ => []
  | b :: rest, i =>
    Effect.write (cutContent content i fsdata.BlockSize) (fsdata.FirstBlock + b * fsdata.BlockSize)
      :: Effect.mark true b Bitmap.Blocks :: commitEffects fsdata content rest (i + 1)

/-- The byte that the commit effects of `blocks`, from chunk index `i` on, leave at the
address `a`: the byte of the last write that covers `a`, `none` when no write covers it. -/
def lastCover (fsdata : Metadata) (content : List Byte) : List Nat → Nat → Nat → Option Byte
  | [], _, _ => none
  | b :: rest, i, a =>
    match lastCover fsdata content rest (i + 1) a with
    | some byte => some byte
    | none =>
      if fsdata.FirstBlock + b * fsdata.BlockSize ≤ a ∧
          a < fsdata.FirstBlock + b * fsdata.BlockSize
            + (cutContent content i fsdata.BlockSize).length then
        some ((cutContent content i fsdata.BlockSize).getD
          (a - (fsdata.FirstBlock + b * fsdata.BlockSize)) 0)
      else none

/-! ## Contracts of the collaborators -/

/-- The contract of the bitmap collaborators for a region of `n` blocks and the record of
one inode: `markOnBitmap` sets the flag of the index it is given and no other; a write of
at most a block into the block of an index, a write that stays inside the inode record,
and the clearing of the record leave every block flag as it was. -/
structure BitmapContract {σ : Type} (c : Collab σ) (fsdata : Metadata) (inode n : Nat) :
    Prop where
  mark_sets : ∀ s v, v < n →
    c.getInodeValue (c.markOnBitmap s fsdata true v Bitmap.Blocks) fsdata Bitmap.Blocks v = true
  mark_exact : ∀ s v w, v < n → w < n → w ≠ v →
    c.getInodeValue (c.markOnBitmap s fsdata true v Bitmap.Blocks) fsdata Bitmap.Blocks w
      = c.getInodeValue s fsdata Bitmap.Blocks w
  write_block : ∀ s payload v w, v < n → w < n → payload.length ≤ fsdata.BlockSize →
    c.getInodeValue (c.Write s payload (fsdata.FirstBlock + v * fsdata.BlockSize))
        fsdata Bitmap.Blocks w
      = c.getInodeValue s fsdata Bitmap.Blocks w
  write_record : ∀ s payload k w, w < n → k + payload.length ≤ c.InodeSize →
    c.getInodeValue (c.Write s payload (fsdata.Root + inode * c.InodeSize + k))
        fsdata Bitmap.Blocks w
      = c.getInodeValue s fsdata Bitmap.Blocks w
  clear_record : ∀ s w, w < n →
    c.getInodeValue (c.clearInode s fsdata inode) fsdata Bitmap.Blocks w
      = c.getInodeValue s fsdata Bitmap.Blocks w

/-- The `count` bytes of a region from `offset` on, read through the byte observer `peek`. -/
def readAt {σ : Type} (peek : σ → Nat → Byte) (storage : σ) (offset count : Nat) : List Byte :=
  (List.range count).map (fun i => peek storage (offset + i))

/-- Modelled from the spec: reading a content of length `L` back.  The blocks at
`FirstBlock + p * BlockSize` are read for the non-sentinel pointers `p` of the inode in
pointer order, `BlockSize` bytes from each but `L - (k - 1) * BlockSize` from the last of
the `k` blocks, and the pieces are concatenated. -/
def readBack {σ : Type} (peek : σ → Nat → Byte) (storage : σ) (fsdata : Metadata)
    (inode : Inode) (L : Nat) : List Byte :=
  let pointers := gather inode
  let k := pointers.length
  ((List.range k).map (fun j =>
    readAt peek storage (fsdata.FirstBlock + pointers.getD j 0 * fsdata.BlockSize)
      (if j + 1 = k then L - (k - 1) * fsdata.BlockSize else fsdata.BlockSize))).flatten

/-- The contract of the collaborators on the bytes of the block area of a region of `n`
blocks, seen through the byte observer `peek`: `Write` puts the payload at the offset and
changes no other byte; setting a block flag and clearing the inode record change no byte
of the block area. -/
structure BlockContract {σ : Type} (c : Collab σ) (peek : σ → Nat → Byte) (fsdata : Metadata)
    (inode n : Nat) : Prop where
  peek_write : ∀ s payload off a,
    peek (c.Write s payload off) a
      = if off ≤ a ∧ a < off + payload.length then payload.getD (a - off) 0 else peek s a
  peek_mark : ∀ s v a, v < n → fsdata.FirstBlock ≤ a →
    a < fsdata.FirstBlock + n * fsdata.BlockSize →
    peek (c.markOnBitmap s fsdata true v Bitmap.Blocks) a = peek s a
  peek_clear : ∀ s a, fsdata.FirstBlock ≤ a → a < fsdata.FirstBlock + n * fsdata.BlockSize →
    peek (c.clearInode s fsdata inode) a = peek s a

/-- The contract of the collaborators for an observation `obs` of the storage that the
steps of an update of `inode` in a region of `n` blocks leave as it is: the clearing of
the flags of blocks below `n`, a write of at most a block into the block of an index below
`n`, the setting of the flag of such an index, a write that stays inside the record of
`inode`, and the clearing of that record. -/
structure Untouched {σ α : Type} (c : Collab σ) (fsdata : Metadata) (inode n : Nat)
    (obs : σ → α) : Prop where
  clear_file : ∀ s slots, (∀ v ∈ slots, v ≠ 0 → v < n) →
    obs (c.clearFile s slots fsdata) = obs s
  write_block : ∀ s payload v, v < n → payload.length ≤ fsdata.BlockSize →
    obs (c.Write s payload (fsdata.FirstBlock + v * fsdata.BlockSize)) = obs s
  mark : ∀ s v, v < n → obs (c.markOnBitmap s fsdata true v Bitmap.Blocks) = obs s
  write_record : ∀ s payload k, k + payload.length ≤ c.InodeSize →
    obs (c.Write s payload (fsdata.Root + inode * c.InodeSize + k)) = obs s
  clear_record : ∀ s, obs (c.clearInode s fsdata inode) = obs s

/-- The block indices that inode `i` references: the non-sentinel pointers of its record
when the inode is occupied and readable, none otherwise. -/
def pointersOf {σ : Type} (c : Collab σ) (storage : σ) (fsdata : Metadata) (i : Nat) : List Nat :=
  if c.getInodeValue storage fsdata Bitmap.Inodes i then
    match c.ReadInode storage fsdata i with
    | .ok inodeInfo => gather inodeInfo
    | .error _ => []
  else []

/-- No block index is referenced twice among the inodes below `m`: neither twice by one
inode nor by two inodes. -/
def NoDoubleBooking {σ : Type} (c : Collab σ) (storage : σ) (fsdata : Metadata) (m : Nat) :
    Prop :=
  (∀ i, i < m → (pointersOf c storage fsdata i).Nodup) ∧
  (∀ i, i < m → ∀ j, j < m → i ≠ j →
    ∀ p ∈ pointersOf c storage fsdata i, p ∉ pointersOf c storage fsdata j)

/-! ## A reference environment

A byte-addressed region with one byte per bitmap flag and decimal text fields in the inode
table.  It supplies the concrete inputs at which the theorems below are instantiated. -/

/-- A byte-addressed storage region. -/
abbrev Mem := Nat → Byte

/-- Modelled from the spec: `write_bytes(storage, payload, absolute_offset)` puts the
payload at the absolute offset and leaves every other byte alone. -/
def writeBytes (storage : Mem) (payload : List Byte) (offset : Nat) : Mem :=
  fun a =>
    if offset ≤ a ∧ a < offset + payload.length then payload.getD (a - offset) 0 else storage a

/-- The `count` bytes of the region that start at `offset`. -/
def readBytes (storage : Mem) (offset count : Nat) : List Byte :=
  (List.range count).map (fun i => storage (offset + i))

/-- Where the reference environment keeps its structures, and which block indices its
allocator scans: `scanCount` indices from `scanStart` on. -/
structure Layout where
  fsdata : Metadata
  inodeFlags : Nat
  blockFlags : Nat
  scanStart : Nat
  scanCount : Nat

/-- The address of the flag of `index` in a bitmap. -/
def Layout.flagAt (l : Layout) : Bitmap → Nat → Nat
  | Bitmap.Inodes, index => l.inodeFlags + index
  | Bitmap.Blocks, index => l.blockFlags + index

/-- An inode record from raw field values: `uint32` conversions and exactly twelve slots. -/
def Inode.ofFields (mode size : Nat) (slots : List Nat) : Inode where
  Mode := mode
  Size := size % 2 ^ 32
  BlocksLocations := (List.range 12).map (fun i => slots.getD i 0 % 2 ^ 32)
  size_lt := Nat.mod_lt _ (by decide)
  slots_len := by simp
  slots_lt := by
    intro p hp
    simp only [List.mem_map] at hp
    obtain ⟨i, _, rfl⟩ := hp
    exact Nat.mod_lt _ (by decide)

/-- The number that a decimal text field holds: its leading digits. -/
def parseDecimal (field : List Byte) : Nat :=
  (field.takeWhile (fun b => decide (48 ≤ b ∧ b ≤ 57))).foldl (fun acc b => 10 * acc + (b - 48)) 0

/-- Modelled from the spec: `read_inode` reads back the record layout of `updateInode`; a
record whose type tag field holds no digit is unreadable. -/
def refReadInode (storage : Mem) (fsdata : Metadata) (inode : Nat) : Except String Inode :=
  let base := fsdata.Root + inode * 133
  if 48 ≤ storage base ∧ storage base ≤ 57 then
    .ok (Inode.ofFields (parseDecimal (readBytes storage base 3))
      (parseDecimal (readBytes storage (base + 3) 10))
      ((List.range 12).map (fun i => parseDecimal (readBytes storage (base + 13 + 10 * i) 10))))
  else .error "inode record is empty"

/-- Modelled from the spec: `find_free_slot` gives the first scanned index whose flag is
clear and that is not excluded, or fails when there is none. -/
def refFindFree (l : Layout) (storage : Mem) (bitmap : Bitmap) (except : List Nat) :
    Except String Nat :=
  match ((List.range l.scanCount).map (fun i => l.scanStart + i)).find?
      (fun i => decide (storage (l.flagAt bitmap i) = 0 ∧ i ∉ except)) with
  | some i => .ok i
  | none => .error "no free position"

/-- Modelled from the spec: `clear_object_blocks` clears the bitmap flag of every block
that the pointer array holds. -/
def refClearFile (l : Layout) (storage : Mem) (blocks : List Nat) : Mem :=
  blocks.foldl
    (fun s value => if value = 0 then s else writeBytes s [0] (l.flagAt Bitmap.Blocks value))
    storage

/-- Modelled from the spec: the directory codec writes every entry as its inode number,
a colon, its name and a dash. -/
def refEncode (entries : List DirectoryEntry) : Except String (List Byte) :=
  .ok (entries.foldl
    (fun acc e => acc ++ Sprint e.Inode ++ [58] ++ e.FileName.toList.map Char.toNat ++ [45]) [])

/-- The reference environment over a layout. -/
def refCollab (l : Layout) : Collab Mem where
  InodeSize := 133
  ReadMetadata := fun _ => l.fsdata
  getInodeValue := fun storage _ bitmap index => decide (storage (l.flagAt bitmap index) ≠ 0)
  ReadInode := refReadInode
  clearFile := fun storage blocks _ => refClearFile l storage blocks
  clearInode := fun storage fsdata inode =>
    writeBytes storage (List.replicate 133 0) (fsdata.Root + inode * 133)
  findFreeBitmapPosition := fun storage _ bitmap except => refFindFree l storage bitmap except
  markOnBitmap := fun storage _ used index bitmap =>
    writeBytes storage [if used then 1 else 0] (l.flagAt bitmap index)
  Write := writeBytes
  EncodeDirectoryContent := refEncode

/-- A layout with 64-byte blocks: inode flags at 0, block flags at 16, the inode table at
100 and the block area at 700. -/
def layout64 : Layout :=
  { fsdata := { BlockSize := 64, Root := 100, FirstBlock := 700 }
    inodeFlags := 0, blockFlags := 16, scanStart := 0, scanCount := 16 }

/-- A region in a layout: inodes 1 and 2 are occupied, the block flags of `used` are set,
inode 1 holds the record `first` and inode 2 an empty directory that owns block 6. -/
def mkRegion (l : Layout) (used : List Nat) (first : Inode) : Mem :=
  let c := refCollab l
  let s : Mem := fun _ => 0
  let s := c.markOnBitmap s l.fsdata true 1 Bitmap.Inodes
  let s := c.markOnBitmap s l.fsdata true 2 Bitmap.Inodes
  let s := used.foldl (fun s v => c.markOnBitmap s l.fsdata true v Bitmap.Blocks) s
  let s := updateInode c s l.fsdata first 1
  updateInode c s l.fsdata (Inode.ofFields 0 0 [6]) 2

/-- A region in the layout `layout64`: inode 1 is an empty file that owns block 5, inode 2
an empty directory that owns block 6; block 0 is reserved. -/
def region64 : Mem := mkRegion layout64 [0, 5, 6] (Inode.ofFields 1 0 [5])

/-- The record of inode 1 in `region64`: a file of size 0 that owns block 5. -/
def file64 : Inode := Inode.ofFields 1 0 [5]

/-- The record of inode 2 in `region64`: a directory of size 0 that owns block 6. -/
def dir64 : Inode := Inode.ofFields 0 0 [6]

/-- The region `region64` with the flag of block 0 clear: block 0 is free. -/
def region64z : Mem := mkRegion layout64 [5, 6] (Inode.ofFields 1 0 [5])

/-- A region like `region64` whose inode 1 has size 128 and holds block 5 twice. -/
def region64twice : Mem := mkRegion layout64 [0, 5, 6] (Inode.ofFields 1 128 [5, 5])

/-- A region like `region64` whose inode 1 has size 0 and holds the two blocks 5 and 7. -/
def region64extra : Mem := mkRegion layout64 [0, 5, 6, 7] (Inode.ofFields 1 0 [5, 7])

/-- A file record of size 130 that owns blocks 5, 1 and 2. -/
def file64big : Inode := Inode.ofFields 1 130 [5, 1, 2]

/-- A content of 705 bytes, one byte more than eleven blocks of 64 bytes. -/
def content705 : List Byte := List.replicate 705 0

/-- A content of 70 bytes. -/
def content70 : List Byte := (List.range 70).map (fun i => 65 + i % 26)

/-- Modelled from the spec: a directory codec that refuses an entry list in which a name
holds one of the separators of the encoded text, and encodes like `refEncode` otherwise. -/
def strictEncode (entries : List DirectoryEntry) : Except String (List Byte) :=
  if entries.any (fun e => containsReserved e.FileName) then
    .error "directory entry cannot be encoded"
  else refEncode entries

/-- The reference environment with the codec `strictEncode`. -/
def strictCollab (l : Layout) : Collab Mem :=
  { refCollab l with EncodeDirectoryContent := strictEncode }

/-- An iterator over the directory of inode 2 with three entries, two of them for inode 5. -/
def iterator64 : DirectoryIterator :=
  { DirectoryInode := 2
    DirectoryContent := [⟨7, "x", by decide⟩, ⟨5, "a", by decide⟩, ⟨5, "b", by decide⟩] }

/-- An iterator over inode 3, which is not occupied in `region64`, with one entry. -/
def iteratorStale : DirectoryIterator :=
  { DirectoryInode := 3, DirectoryContent := [⟨5, "a", by decide⟩] }

/-- A directory iterator of directory inode 2 whose one entry has the largest inode
number that an entry can hold, `2^32 - 1`. -/
def iteratorWide : DirectoryIterator :=
  { DirectoryInode := 2, DirectoryContent := [⟨4294967295, "m", by decide⟩] }

/-- The region `region64` with the flag of every scanned block set: no block is free. -/
def region64full : Mem :=
  mkRegion layout64 (List.range 16) (Inode.ofFields 1 0 [5])

/-- A file record of size 768 that owns the twelve blocks 1 to 12: all slots are in use. -/
def file64wide : Inode := Inode.ofFields 1 768 [1, 2, 3, 4, 5, 6, 7, 8, 9, 10, 11, 12]

/-- A content of 768 bytes, twelve blocks of 64 bytes. -/
def content768 : List Byte := List.replicate 768 0

/-- A content of 10 bytes. -/
def content10 : List Byte := (List.range 10).map (fun i => 48 + i)

/-- A content of 130 bytes. -/
def content130 : List Byte := (List.range 130).map (fun i => 97 + i % 26)

/-! ## Arithmetic of block counts -/

theorem blocksFor_pos (len blockSize : Nat) : 1 ≤ blocksFor len blockSize := by
  unfold blocksFor
  simp only
  split <;> omega

theorem blocksFor_eq_max (len blockSize : Nat) :
    blocksFor len blockSize = max 1 (ceilDiv len blockSize) := by
  unfold blocksFor
  simp only
  split <;> omega

theorem ceilDiv_le_iff {a b : Nat} (hb : 0 < b) (k : Nat) : ceilDiv a b ≤ k ↔ a ≤ k * b := by
  unfold ceilDiv
  constructor
  · intro h
    have h1 : (a + b - 1) / b < k + 1 := by omega
    rw [Nat.div_lt_iff_lt_mul hb] at h1
    have : (k + 1) * b = k * b + b := by ring
    omega
  · intro h
    have h1 : (a + b - 1) / b < k + 1 := by
      rw [Nat.div_lt_iff_lt_mul hb]
      have : (k + 1) * b = k * b + b := by ring
      omega
    omega

/-! ## The allocation loop -/

theorem allocLoop_spec {σ : Type} (c : Collab σ) (storage : σ) (fsdata : Metadata) :
    ∀ (n : Nat) (gathered out : List Nat), allocLoop c storage fsdata n gathered = .ok out →
      out.length = gathered.length + n ∧ out.take gathered.length = gathered ∧
      ∀ j, j < n →
        c.findFreeBitmapPosition storage fsdata Bitmap.Blocks (out.take (gathered.length + j))
          = .ok (out.getD (gathered.length + j) 0) := by
  intro n
  induction n with
  | zero =>
    intro gathered out h
    simp only [allocLoop, Except.ok.injEq] at h
    subst h
    simp
  | succ n ih =>
    intro gathered out h
    simp only [allocLoop] at h
    split at h
    · exact absurd h (by simp)
    · rename_i freeBlock hfree
      obtain ⟨hlen, hpre, hq⟩ := ih _ _ h
      simp only [List.length_append, List.length_singleton] at hlen hpre hq
      have hg : out.take gathered.length = gathered := by
        have := congrArg (List.take gathered.length) hpre
        simpa [List.take_take] using this
      refine ⟨by omega, hg, ?_⟩
      intro j hj
      cases j with
      | zero =>
        have h1 : out.getD gathered.length 0 = freeBlock := by
          have := congrArg (fun l => l.getD gathered.length 0) hpre
          simp only [List.getD_eq_getElem?_getD, List.getElem?_take] at this
          simpa using this
        simp only [Nat.add_zero, hg, h1]
        exact hfree
      | succ j =>
        have := hq j (by omega)
        have e : gathered.length + (j + 1) = gathered.length + 1 + j := by omega
        rw [e]
        exact this

/-! ## The pointer array -/

theorem fillSlots_spec : ∀ (blocks : List Nat) (inodeInfo : Inode) (i : Nat),
    i + blocks.length ≤ 12 →
    ∃ out, fillSlots inodeInfo i blocks = .ok out ∧ out.Mode = inodeInfo.Mode ∧
      out.Size = inodeInfo.Size ∧
      out.BlocksLocations = inodeInfo.BlocksLocations.take i ++ blocks.map (fun v => v % 2 ^ 32)
        ++ inodeInfo.BlocksLocations.drop (i + blocks.length) := by
  intro blocks
  induction blocks with
  | nil =>
    intro inodeInfo i _
    exact ⟨inodeInfo, rfl, rfl, rfl, by simp⟩
  | cons value rest ih =>
    intro inodeInfo i h
    simp only [List.length_cons] at h
    have hi : i < 12 := by omega
    obtain ⟨out, hout, hm, hs, hb⟩ := ih (inodeInfo.setSlot i value) (i + 1) (by omega)
    refine ⟨out, ?_, hm, hs, ?_⟩
    · simp only [fillSlots, hi, if_true]
      exact hout
    · rw [hb]
      have hlen := inodeInfo.slots_len
      have hset : (inodeInfo.setSlot i value).BlocksLocations
          = inodeInfo.BlocksLocations.take i ++ (value % 2 ^ 32)
              :: inodeInfo.BlocksLocations.drop (i + 1) := by
        show inodeInfo.BlocksLocations.set i (value % 2 ^ 32) = _
        rw [List.set_eq_take_append_cons_drop, if_pos (by omega)]
      have hl : (inodeInfo.BlocksLocations.take i).length = i := by
        rw [List.length_take]; omega
      have e1 : (inodeInfo.setSlot i value).BlocksLocations.take (i + 1)
          = inodeInfo.BlocksLocations.take i ++ [value % 2 ^ 32] := by
        rw [hset, List.take_append_eq_append_take, hl]
        simp [List.take_of_length_le, hl]
      have e2 : (inodeInfo.setSlot i value).BlocksLocations.drop (i + 1 + rest.length)
          = inodeInfo.BlocksLocations.drop (i + (rest.length + 1)) := by
        show (inodeInfo.BlocksLocations.set i (value % 2 ^ 32)).drop _ = _
        rw [List.drop_set_of_lt _ _ (by omega)]
        congr 1
        omega
      rw [e1, e2]
      simp [List.length_cons]

theorem updateBlockIdsInInode_spec (inodeInfo : Inode) (blocks : List Nat)
    (h : blocks.length ≤ 12) :
    ∃ out, updateBlockIdsInInode inodeInfo blocks = .ok out ∧ out.Mode = inodeInfo.Mode ∧
      out.Size = inodeInfo.Size ∧
      out.BlocksLocations
        = blocks.map (fun v => v % 2 ^ 32) ++ List.replicate (12 - blocks.length) 0 := by
  obtain ⟨out, hout, hm, hs, hb⟩ := fillSlots_spec blocks inodeInfo.zeroSlots 0 (by omega)
  refine ⟨out, hout, hm, hs, ?_⟩
  rw [hb]
  have hz : inodeInfo.zeroSlots.BlocksLocations = List.replicate 12 0 := by
    show inodeInfo.BlocksLocations.map (fun _ => 0) = _
    rw [List.map_const', inodeInfo.slots_len]
  rw [hz, List.take_zero, List.nil_append, Nat.zero_add, List.drop_replicate]

/-! ## The shape of a successful `updateContent` -/

theorem updateContent_ok {σ : Type} (c : Collab σ) (storage : σ) (fsdata : Metadata)
    (inode : Inode) (content : List Byte) (blocks : List Nat)
    (h : (updateContent c storage fsdata inode content).1 = .ok blocks) :
    blocksFor content.length fsdata.BlockSize < 12 ∧
    (updateContent c storage fsdata inode content).2
      = commitLoop c fsdata content blocks 0 storage ∧
    ((blocksFor content.length fsdata.BlockSize < blocksFor inode.Size fsdata.BlockSize ∧
        blocksFor inode.Size fsdata.BlockSize - blocksFor content.length fsdata.BlockSize
          ≤ (gather inode).length ∧
        blocks = (gather inode).take ((gather inode).length -
          (blocksFor inode.Size fsdata.BlockSize - blocksFor content.length fsdata.BlockSize))) ∨
     (blocksFor content.length fsdata.BlockSize = blocksFor inode.Size fsdata.BlockSize ∧
        blocks = gather inode) ∨
     (blocksFor inode.Size fsdata.BlockSize < blocksFor content.length fsdata.BlockSize ∧
        allocLoop c storage fsdata
          (blocksFor content.length fsdata.BlockSize - blocksFor inode.Size fsdata.BlockSize)
          (gather inode) = .ok blocks)) := by
  unfold updateContent at h ⊢
  simp only at h ⊢
  by_cases h12 : 12 ≤ blocksFor content.length fsdata.BlockSize
  · rw [if_pos h12] at h
    exact absurd h (by simp)
  · rw [if_neg h12] at h ⊢
    refine ⟨by omega, ?_⟩
    by_cases hp : blocksFor content.length fsdata.BlockSize < blocksFor inode.Size fsdata.BlockSize ∧
        (gather inode).length
          < blocksFor inode.Size fsdata.BlockSize - blocksFor content.length fsdata.BlockSize
    · rw [if_pos hp] at h
      exact absurd h (by simp)
    · rw [if_neg hp] at h ⊢
      by_cases hlt : blocksFor content.length fsdata.BlockSize < blocksFor inode.Size fsdata.BlockSize
      · have hng : ¬ blocksFor inode.Size fsdata.BlockSize
            < blocksFor content.length fsdata.BlockSize := by omega
        simp only [if_pos hlt, if_neg hng] at h ⊢
        simp only [Except.ok.injEq] at h
        subst h
        exact ⟨rfl, Or.inl ⟨hlt, by omega, rfl⟩⟩
      · by_cases hgt : blocksFor inode.Size fsdata.BlockSize
            < blocksFor content.length fsdata.BlockSize
        · simp only [if_neg hlt, if_pos hgt] at h ⊢
          cases hg : allocLoop c storage fsdata
              (blocksFor content.length fsdata.BlockSize - blocksFor inode.Size fsdata.BlockSize)
              (gather inode) with
          | error e => rw [hg] at h; exact absurd h (by simp)
          | ok out =>
            rw [hg] at h
            simp only [Except.ok.injEq] at h
            subst h
            exact ⟨rfl, Or.inr (Or.inr ⟨hgt, rfl⟩)⟩
        · simp only [if_neg hlt, if_neg hgt] at h ⊢
          simp only [Except.ok.injEq] at h
          subst h
          exact ⟨rfl, Or.inr (Or.inl ⟨by omega, rfl⟩)⟩

theorem commitLoop_allocator_irrelevant {σ : Type} (c : Collab σ)
    (f : σ → Metadata → Bitmap → List Nat → Except String Nat) (fsdata : Metadata)
    (content : List Byte) : ∀ (blocks : List Nat) (i : Nat) (storage : σ),
    commitLoop { c with findFreeBitmapPosition := f } fsdata content blocks i storage
      = commitLoop c fsdata content blocks i storage := by
  intro blocks
  induction blocks with
  | nil => intro i storage; rfl
  | cons value rest ih =>
    intro i storage
    simp only [commitLoop]
    exact ih _ _

theorem nodup_of_fresh (l : List Nat) (n : Nat) (h0 : (l.take n).Nodup)
    (h : ∀ k, n ≤ k → k < l.length → l.getD k 0 ∉ l.take k) : l.Nodup := by
  have key : ∀ k, (l.take (n + k)).Nodup := by
    intro k
    induction k with
    | zero => simpa using h0
    | succ k ih =>
      by_cases hk : n + k < l.length
      · have e : l.take (n + (k + 1)) = l.take (n + k) ++ [l.getD (n + k) 0] := by
          rw [show n + (k + 1) = n + k + 1 by omega, List.take_succ]
          simp [List.getD_eq_getElem?_getD, List.getElem?_eq_getElem hk]
        rw [e, List.nodup_append]
        refine ⟨ih, List.nodup_singleton _, ?_⟩
        intro a ha hb
        simp only [List.mem_singleton] at hb
        subst hb
        exact h (n + k) (by omega) hk ha
      · rw [List.take_of_length_le (by omega)]
        rw [List.take_of_length_le (by omega)] at ih
        exact ih
  have := key l.length
  rwa [List.take_of_length_le (by omega)] at this

theorem allocLoop_mem {σ : Type} (c : Collab σ) (storage : σ) (fsdata : Metadata) :
    ∀ (n : Nat) (gathered out : List Nat), allocLoop c storage fsdata n gathered = .ok out →
      ∀ v ∈ out, v ∈ gathered ∨
        ∃ ex, c.findFreeBitmapPosition storage fsdata Bitmap.Blocks ex = .ok v := by
  intro n
  induction n with
  | zero =>
    intro gathered out h v hv
    simp only [allocLoop, Except.ok.injEq] at h
    subst h
    exact Or.inl hv
  | succ n ih =>
    intro gathered out h v hv
    simp only [allocLoop] at h
    split at h
    · exact absurd h (by simp)
    · rename_i freeBlock hfree
      rcases ih _ _ h v hv with h1 | h1
      · rcases List.mem_append.mp h1 with h2 | h2
        · exact Or.inl h2
        · simp only [List.mem_singleton] at h2
          subst h2
          exact Or.inr ⟨_, hfree⟩
      · exact Or.inr h1

theorem updateContent_mem {σ : Type} (c : Collab σ) (storage : σ) (fsdata : Metadata)
    (inode : Inode) (content : List Byte) (blocks : List Nat)
    (h : (updateContent c storage fsdata inode content).1 = .ok blocks) :
    ∀ v ∈ blocks, v ∈ gather inode ∨
      ∃ ex, c.findFreeBitmapPosition storage fsdata Bitmap.Blocks ex = .ok v := by
  obtain ⟨_, _, hshape⟩ := updateContent_ok c storage fsdata inode content blocks h
  intro v hv
  rcases hshape with h1 | h1 | h1
  · rw [h1.2.2] at hv
    exact Or.inl (List.mem_of_mem_take hv)
  · rw [h1.2] at hv
    exact Or.inl hv
  · exact allocLoop_mem c storage fsdata _ _ _ h1.2 v hv

theorem updateContent_length {σ : Type} (c : Collab σ) (storage : σ) (fsdata : Metadata)
    (inode : Inode) (content : List Byte) (blocks : List Nat)
    (hinv : (gather inode).length = blocksFor inode.Size fsdata.BlockSize)
    (h : (updateContent c storage fsdata inode content).1 = .ok blocks) :
    blocks.length = blocksFor content.length fsdata.BlockSize := by
  obtain ⟨_, _, hshape⟩ := updateContent_ok c storage fsdata inode content blocks h
  rcases hshape with h1 | h1 | h1
  · rw [h1.2.2, List.length_take]
    omega
  · rw [h1.2]
    omega
  · obtain ⟨hlen, _, _⟩ := allocLoop_spec c storage fsdata _ _ _ h1.2
    omega

theorem gather_mem (inode : Inode) (v : Nat) (h : v ∈ gather inode) : v ≠ 0 ∧ v < 2 ^ 32 := by
  unfold gather at h
  rw [List.mem_filter] at h
  exact ⟨by simpa using h.2, inode.slots_lt v h.1⟩

/-! ## The shape of a successful update -/

theorem commit_ok {σ : Type} (c : Collab σ) (tag : String) (storage : σ) (fsdata : Metadata)
    (inodeInfo : Inode) (inode : Nat) (content : List Byte) (committed : Inode)
    (h : (commit c tag storage fsdata inodeInfo inode content).1 = .ok committed) :
    ∃ blocks filled, (updateContent c storage fsdata inodeInfo content).1 = .ok blocks ∧
      updateBlockIdsInInode inodeInfo blocks = .ok filled ∧
      committed = filled.setSize content.length ∧
      (commit c tag storage fsdata inodeInfo inode content).2
        = updateInode c (c.clearInode (updateContent c storage fsdata inodeInfo content).2
            fsdata inode) fsdata committed inode := by
  unfold commit at h ⊢
  generalize updateContent c storage fsdata inodeInfo content = r at h ⊢
  obtain ⟨r1, r2⟩ := r
  cases r1 with
  | error f =>
    cases f <;> exact absurd h (by simp)
  | ok blocks =>
    simp only at h ⊢
    cases hf : updateBlockIdsInInode inodeInfo blocks with
    | error f => rw [hf] at h; exact absurd h (by simp)
    | ok filled =>
      rw [hf] at h
      simp only [Except.ok.injEq] at h
      subst h
      exact ⟨blocks, filled, rfl, hf, rfl, by simp only [hf]⟩

theorem UpdateFile_ok {σ : Type} (c : Collab σ) (storage : σ) (inode : Nat)
    (content : List Byte) (committed : Inode)
    (h : (UpdateFile c storage inode content).1 = .ok committed) :
    ∃ inodeInfo, inode ≠ 0 ∧
      c.getInodeValue storage (c.ReadMetadata storage) Bitmap.Inodes inode = true ∧
      c.ReadInode storage (c.ReadMetadata storage) inode = .ok inodeInfo ∧
      inodeInfo.Mode ≠ 0 ∧
      UpdateFile c storage inode content
        = commit c "update file" (c.clearFile storage inodeInfo.BlocksLocations
            (c.ReadMetadata storage)) (c.ReadMetadata storage) inodeInfo inode content := by
  unfold UpdateFile at h ⊢
  by_cases h0 : inode = 0
  · rw [if_pos h0] at h; exact absurd h (by simp)
  · simp only [if_neg h0] at h ⊢
    cases hocc : c.getInodeValue storage (c.ReadMetadata storage) Bitmap.Inodes inode with
    | false => simp only [hocc] at h; exact absurd h (by simp)
    | true =>
      simp only [hocc] at h ⊢
      cases hread : c.ReadInode storage (c.ReadMetadata storage) inode with
      | error e => simp only [hread] at h; exact absurd h (by simp)
      | ok inodeInfo =>
        simp only [hread] at h ⊢
        by_cases hm : inodeInfo.Mode = 0
        · rw [if_pos hm] at h; exact absurd h (by simp)
        · simp only [if_neg hm] at h ⊢
          exact ⟨inodeInfo, h0, trivial, rfl, hm, by simp⟩

theorem UpdateDirectory_ok {σ : Type} (c : Collab σ) (storage : σ) (inode : Nat)
    (content : List DirectoryEntry) (committed : Inode)
    (h : (UpdateDirectory c storage inode content).1 = .ok committed) :
    ∃ inodeInfo encoded, inode ≠ 0 ∧
      c.getInodeValue storage (c.ReadMetadata storage) Bitmap.Inodes inode = true ∧
      c.ReadInode storage (c.ReadMetadata storage) inode = .ok inodeInfo ∧
      inodeInfo.Mode ≠ 1 ∧ c.EncodeDirectoryContent content = .ok encoded ∧
      UpdateDirectory c storage inode content
        = commit c "update directory" (c.clearFile storage inodeInfo.BlocksLocations
            (c.ReadMetadata storage)) (c.ReadMetadata storage) inodeInfo inode encoded := by
  unfold UpdateDirectory at h ⊢
  by_cases h0 : inode = 0
  · rw [if_pos h0] at h; exact absurd h (by simp)
  · simp only [if_neg h0] at h ⊢
    cases hocc : c.getInodeValue storage (c.ReadMetadata storage) Bitmap.Inodes inode with
    | false => simp only [hocc] at h; exact absurd h (by simp)
    | true =>
      simp only [hocc] at h ⊢
      cases hread : c.ReadInode storage (c.ReadMetadata storage) inode with
      | error e => simp only [hread] at h; exact absurd h (by simp)
      | ok inodeInfo =>
        simp only [hread] at h ⊢
        by_cases hm : inodeInfo.Mode = 1
        · rw [if_pos hm] at h; exact absurd h (by simp)
        · simp only [if_neg hm] at h ⊢
          cases henc : c.EncodeDirectoryContent content with
          | error e => simp only [henc] at h; exact absurd h (by simp)
          | ok encoded =>
            simp only [henc] at h ⊢
            exact ⟨inodeInfo, encoded, h0, trivial, rfl, hm, rfl, by simp⟩

/-- The non-sentinel pointers of a committed record whose blocks are all stored as
non-sentinel values are the stored values of the blocks. -/
theorem gather_filled (inodeInfo filled : Inode) (blocks : List Nat) (n : Nat)
    (hlen : blocks.length ≤ 12)
    (hfill : updateBlockIdsInInode inodeInfo blocks = .ok filled)
    (hnz : ∀ v ∈ blocks, v % 2 ^ 32 ≠ 0) :
    gather (filled.setSize n) = blocks.map (fun v => v % 2 ^ 32) := by
  obtain ⟨out, hout, _, _, hb⟩ := updateBlockIdsInInode_spec inodeInfo blocks hlen
  rw [hfill] at hout
  simp only [Except.ok.injEq] at hout
  subst hout
  show filled.BlocksLocations.filter (fun value => value ≠ 0) = _
  rw [hb, List.filter_append]
  have h1 : (List.replicate (12 - blocks.length) 0).filter (fun value => decide (value ≠ 0)) = [] := by
    rw [List.filter_eq_nil_iff]
    intro a ha
    rw [List.mem_replicate] at ha
    simp [ha.2]
  have h2 : (blocks.map (fun v => v % 2 ^ 32)).filter (fun value => decide (value ≠ 0))
      = blocks.map (fun v => v % 2 ^ 32) := by
    rw [List.filter_eq_self]
    intro a ha
    rw [List.mem_map] at ha
    obtain ⟨v, hv, rfl⟩ := ha
    simpa using hnz v hv
  rw [h1, h2, List.append_nil]

/-! ## The reference environment -/

theorem refFindFree_ok (l : Layout) (storage : Mem) (bitmap : Bitmap) (ex : List Nat) (v : Nat)
    (h : refFindFree l storage bitmap ex = .ok v) :
    v < l.scanStart + l.scanCount ∧ storage (l.flagAt bitmap v) = 0 ∧ v ∉ ex := by
  unfold refFindFree at h
  split at h
  · rename_i i hi
    simp only [Except.ok.injEq] at h
    subst h
    have h1 := List.mem_of_find?_eq_some hi
    have h2 := List.find?_some hi
    simp only [decide_eq_true_eq] at h2
    rw [List.mem_map] at h1
    obtain ⟨j, hj, rfl⟩ := h1
    have := List.mem_range.mp hj
    exact ⟨by omega, h2.1, h2.2⟩
  · exact absurd h (by simp)

/-! ## The inode record as a sequence of writes -/

theorem Sprint_length (n e : Nat) (he : 0 < e) (h : n < 10 ^ e) : (Sprint n).length ≤ e := by
  unfold Sprint
  rw [List.length_map]
  exact Nat.repr_length n e he h

theorem slot_lt (inodeInfo : Inode) (i : Nat) : inodeInfo.BlocksLocations.getD i 0 < 2 ^ 32 := by
  by_cases hi : i < inodeInfo.BlocksLocations.length
  · rw [List.getD_eq_getElem?_getD, List.getElem?_eq_getElem hi]
    exact inodeInfo.slots_lt _ (List.getElem_mem hi)
  · rw [List.getD_eq_getElem?_getD, List.getElem?_eq_none (by omega)]
    decide

theorem updateInode_eq_foldl {σ : Type} (c : Collab σ) (storage : σ) (fsdata : Metadata)
    (inodeInfo : Inode) (inode : Nat) :
    updateInode c storage fsdata inodeInfo inode
      = ((Sprint inodeInfo.Mode, fsdata.Root + inode * c.InodeSize) ::
          (Sprint inodeInfo.Size, fsdata.Root + inode * c.InodeSize + 3) ::
          (List.range 12).map (fun i =>
            (Sprint (inodeInfo.BlocksLocations.getD i 0),
              fsdata.Root + inode * c.InodeSize + 13 + 10 * i))).foldl
          (fun s w => c.Write s w.1 w.2) storage := by
  simp only [updateInode, List.range, List.range.loop, List.foldl, List.map]

/-- Every write of `updateInode` stays inside the 133 bytes of the record when the type
tag is below 1000. -/
theorem updateInode_writes_inside {σ : Type} (c : Collab σ) (fsdata : Metadata)
    (inodeInfo : Inode) (inode : Nat) (hmode : inodeInfo.Mode < 1000) :
    ∀ w ∈ ((Sprint inodeInfo.Mode, fsdata.Root + inode * c.InodeSize) ::
          (Sprint inodeInfo.Size, fsdata.Root + inode * c.InodeSize + 3) ::
          (List.range 12).map (fun i =>
            (Sprint (inodeInfo.BlocksLocations.getD i 0),
              fsdata.Root + inode * c.InodeSize + 13 + 10 * i))),
      ∃ k, w.2 = fsdata.Root + inode * c.InodeSize + k ∧ k + w.1.length ≤ 133 := by
  intro w hw
  simp only [List.mem_cons, List.mem_map, List.mem_range] at hw
  rcases hw with h | h | ⟨i, hi, h⟩
  · subst h
    exact ⟨0, rfl, by have := Sprint_length _ 3 (by decide) (show inodeInfo.Mode < 10 ^ 3 by omega); simp only; omega⟩
  · subst h
    exact ⟨3, rfl, by
      have := Sprint_length _ 10 (by decide)
        (show inodeInfo.Size < 10 ^ 10 by have := inodeInfo.size_lt; omega)
      simp only; omega⟩
  · subst h
    exact ⟨13 + 10 * i, by simp only; omega, by
      have := Sprint_length _ 10 (by decide)
        (show inodeInfo.BlocksLocations.getD i 0 < 10 ^ 10 by
          have := slot_lt inodeInfo i; omega)
      simp only; omega⟩

theorem cutContent_length_le (content : List Byte) (i blockSize : Nat) :
    (cutContent content i blockSize).length ≤ blockSize := by
  unfold cutContent
  rw [List.length_take]
  omega

theorem fillSlots_ok_length : ∀ (blocks : List Nat) (inodeInfo out : Inode) (i : Nat),
    fillSlots inodeInfo i blocks = .ok out → blocks = [] ∨ i + blocks.length ≤ 12 := by
  intro blocks
  induction blocks with
  | nil => intro _ _ _ _; exact Or.inl rfl
  | cons value rest ih =>
    intro inodeInfo out i h
    simp only [fillSlots] at h
    by_cases hi : i < 12
    · rw [if_pos hi] at h
      rcases ih _ _ _ h with h1 | h1
      · subst h1
        exact Or.inr (by simp only [List.length_cons, List.length_nil]; omega)
      · exact Or.inr (by simp only [List.length_cons]; omega)
    · rw [if_neg hi] at h
      exact absurd h (by simp)

theorem updateBlockIdsInInode_ok_length (inodeInfo out : Inode) (blocks : List Nat)
    (h : updateBlockIdsInInode inodeInfo blocks = .ok out) : blocks.length ≤ 12 := by
  rcases fillSlots_ok_length blocks _ _ 0 h with h1 | h1
  · subst h1; simp
  · omega

/-- The non-sentinel pointers of a committed record are the non-zero stored values of the
blocks, in order. -/
theorem gather_committed (inodeInfo filled : Inode) (blocks : List Nat) (n : Nat)
    (hfill : updateBlockIdsInInode inodeInfo blocks = .ok filled) :
    gather (filled.setSize n)
      = (blocks.map (fun v => v % 2 ^ 32)).filter (fun value => value ≠ 0) := by
  have hlen := updateBlockIdsInInode_ok_length _ _ _ hfill
  obtain ⟨out, hout, _, _, hb⟩ := updateBlockIdsInInode_spec inodeInfo blocks hlen
  rw [hfill] at hout
  simp only [Except.ok.injEq] at hout
  subst hout
  show filled.BlocksLocations.filter (fun value => value ≠ 0) = _
  rw [hb, List.filter_append]
  have h1 : (List.replicate (12 - blocks.length) 0).filter (fun value => decide (value ≠ 0)) = [] := by
    rw [List.filter_eq_nil_iff]
    intro a ha
    rw [List.mem_replicate] at ha
    simp [ha.2]
  rw [h1, List.append_nil]

/-! ## Block flags through an update -/

theorem commitLoop_flag_kept {σ : Type} (c : Collab σ) (fsdata : Metadata) (inode n : Nat)
    (hc : BitmapContract c fsdata inode n) (content : List Byte) (w : Nat) (hw : w < n) :
    ∀ (blocks : List Nat) (i : Nat) (s : σ), (∀ b ∈ blocks, b < n) →
      c.getInodeValue s fsdata Bitmap.Blocks w = true →
      c.getInodeValue (commitLoop c fsdata content blocks i s) fsdata Bitmap.Blocks w = true := by
  intro blocks
  induction blocks with
  | nil => intro i s _ h; exact h
  | cons value rest ih =>
    intro i s hb h
    simp only [commitLoop]
    apply ih _ _ (fun b hbm => hb b (List.mem_cons_of_mem _ hbm))
    have hv : value < n := hb value (List.mem_cons_self _ _)
    by_cases hwv : w = value
    · subst hwv
      exact hc.mark_sets _ _ hv
    · rw [hc.mark_exact _ _ _ hv hw hwv,
        hc.write_block _ _ _ _ hv hw (cutContent_length_le _ _ _)]
      exact h

theorem commitLoop_marks {σ : Type} (c : Collab σ) (fsdata : Metadata) (inode n : Nat)
    (hc : BitmapContract c fsdata inode n) (content : List Byte) :
    ∀ (blocks : List Nat) (i : Nat) (s : σ), (∀ b ∈ blocks, b < n) →
      ∀ p ∈ blocks,
        c.getInodeValue (commitLoop c fsdata content blocks i s) fsdata Bitmap.Blocks p = true := by
  intro blocks
  induction blocks with
  | nil => intro i s _ p hp; exact absurd hp (List.not_mem_nil _)
  | cons value rest ih =>
    intro i s hb p hp
    have hrest : ∀ b ∈ rest, b < n := fun b hbm => hb b (List.mem_cons_of_mem _ hbm)
    have hv : value < n := hb value (List.mem_cons_self _ _)
    simp only [commitLoop]
    by_cases hpr : p ∈ rest
    · exact ih _ _ hrest p hpr
    · have hpv : p = value := by
        rcases List.mem_cons.mp hp with h | h
        · exact h
        · exact absurd h hpr
      subst hpv
      exact commitLoop_flag_kept c fsdata inode n hc content p hv rest _ _ hrest
        (hc.mark_sets _ _ hv)

theorem foldl_write_flag_kept {σ : Type} (c : Collab σ) (fsdata : Metadata) (inode n : Nat)
    (hc : BitmapContract c fsdata inode n) (h133 : 133 ≤ c.InodeSize) (w : Nat) (hw : w < n) :
    ∀ (writes : List (List Byte × Nat)) (s : σ),
      (∀ x ∈ writes, ∃ k, x.2 = fsdata.Root + inode * c.InodeSize + k ∧ k + x.1.length ≤ 133) →
      c.getInodeValue (writes.foldl (fun s x => c.Write s x.1 x.2) s) fsdata Bitmap.Blocks w
        = c.getInodeValue s fsdata Bitmap.Blocks w := by
  intro writes
  induction writes with
  | nil => intro s _; rfl
  | cons x rest ih =>
    intro s hx
    simp only [List.foldl_cons]
    rw [ih _ (fun y hy => hx y (List.mem_cons_of_mem _ hy))]
    obtain ⟨k, hk1, hk2⟩ := hx x (List.mem_cons_self _ _)
    rw [hk1]
    exact hc.write_record _ _ _ _ hw (by omega)

theorem updateInode_flag_kept {σ : Type} (c : Collab σ) (fsdata : Metadata) (inode n : Nat)
    (hc : BitmapContract c fsdata inode n) (h133 : 133 ≤ c.InodeSize) (inodeInfo : Inode)
    (hmode : inodeInfo.Mode < 1000) (w : Nat) (hw : w < n) (s : σ) :
    c.getInodeValue (updateInode c s fsdata inodeInfo inode) fsdata Bitmap.Blocks w
      = c.getInodeValue s fsdata Bitmap.Blocks w := by
  rw [updateInode_eq_foldl]
  exact foldl_write_flag_kept c fsdata inode n hc h133 w hw _ s
    (updateInode_writes_inside c fsdata inodeInfo inode hmode)

theorem updateBlockIdsInInode_mode (inodeInfo filled : Inode) (blocks : List Nat)
    (hfill : updateBlockIdsInInode inodeInfo blocks = .ok filled) :
    filled.Mode = inodeInfo.Mode := by
  obtain ⟨out, hout, hm, _, _⟩ := updateBlockIdsInInode_spec inodeInfo blocks
    (updateBlockIdsInInode_ok_length _ _ _ hfill)
  rw [hfill] at hout
  simp only [Except.ok.injEq] at hout
  subst hout
  exact hm

/-- After a successful `commit` every pointer of the committed record is flagged. -/
theorem commit_marks {σ : Type} (c : Collab σ) (tag : String) (storage : σ) (fsdata : Metadata)
    (inodeInfo : Inode) (inode n : Nat) (content : List Byte) (committed : Inode)
    (hn : n ≤ 2 ^ 32) (hc : BitmapContract c fsdata inode n) (h133 : 133 ≤ c.InodeSize)
    (hmode : inodeInfo.Mode < 1000) (hprior : ∀ p ∈ gather inodeInfo, p < n)
    (halloc : ∀ ex v, c.findFreeBitmapPosition storage fsdata Bitmap.Blocks ex = .ok v → v < n)
    (hok : (commit c tag storage fsdata inodeInfo inode content).1 = .ok committed) :
    ∀ p ∈ gather committed,
      c.getInodeValue (commit c tag storage fsdata inodeInfo inode content).2
        fsdata Bitmap.Blocks p = true := by
  obtain ⟨blocks, filled, hblocks, hfill, hcom, hst⟩ := commit_ok _ _ _ _ _ _ _ _ hok
  obtain ⟨_, hloop, _⟩ := updateContent_ok _ _ _ _ _ _ hblocks
  have hlt : ∀ b ∈ blocks, b < n := by
    intro b hb
    rcases updateContent_mem _ _ _ _ _ _ hblocks b hb with h | ⟨ex, h⟩
    · exact hprior b h
    · exact halloc ex b h
  intro p hp
  rw [hcom, gather_committed inodeInfo filled blocks _ hfill, List.mem_filter, List.mem_map] at hp
  obtain ⟨⟨b, hb, hbp⟩, _⟩ := hp
  have hbn := hlt b hb
  have hpb : p = b := by rw [← hbp]; exact Nat.mod_eq_of_lt (by omega)
  subst hpb
  have hcm : committed.Mode < 1000 := by
    rw [hcom]
    show filled.Mode < 1000
    rw [updateBlockIdsInInode_mode _ _ _ hfill]
    exact hmode
  rw [hst, updateInode_flag_kept c fsdata inode n hc h133 committed hcm p hbn,
    hc.clear_record _ _ hbn, hloop]
  exact commitLoop_marks c fsdata inode n hc content blocks 0 storage hlt p hb

/-- The reference environment honours the bitmap contract when the block flags of the
indices below `n` lie outside the blocks of those indices and outside the inode record. -/
theorem refCollab_bitmapContract (l : Layout) (inode n : Nat)
    (hblocks : l.blockFlags + n ≤ l.fsdata.FirstBlock ∨
      l.fsdata.FirstBlock + n * l.fsdata.BlockSize ≤ l.blockFlags)
    (hrecord : l.blockFlags + n ≤ l.fsdata.Root + inode * 133 ∨
      l.fsdata.Root + inode * 133 + 133 ≤ l.blockFlags) :
    BitmapContract (refCollab l) l.fsdata inode n where
  mark_sets := by
    intro s v _
    simp [refCollab, writeBytes, Layout.flagAt]
  mark_exact := by
    intro s v w _ _ hwv
    simp only [refCollab, writeBytes, Layout.flagAt, List.length_singleton]
    rw [if_neg (by omega)]
  write_block := by
    intro s payload v w hv hw hlen
    simp only [refCollab, writeBytes, Layout.flagAt]
    have h1 : v * l.fsdata.BlockSize + l.fsdata.BlockSize ≤ n * l.fsdata.BlockSize := by
      have : (v + 1) * l.fsdata.BlockSize ≤ n * l.fsdata.BlockSize :=
        Nat.mul_le_mul_right _ hv
      rw [Nat.add_mul, Nat.one_mul] at this
      exact this
    rw [if_neg (by omega)]
  write_record := by
    intro s payload k w hw hlen
    simp only [refCollab, writeBytes, Layout.flagAt]
    have : k + payload.length ≤ 133 := hlen
    rw [if_neg (by omega)]
  clear_record := by
    intro s w hw
    simp only [refCollab, writeBytes, Layout.flagAt, List.length_replicate]
    rw [if_neg (by omega)]

/-! ## Block contents through an update -/

theorem block_ranges_disjoint (v w bs t len : Nat) (hvw : v ≠ w) (ht : t < bs) (hlen : len ≤ bs) :
    ¬ (v * bs ≤ w * bs + t ∧ w * bs + t < v * bs + len) := by
  rcases Nat.lt_or_gt_of_ne hvw with h | h
  · have : (v + 1) * bs ≤ w * bs := Nat.mul_le_mul_right _ h
    rw [Nat.add_mul, Nat.one_mul] at this
    omega
  · have : (w + 1) * bs ≤ v * bs := Nat.mul_le_mul_right _ h
    rw [Nat.add_mul, Nat.one_mul] at this
    omega

theorem block_inside_area (w n bs t : Nat) (hw : w < n) (ht : t < bs) :
    w * bs + t < n * bs := by
  have : (w + 1) * bs ≤ n * bs := Nat.mul_le_mul_right _ hw
  rw [Nat.add_mul, Nat.one_mul] at this
  omega

theorem commitLoop_peek_frame {σ : Type} (c : Collab σ) (peek : σ → Nat → Byte)
    (fsdata : Metadata) (inode n : Nat) (hc : BlockContract c peek fsdata inode n)
    (content : List Byte) (w : Nat) (hw : w < n) (t : Nat) (ht : t < fsdata.BlockSize) :
    ∀ (rest : List Nat) (i : Nat) (s : σ), (∀ b ∈ rest, b < n) → w ∉ rest →
      peek (commitLoop c fsdata content rest i s)
          (fsdata.FirstBlock + w * fsdata.BlockSize + t)
        = peek s (fsdata.FirstBlock + w * fsdata.BlockSize + t) := by
  intro rest
  induction rest with
  | nil => intro i s _ _; rfl
  | cons value tail ih =>
    intro i s hb hmem
    simp only [commitLoop]
    have hv : value < n := hb value (List.mem_cons_self _ _)
    have hne : value ≠ w := fun h => hmem (h ▸ List.mem_cons_self _ _)
    rw [ih _ _ (fun b hbm => hb b (List.mem_cons_of_mem _ hbm))
      (fun h => hmem (List.mem_cons_of_mem _ h))]
    have harea := block_inside_area w n fsdata.BlockSize t hw ht
    rw [hc.peek_mark _ _ _ hv (by omega) (by omega), hc.peek_write]
    have hd := block_ranges_disjoint value w fsdata.BlockSize t
      (cutContent content i fsdata.BlockSize).length hne ht (cutContent_length_le _ _ _)
    rw [if_neg (by omega)]

theorem commitLoop_peek {σ : Type} (c : Collab σ) (peek : σ → Nat → Byte)
    (fsdata : Metadata) (inode n : Nat) (hc : BlockContract c peek fsdata inode n)
    (content : List Byte) :
    ∀ (blocks : List Nat) (i : Nat) (s : σ), blocks.Nodup → (∀ b ∈ blocks, b < n) →
      ∀ j, j < blocks.length → ∀ t, t < (cutContent content (i + j) fsdata.BlockSize).length →
        peek (commitLoop c fsdata content blocks i s)
            (fsdata.FirstBlock + blocks.getD j 0 * fsdata.BlockSize + t)
          = (cutContent content (i + j) fsdata.BlockSize).getD t 0 := by
  intro blocks
  induction blocks with
  | nil => intro i s _ _ j hj; exact absurd hj (by simp)
  | cons value tail ih =>
    intro i s hnd hb j hj t ht
    have hv : value < n := hb value (List.mem_cons_self _ _)
    have htail : ∀ b ∈ tail, b < n := fun b hbm => hb b (List.mem_cons_of_mem _ hbm)
    rw [List.nodup_cons] at hnd
    simp only [commitLoop]
    cases j with
    | zero =>
      have htb : t < fsdata.BlockSize :=
        Nat.lt_of_lt_of_le ht (cutContent_length_le _ _ _)
      simp only [List.getD_cons_zero, Nat.add_zero] at ht ⊢
      rw [commitLoop_peek_frame c peek fsdata inode n hc content value hv t htb tail _ _ htail
        hnd.1]
      have harea := block_inside_area value n fsdata.BlockSize t hv htb
      rw [hc.peek_mark _ _ _ hv (by omega) (by omega), hc.peek_write, if_pos (by omega)]
      congr 1
      omega
    | succ j =>
      simp only [List.getD_cons_succ]
      have e : i + (j + 1) = i + 1 + j := by omega
      rw [e] at ht ⊢
      exact ih (i + 1) _ hnd.2 htail j (by simpa using hj) t ht

theorem foldl_write_peek_kept {σ : Type} (c : Collab σ) (peek : σ → Nat → Byte)
    (fsdata : Metadata) (inode n : Nat) (hc : BlockContract c peek fsdata inode n)
    (hrec : fsdata.Root + inode * c.InodeSize + 133 ≤ fsdata.FirstBlock) (a : Nat)
    (ha : fsdata.FirstBlock ≤ a) :
    ∀ (writes : List (List Byte × Nat)) (s : σ),
      (∀ x ∈ writes, ∃ k, x.2 = fsdata.Root + inode * c.InodeSize + k ∧ k + x.1.length ≤ 133) →
      peek (writes.foldl (fun s x => c.Write s x.1 x.2) s) a = peek s a := by
  intro writes
  induction writes with
  | nil => intro s _; rfl
  | cons x rest ih =>
    intro s hx
    simp only [List.foldl_cons]
    rw [ih _ (fun y hy => hx y (List.mem_cons_of_mem _ hy))]
    obtain ⟨k, hk1, hk2⟩ := hx x (List.mem_cons_self _ _)
    rw [hc.peek_write, if_neg (by omega)]

theorem list_eq_map_range (l : List Byte) :
    l = (List.range l.length).map (fun t => l.getD t 0) := by
  apply List.ext_getElem
  · simp
  · intro i h1 h2
    simp [List.getD_eq_getElem?_getD, List.getElem?_eq_getElem h1]

theorem readAt_eq {σ : Type} (peek : σ → Nat → Byte) (s : σ) (off : Nat) (chunk : List Byte)
    (h : ∀ t, t < chunk.length → peek s (off + t) = chunk.getD t 0) :
    readAt peek s off chunk.length = chunk := by
  conv_rhs => rw [list_eq_map_range chunk]
  unfold readAt
  apply List.map_congr_left
  intro t ht
  exact h t (List.mem_range.mp ht)

theorem join_chunks (content : List Byte) (bs : Nat) : ∀ k,
    ((List.range k).map (fun j => cutContent content j bs)).flatten = content.take (k * bs) := by
  intro k
  induction k with
  | zero => simp
  | succ k ih =>
    rw [List.range_succ, List.map_append, List.flatten_append, ih]
    simp only [List.map_cons, List.map_nil, List.flatten_cons, List.flatten_nil, List.append_nil]
    unfold cutContent
    rw [Nat.add_mul, Nat.one_mul, List.take_add]

theorem cutContent_length (content : List Byte) (j bs : Nat) :
    (cutContent content j bs).length = min bs (content.length - j * bs) := by
  unfold cutContent
  rw [List.length_take, List.length_drop]

theorem blocksFor_bounds (L bs : Nat) (hbs : 0 < bs) :
    (blocksFor L bs - 1) * bs ≤ L ∧ L ≤ blocksFor L bs * bs := by
  have h1 : ceilDiv L bs ≤ blocksFor L bs := by rw [blocksFor_eq_max]; omega
  have hup : L ≤ blocksFor L bs * bs := (ceilDiv_le_iff hbs _).mp h1
  refine ⟨?_, hup⟩
  by_cases hk : blocksFor L bs = 1
  · rw [hk]; simp
  · have hc : blocksFor L bs = ceilDiv L bs := by
      rw [blocksFor_eq_max] at hk ⊢; omega
    by_contra hcon
    have : ceilDiv L bs ≤ blocksFor L bs - 1 := (ceilDiv_le_iff hbs _).mpr (by omega)
    have := blocksFor_pos L bs
    omega

theorem updateContent_nodup {σ : Type} (c : Collab σ) (storage : σ) (fsdata : Metadata)
    (inode : Inode) (content : List Byte) (blocks : List Nat)
    (hnodup : (gather inode).Nodup)
    (halloc : ∀ ex v, c.findFreeBitmapPosition storage fsdata Bitmap.Blocks ex = .ok v → v ∉ ex)
    (h : (updateContent c storage fsdata inode content).1 = .ok blocks) : blocks.Nodup := by
  obtain ⟨_, _, hshape⟩ := updateContent_ok c storage fsdata inode content blocks h
  rcases hshape with h1 | h1 | h1
  · rw [h1.2.2]
    exact hnodup.sublist (List.take_sublist _ _)
  · rw [h1.2]
    exact hnodup
  · obtain ⟨_, hpre, hq⟩ := allocLoop_spec c storage fsdata _ _ _ h1.2
    apply nodup_of_fresh blocks (gather inode).length (by rw [hpre]; exact hnodup)
    intro k hk1 hk2
    have := hq (k - (gather inode).length) (by
      have := (allocLoop_spec c storage fsdata _ _ _ h1.2).1
      omega)
    rw [show (gather inode).length + (k - (gather inode).length) = k by omega] at this
    exact halloc _ _ this

/-- Reading back after a successful `commit` gives the content. -/
theorem commit_readBack {σ : Type} (c : Collab σ) (peek : σ → Nat → Byte) (tag : String)
    (storage : σ) (fsdata : Metadata) (inodeInfo : Inode) (inode n : Nat)
    (content : List Byte) (committed : Inode)
    (hbs : 0 < fsdata.BlockSize) (hn : n ≤ 2 ^ 32)
    (hc : BlockContract c peek fsdata inode n)
    (hrec : fsdata.Root + inode * c.InodeSize + 133 ≤ fsdata.FirstBlock)
    (hmode : inodeInfo.Mode < 1000)
    (hinv : (gather inodeInfo).length = blocksFor inodeInfo.Size fsdata.BlockSize)
    (hnodup : (gather inodeInfo).Nodup) (hprior : ∀ p ∈ gather inodeInfo, p < n)
    (halloc : ∀ ex v, c.findFreeBitmapPosition storage fsdata Bitmap.Blocks ex = .ok v →
      v ∉ ex ∧ v ≠ 0 ∧ v < n)
    (hok : (commit c tag storage fsdata inodeInfo inode content).1 = .ok committed) :
    readBack peek (commit c tag storage fsdata inodeInfo inode content).2 fsdata committed
      content.length = content := by
  obtain ⟨blocks, filled, hblocks, hfill, hcom, hst⟩ := commit_ok _ _ _ _ _ _ _ _ hok
  obtain ⟨_, hloop, _⟩ := updateContent_ok _ _ _ _ _ _ hblocks
  have hk := updateContent_length _ _ _ _ _ _ hinv hblocks
  have hnd := updateContent_nodup _ _ _ _ _ _ hnodup (fun ex v h => (halloc ex v h).1) hblocks
  have hlt : ∀ b ∈ blocks, b ≠ 0 ∧ b < n := by
    intro b hb
    rcases updateContent_mem _ _ _ _ _ _ hblocks b hb with h | ⟨ex, h⟩
    · exact ⟨(gather_mem _ _ h).1, hprior b h⟩
    · exact (halloc ex b h).2
  have hgc : gather committed = blocks := by
    rw [hcom, gather_committed inodeInfo filled blocks _ hfill]
    have hmap : blocks.map (fun v => v % 2 ^ 32) = blocks := by
      conv_rhs => rw [← List.map_id blocks]
      apply List.map_congr_left
      intro b hb
      exact Nat.mod_eq_of_lt (by have := (hlt b hb).2; omega)
    rw [hmap, List.filter_eq_self]
    intro b hb
    simpa using (hlt b hb).1
  have hcm : committed.Mode < 1000 := by
    rw [hcom]
    show filled.Mode < 1000
    rw [updateBlockIdsInInode_mode _ _ _ hfill]
    exact hmode
  have hpeek : ∀ a, fsdata.FirstBlock ≤ a → a < fsdata.FirstBlock + n * fsdata.BlockSize →
      peek (commit c tag storage fsdata inodeInfo inode content).2 a
        = peek (commitLoop c fsdata content blocks 0 storage) a := by
    intro a ha1 ha2
    rw [hst, updateInode_eq_foldl,
      foldl_write_peek_kept c peek fsdata inode n hc hrec a ha1 _ _
        (updateInode_writes_inside c fsdata committed inode hcm),
      hc.peek_clear _ _ ha1 ha2, hloop]
  have hb := blocksFor_bounds content.length fsdata.BlockSize hbs
  unfold readBack
  simp only [hgc, hk]
  have hall : content = content.take (blocksFor content.length fsdata.BlockSize * fsdata.BlockSize) := by
    rw [List.take_of_length_le hb.2]
  conv_rhs => rw [hall, ← join_chunks]
  congr 1
  apply List.map_congr_left
  intro j hj
  have hjk : j < blocksFor content.length fsdata.BlockSize := List.mem_range.mp hj
  have hcount : (if j + 1 = blocksFor content.length fsdata.BlockSize
        then content.length - (blocksFor content.length fsdata.BlockSize - 1) * fsdata.BlockSize
        else fsdata.BlockSize)
      = (cutContent content j fsdata.BlockSize).length := by
    rw [cutContent_length]
    by_cases hlast : j + 1 = blocksFor content.length fsdata.BlockSize
    · rw [if_pos hlast]
      have hj' : j = blocksFor content.length fsdata.BlockSize - 1 := by omega
      have hmul : blocksFor content.length fsdata.BlockSize * fsdata.BlockSize
          = (blocksFor content.length fsdata.BlockSize - 1) * fsdata.BlockSize
            + fsdata.BlockSize := by
        rw [← hlast, Nat.add_sub_cancel, Nat.add_mul, Nat.one_mul]
      rw [← hj'] at hb hmul ⊢
      omega
    · rw [if_neg hlast]
      have hle : (j + 1) * fsdata.BlockSize
          ≤ (blocksFor content.length fsdata.BlockSize - 1) * fsdata.BlockSize :=
        Nat.mul_le_mul_right _ (by omega)
      rw [Nat.add_mul, Nat.one_mul] at hle
      omega
  rw [hcount]
  apply readAt_eq
  intro t ht
  have hjb : j < blocks.length := by omega
  have hbj : blocks.getD j 0 ∈ blocks := by
    rw [List.getD_eq_getElem?_getD, List.getElem?_eq_getElem hjb]
    exact List.getElem_mem hjb
  have htb : t < fsdata.BlockSize := Nat.lt_of_lt_of_le ht (cutContent_length_le _ _ _)
  have harea := block_inside_area _ n fsdata.BlockSize t (hlt _ hbj).2 htb
  rw [hpeek _ (by omega) (by omega)]
  have := commitLoop_peek c peek fsdata inode n hc content blocks 0 storage hnd
    (fun b hb => (hlt b hb).2) j hjb t (by rwa [Nat.zero_add])
  rw [Nat.zero_add] at this
  exact this

/-- The reference environment honours the block contract when the block flags of the
indices below `n` lie outside the block area and the inode record lies below it. -/
theorem refCollab_blockContract (l : Layout) (inode n : Nat)
    (hflags : l.blockFlags + n ≤ l.fsdata.FirstBlock ∨
      l.fsdata.FirstBlock + n * l.fsdata.BlockSize ≤ l.blockFlags)
    (hrecord : l.fsdata.Root + inode * 133 + 133 ≤ l.fsdata.FirstBlock) :
    BlockContract (refCollab l) (fun s a => s a) l.fsdata inode n where
  peek_write := by
    intro s payload off a
    rfl
  peek_mark := by
    intro s v a hv ha1 ha2
    simp only [refCollab, writeBytes, Layout.flagAt, List.length_singleton]
    rw [if_neg (by omega)]
  peek_clear := by
    intro s a ha1 ha2
    simp only [refCollab, writeBytes, List.length_replicate]
    rw [if_neg (by omega)]

/-! ## Block ownership through an update -/

/-- After a successful `commit` the committed pointers are pairwise distinct and none of
them is referenced by another inode, when the allocator returns free, fresh, 32-bit
indices and `clearFile` has changed no flag but those of the inode's own pointers. -/
theorem commit_no_double_booking {σ : Type} (c : Collab σ) (tag : String) (before storage : σ)
    (fsdata : Metadata) (inodeInfo : Inode) (inode m : Nat) (content : List Byte)
    (committed : Inode)
    (hown : pointersOf c before fsdata inode = gather inodeInfo) (hm : inode < m)
    (hclear : ∀ w, w ∉ gather inodeInfo →
      c.getInodeValue storage fsdata Bitmap.Blocks w
        = c.getInodeValue before fsdata Bitmap.Blocks w)
    (hused : ∀ i, i < m → ∀ p ∈ pointersOf c before fsdata i,
      c.getInodeValue before fsdata Bitmap.Blocks p = true)
    (hbook : NoDoubleBooking c before fsdata m)
    (halloc : ∀ ex v, c.findFreeBitmapPosition storage fsdata Bitmap.Blocks ex = .ok v →
      c.getInodeValue storage fsdata Bitmap.Blocks v = false ∧ v ∉ ex ∧ v < 2 ^ 32)
    (hok : (commit c tag storage fsdata inodeInfo inode content).1 = .ok committed) :
    (gather committed).Nodup ∧
    ∀ j, j < m → j ≠ inode → ∀ p ∈ gather committed, p ∉ pointersOf c before fsdata j := by
  obtain ⟨blocks, filled, hblocks, hfill, hcom, _⟩ := commit_ok _ _ _ _ _ _ _ _ hok
  have hgn : (gather inodeInfo).Nodup := by rw [← hown]; exact hbook.1 inode hm
  have hnd := updateContent_nodup _ _ _ _ _ _ hgn (fun ex v h => (halloc ex v h).2.1) hblocks
  have hlt : ∀ b ∈ blocks, b < 2 ^ 32 := by
    intro b hb
    rcases updateContent_mem _ _ _ _ _ _ hblocks b hb with h | ⟨ex, h⟩
    · exact (gather_mem _ _ h).2
    · exact (halloc ex b h).2.2
  have hmap : blocks.map (fun v => v % 2 ^ 32) = blocks := by
    conv_rhs => rw [← List.map_id blocks]
    apply List.map_congr_left
    intro b hb
    exact Nat.mod_eq_of_lt (hlt b hb)
  have hgc : gather committed = blocks.filter (fun value => value ≠ 0) := by
    rw [hcom, gather_committed inodeInfo filled blocks _ hfill, hmap]
  refine ⟨by rw [hgc]; exact hnd.filter _, ?_⟩
  intro j hj hji p hp hpj
  rw [hgc] at hp
  have hpb : p ∈ blocks := (List.mem_filter.mp hp).1
  rcases updateContent_mem _ _ _ _ _ _ hblocks p hpb with h | ⟨ex, h⟩
  · rw [← hown] at h
    exact hbook.2 inode hm j hj (Ne.symm hji) p h hpj
  · have hfree := (halloc ex p h).1
    have hnot : p ∉ gather inodeInfo := by
      intro hin
      rw [← hown] at hin
      exact hbook.2 inode hm j hj (Ne.symm hji) p hin hpj
    rw [hclear p hnot, hused j hj p hpj] at hfree
    exact absurd hfree (by simp)

/-- When after an update the inode table reads the committed record for the updated inode
and the former records for the others, the state after has no double booking. -/
theorem noDoubleBooking_after {σ : Type} (c : Collab σ) (before after : σ) (fsdata : Metadata)
    (inode m : Nat) (committed : Inode) (hbook : NoDoubleBooking c before fsdata m)
    (hnew : (gather committed).Nodup ∧
      ∀ j, j < m → j ≠ inode → ∀ p ∈ gather committed, p ∉ pointersOf c before fsdata j)
    (hpost : ∀ i, i < m → pointersOf c after fsdata i
      = if i = inode then gather committed else pointersOf c before fsdata i) :
    NoDoubleBooking c after fsdata m := by
  constructor
  · intro i hi
    rw [hpost i hi]
    by_cases h : i = inode
    · rw [if_pos h]; exact hnew.1
    · rw [if_neg h]; exact hbook.1 i hi
  · intro i hi j hj hij p hp
    rw [hpost i hi] at hp
    rw [hpost j hj]
    by_cases h1 : i = inode
    · rw [if_pos h1] at hp
      have h2 : j ≠ inode := fun h => hij (h1.trans h.symm)
      rw [if_neg h2]
      exact hnew.2 j hj h2 p hp
    · rw [if_neg h1] at hp
      by_cases h2 : j = inode
      · rw [if_pos h2]
        intro hq
        exact hnew.2 i hi h1 p hq hp
      · rw [if_neg h2]
        exact hbook.2 i hi j hj hij p hp

theorem noDoubleBooking_iff {σ : Type} (c : Collab σ) (storage : σ) (fsdata : Metadata)
    (m : Nat) :
    NoDoubleBooking c storage fsdata m ↔
      (∀ i, i < m → (pointersOf c storage fsdata i).Nodup) ∧
      (∀ i, i < m → ∀ j, j < m →
        i = j ∨ ∀ p ∈ pointersOf c storage fsdata i, p ∉ pointersOf c storage fsdata j) := by
  unfold NoDoubleBooking
  constructor
  · intro h
    refine ⟨h.1, fun i hi j hj => ?_⟩
    by_cases hij : i = j
    · exact Or.inl hij
    · exact Or.inr (h.2 i hi j hj hij)
  · intro h
    exact ⟨h.1, fun i hi j hj hij => (h.2 i hi j hj).resolve_left hij⟩

theorem pointersOf_of_read {σ : Type} (c : Collab σ) (storage : σ) (fsdata : Metadata)
    (i : Nat) (inodeInfo : Inode)
    (hocc : c.getInodeValue storage fsdata Bitmap.Inodes i = true)
    (hread : c.ReadInode storage fsdata i = .ok inodeInfo) :
    pointersOf c storage fsdata i = gather inodeInfo := by
  unfold pointersOf
  rw [if_pos hocc, hread]

theorem refClearFile_flag (l : Layout) (w : Nat) : ∀ (blocks : List Nat) (s : Mem),
    w ∉ blocks.filter (fun value => value ≠ 0) →
    refClearFile l s blocks (l.flagAt Bitmap.Blocks w) = s (l.flagAt Bitmap.Blocks w) := by
  intro blocks
  unfold refClearFile
  induction blocks with
  | nil => intro s _; rfl
  | cons value rest ih =>
    intro s hw
    simp only [List.foldl_cons]
    by_cases hv : value = 0
    · rw [if_pos hv]
      apply ih
      intro h
      apply hw
      rw [List.filter_cons]
      simp only [hv, ne_eq, not_true_eq_false, decide_False]
      exact h
    · rw [if_neg hv]
      have hw' : w ≠ value ∧ w ∉ rest.filter (fun value => value ≠ 0) := by
        rw [List.filter_cons] at hw
        simp only [ne_eq, hv, not_false_eq_true, decide_True, if_true, List.mem_cons,
          not_or] at hw
        exact hw
      rw [ih _ hw'.2]
      simp only [writeBytes, Layout.flagAt, List.length_singleton]
      rw [if_neg (by omega)]

/-! ## The inode table through an update -/

theorem commitLoop_untouched {σ α : Type} (c : Collab σ) (fsdata : Metadata) (inode n : Nat)
    (obs : σ → α) (hu : Untouched c fsdata inode n obs) (content : List Byte) :
    ∀ (blocks : List Nat) (i : Nat) (s : σ), (∀ b ∈ blocks, b < n) →
      obs (commitLoop c fsdata content blocks i s) = obs s := by
  intro blocks
  induction blocks with
  | nil => intro i s _; rfl
  | cons value rest ih =>
    intro i s hb
    simp only [commitLoop]
    rw [ih _ _ (fun b hbm => hb b (List.mem_cons_of_mem _ hbm))]
    have hv := hb value (List.mem_cons_self _ _)
    rw [hu.mark _ _ hv, hu.write_block _ _ _ hv (cutContent_length_le _ _ _)]

theorem foldl_write_untouched {σ α : Type} (c : Collab σ) (fsdata : Metadata) (inode n : Nat)
    (obs : σ → α) (hu : Untouched c fsdata inode n obs) (h133 : 133 ≤ c.InodeSize) :
    ∀ (writes : List (List Byte × Nat)) (s : σ),
      (∀ x ∈ writes, ∃ k, x.2 = fsdata.Root + inode * c.InodeSize + k ∧ k + x.1.length ≤ 133) →
      obs (writes.foldl (fun s x => c.Write s x.1 x.2) s) = obs s := by
  intro writes
  induction writes with
  | nil => intro s _; rfl
  | cons x rest ih =>
    intro s hx
    simp only [List.foldl_cons]
    rw [ih _ (fun y hy => hx y (List.mem_cons_of_mem _ hy))]
    obtain ⟨k, hk1, hk2⟩ := hx x (List.mem_cons_self _ _)
    rw [hk1]
    exact hu.write_record _ _ _ (by omega)

/-- An observation that the steps of an update leave alone is the same after a successful
`commit` as before it. -/
theorem commit_untouched {σ α : Type} (c : Collab σ) (tag : String) (storage : σ)
    (fsdata : Metadata) (inodeInfo : Inode) (inode n : Nat) (content : List Byte)
    (committed : Inode) (obs : σ → α) (hu : Untouched c fsdata inode n obs)
    (h133 : 133 ≤ c.InodeSize) (hmode : inodeInfo.Mode < 1000)
    (hprior : ∀ p ∈ gather inodeInfo, p < n)
    (halloc : ∀ ex v, c.findFreeBitmapPosition storage fsdata Bitmap.Blocks ex = .ok v → v < n)
    (hok : (commit c tag storage fsdata inodeInfo inode content).1 = .ok committed) :
    obs (commit c tag storage fsdata inodeInfo inode content).2 = obs storage := by
  obtain ⟨blocks, filled, hblocks, hfill, hcom, hst⟩ := commit_ok _ _ _ _ _ _ _ _ hok
  obtain ⟨_, hloop, _⟩ := updateContent_ok _ _ _ _ _ _ hblocks
  have hlt : ∀ b ∈ blocks, b < n := by
    intro b hb
    rcases updateContent_mem _ _ _ _ _ _ hblocks b hb with h | ⟨ex, h⟩
    · exact hprior b h
    · exact halloc ex b h
  have hcm : committed.Mode < 1000 := by
    rw [hcom]
    show filled.Mode < 1000
    rw [updateBlockIdsInInode_mode _ _ _ hfill]
    exact hmode
  rw [hst, updateInode_eq_foldl,
    foldl_write_untouched c fsdata inode n obs hu h133 _ _
      (updateInode_writes_inside c fsdata committed inode hcm),
    hu.clear_record, hloop]
  exact commitLoop_untouched c fsdata inode n obs hu content blocks 0 storage hlt

/-- The record that the table reads for the updated inode after a successful `commit`, when
the table reads back what `updateInode` writes over a cleared record. -/
theorem commit_reads_back {σ : Type} (c : Collab σ) (tag : String) (storage : σ)
    (fsdata : Metadata) (inodeInfo : Inode) (inode : Nat) (content : List Byte)
    (committed : Inode)
    (hback : ∀ s, c.ReadInode (updateInode c (c.clearInode s fsdata inode) fsdata committed inode)
      fsdata inode = .ok committed)
    (hok : (commit c tag storage fsdata inodeInfo inode content).1 = .ok committed) :
    c.ReadInode (commit c tag storage fsdata inodeInfo inode content).2 fsdata inode
      = .ok committed := by
  obtain ⟨blocks, filled, _, _, _, hst⟩ := commit_ok _ _ _ _ _ _ _ _ hok
  rw [hst]
  exact hback _

theorem writeBytes_frame (s : Mem) (payload : List Byte) (off a : Nat)
    (h : a < off ∨ off + payload.length ≤ a) : writeBytes s payload off a = s a := by
  unfold writeBytes
  rw [if_neg (by omega)]

theorem writeBytes_congr (s t : Mem) (payload : List Byte) (off a : Nat) (h : s a = t a) :
    writeBytes s payload off a = writeBytes t payload off a := by
  unfold writeBytes
  split
  · rfl
  · exact h

theorem refClearFile_frame (l : Layout) (a : Nat) : ∀ (blocks : List Nat) (s : Mem),
    (∀ v ∈ blocks, v ≠ 0 → l.blockFlags + v ≠ a) → refClearFile l s blocks a = s a := by
  intro blocks
  unfold refClearFile
  induction blocks with
  | nil => intro s _; rfl
  | cons value rest ih =>
    intro s h
    simp only [List.foldl_cons]
    rw [ih _ (fun v hv => h v (List.mem_cons_of_mem _ hv))]
    split
    · rfl
    · rename_i hv
      have hne := h value (List.mem_cons_self _ _) hv
      simp only [writeBytes, Layout.flagAt, List.length_singleton]
      rw [if_neg (by omega)]

/-- In the reference environment an observation that depends only on addresses outside
the block area, outside the block flags and outside the record of the updated inode is
left alone by the steps of an update. -/
theorem refCollab_untouched {α : Type} (l : Layout) (inode n : Nat) (obs : Mem → α)
    (A : Nat → Prop) (hobs : ∀ s t : Mem, (∀ a, A a → s a = t a) → obs s = obs t)
    (hA : ∀ a, A a →
      (a < l.fsdata.FirstBlock ∨ l.fsdata.FirstBlock + n * l.fsdata.BlockSize ≤ a) ∧
      (a < l.blockFlags ∨ l.blockFlags + n ≤ a) ∧
      (a < l.fsdata.Root + inode * 133 ∨ l.fsdata.Root + inode * 133 + 133 ≤ a)) :
    Untouched (refCollab l) l.fsdata inode n obs where
  clear_file := by
    intro s slots hs
    apply hobs
    intro a ha
    show refClearFile l s slots a = s a
    apply refClearFile_frame
    intro v hv hv0
    have := hs v hv hv0
    have := (hA a ha).2.1
    omega
  write_block := by
    intro s payload v hv hlen
    apply hobs
    intro a ha
    show writeBytes s payload _ a = s a
    apply writeBytes_frame
    have h1 : v * l.fsdata.BlockSize + l.fsdata.BlockSize ≤ n * l.fsdata.BlockSize := by
      have : (v + 1) * l.fsdata.BlockSize ≤ n * l.fsdata.BlockSize :=
        Nat.mul_le_mul_right _ hv
      rw [Nat.add_mul, Nat.one_mul] at this
      exact this
    have := (hA a ha).1
    omega
  mark := by
    intro s v hv
    apply hobs
    intro a ha
    show writeBytes s _ (l.flagAt Bitmap.Blocks v) a = s a
    apply writeBytes_frame
    have := (hA a ha).2.1
    simp only [Layout.flagAt, List.length_singleton]
    omega
  write_record := by
    intro s payload k hk
    apply hobs
    intro a ha
    show writeBytes s payload (l.fsdata.Root + inode * 133 + k) a = s a
    apply writeBytes_frame
    have : k + payload.length ≤ 133 := hk
    have := (hA a ha).2.2
    omega
  clear_record := by
    intro s
    apply hobs
    intro a ha
    show writeBytes s (List.replicate 133 0) (l.fsdata.Root + inode * 133) a = s a
    apply writeBytes_frame
    have := (hA a ha).2.2
    rw [List.length_replicate]
    omega

/-- The reference reader of the inode table reads nothing but the 133 bytes of the
record. -/
theorem refReadInode_local (s t : Mem) (fsdata : Metadata) (j : Nat)
    (h : ∀ a, fsdata.Root + j * 133 ≤ a → a < fsdata.Root + j * 133 + 133 → s a = t a) :
    refReadInode s fsdata j = refReadInode t fsdata j := by
  have hb : ∀ k count, k + count ≤ 133 →
      readBytes s (fsdata.Root + j * 133 + k) count
        = readBytes t (fsdata.Root + j * 133 + k) count := by
    intro k count hk
    unfold readBytes
    apply List.map_congr_left
    intro i hi
    rw [List.mem_range] at hi
    exact h _ (by omega) (by omega)
  have h0 := hb 0 3 (by omega)
  have h3 := hb 3 10 (by omega)
  have hslots : (List.range 12).map
        (fun i => parseDecimal (readBytes s (fsdata.Root + j * 133 + 13 + 10 * i) 10))
      = (List.range 12).map
        (fun i => parseDecimal (readBytes t (fsdata.Root + j * 133 + 13 + 10 * i) 10)) := by
    apply List.map_congr_left
    intro i hi
    rw [List.mem_range] at hi
    have := hb (13 + 10 * i) 10 (by omega)
    rw [show fsdata.Root + j * 133 + (13 + 10 * i) = fsdata.Root + j * 133 + 13 + 10 * i by omega]
      at this
    rw [this]
  have hfirst := h (fsdata.Root + j * 133) (le_refl _) (by omega)
  rw [Nat.add_zero] at h0
  unfold refReadInode
  simp only
  rw [hfirst, h0, h3, hslots]

/-- In the reference environment the record that `updateInode` writes over a cleared
record does not depend on the storage around it: the table reads it as it does in an
empty region. -/
theorem refReadInode_written (l : Layout) (s : Mem) (rec : Inode) (inode : Nat) :
    refReadInode (updateInode (refCollab l)
        ((refCollab l).clearInode s l.fsdata inode) l.fsdata rec inode) l.fsdata inode
      = refReadInode (updateInode (refCollab l)
        ((refCollab l).clearInode (fun _ => 0) l.fsdata inode) l.fsdata rec inode)
        l.fsdata inode := by
  apply refReadInode_local
  intro a ha1 ha2
  rw [updateInode_eq_foldl, updateInode_eq_foldl]
  generalize ((Sprint rec.Mode, l.fsdata.Root + inode * (refCollab l).InodeSize) ::
          (Sprint rec.Size, l.fsdata.Root + inode * (refCollab l).InodeSize + 3) ::
          (List.range 12).map (fun i =>
            (Sprint (rec.BlocksLocations.getD i 0),
              l.fsdata.Root + inode * (refCollab l).InodeSize + 13 + 10 * i))) = writes
  have hstart : (refCollab l).clearInode s l.fsdata inode a
      = (refCollab l).clearInode (fun _ => 0) l.fsdata inode a := by
    show writeBytes s (List.replicate 133 0) (l.fsdata.Root + inode * 133) a
      = writeBytes (fun _ => 0) (List.replicate 133 0) (l.fsdata.Root + inode * 133) a
    unfold writeBytes
    rw [if_pos ⟨ha1, by rw [List.length_replicate]; exact ha2⟩,
      if_pos ⟨ha1, by rw [List.length_replicate]; exact ha2⟩]
  generalize (refCollab l).clearInode s l.fsdata inode = u at hstart
  generalize (refCollab l).clearInode (fun _ => 0) l.fsdata inode = v at hstart
  induction writes generalizing u v with
  | nil => exact hstart
  | cons x rest ih =>
    simp only [List.foldl_cons]
    exact ih _ _ (writeBytes_congr u v x.1 x.2 a hstart)

/-- The pointers that the table holds after a successful `commit`: the committed ones for
the updated inode, the former ones for every other inode below `m`. -/
theorem commit_table_after {σ : Type} (c : Collab σ) (tag : String) (before : σ)
    (fsdata : Metadata) (inodeInfo committed : Inode) (inode m n : Nat) (content : List Byte)
    (hoccupied : c.getInodeValue before fsdata Bitmap.Inodes inode = true)
    (h133 : 133 ≤ c.InodeSize) (hmode : inodeInfo.Mode < 1000)
    (hprior : ∀ p ∈ gather inodeInfo, p < n)
    (halloc : ∀ ex v, c.findFreeBitmapPosition
        (c.clearFile before inodeInfo.BlocksLocations fsdata) fsdata Bitmap.Blocks ex = .ok v →
      v < n)
    (hocc : ∀ j, j < m →
      Untouched c fsdata inode n (fun s => c.getInodeValue s fsdata Bitmap.Inodes j))
    (hrec : ∀ j, j < m → j ≠ inode → Untouched c fsdata inode n (fun s => c.ReadInode s fsdata j))
    (hback : ∀ s, c.ReadInode (updateInode c (c.clearInode s fsdata inode) fsdata committed inode)
      fsdata inode = .ok committed)
    (hok : (commit c tag (c.clearFile before inodeInfo.BlocksLocations fsdata) fsdata inodeInfo
      inode content).1 = .ok committed) :
    ∀ i, i < m →
      pointersOf c (commit c tag (c.clearFile before inodeInfo.BlocksLocations fsdata) fsdata
          inodeInfo inode content).2 fsdata i
        = if i = inode then gather committed else pointersOf c before fsdata i := by
  intro i hi
  have hslots : ∀ v ∈ inodeInfo.BlocksLocations, v ≠ 0 → v < n := by
    intro v hv h0
    apply hprior
    unfold gather
    rw [List.mem_filter]
    exact ⟨hv, by simpa using h0⟩
  have hflag : c.getInodeValue (commit c tag (c.clearFile before inodeInfo.BlocksLocations fsdata)
      fsdata inodeInfo inode content).2 fsdata Bitmap.Inodes i
      = c.getInodeValue before fsdata Bitmap.Inodes i := by
    have h1 : c.getInodeValue (commit c tag (c.clearFile before inodeInfo.BlocksLocations fsdata)
        fsdata inodeInfo inode content).2 fsdata Bitmap.Inodes i
        = c.getInodeValue (c.clearFile before inodeInfo.BlocksLocations fsdata) fsdata
          Bitmap.Inodes i :=
      commit_untouched c tag _ fsdata inodeInfo inode n content committed
        (fun s => c.getInodeValue s fsdata Bitmap.Inodes i) (hocc i hi) h133 hmode hprior halloc hok
    have h2 : c.getInodeValue (c.clearFile before inodeInfo.BlocksLocations fsdata) fsdata
        Bitmap.Inodes i = c.getInodeValue before fsdata Bitmap.Inodes i :=
      (hocc i hi).clear_file before _ hslots
    rw [h1, h2]
  by_cases hii : i = inode
  · subst hii
    rw [if_pos rfl]
    unfold pointersOf
    rw [hflag, hoccupied, if_pos rfl,
      commit_reads_back c tag _ fsdata inodeInfo i content committed hback hok]
  · rw [if_neg hii]
    have hr : c.ReadInode (commit c tag (c.clearFile before inodeInfo.BlocksLocations fsdata)
        fsdata inodeInfo inode content).2 fsdata i = c.ReadInode before fsdata i := by
      have h1 : c.ReadInode (commit c tag (c.clearFile before inodeInfo.BlocksLocations fsdata)
          fsdata inodeInfo inode content).2 fsdata i
          = c.ReadInode (c.clearFile before inodeInfo.BlocksLocations fsdata) fsdata i :=
        commit_untouched c tag _ fsdata inodeInfo inode n content committed
          (fun s => c.ReadInode s fsdata i) (hrec i hi hii) h133 hmode hprior halloc hok
      have h2 : c.ReadInode (c.clearFile before inodeInfo.BlocksLocations fsdata) fsdata i
          = c.ReadInode before fsdata i :=
        (hrec i hi hii).clear_file before _ hslots
      rw [h1, h2]
    unfold pointersOf
    rw [hflag, hr]

theorem gather_length_le (inode : Inode) : (gather inode).length ≤ 12 := by
  unfold gather
  have := List.length_filter_le (fun value => decide (value ≠ 0)) inode.BlocksLocations
  rw [inode.slots_len] at this
  exact this

/-! ## Claims about `updateContent` -/

/-- C2: for a block size above zero, `updateContent` ends with the error "file is too long"
exactly when the required block count `max(1, ceil(len(content)/block_size))` is 12 or
more; so eleven blocks are accepted and twelve are refused. -/
theorem updateContent_too_long_iff {σ : Type} (c : Collab σ) (storage : σ) (fsdata : Metadata)
    (inode : Inode) (content : List Byte) (hbs : 0 < fsdata.BlockSize) :
    ((updateContent c storage fsdata inode content).1 = .error (.err "file is too long")
      ↔ 12 ≤ max 1 (ceilDiv content.length fsdata.BlockSize)) ∧
    (max 1 (ceilDiv content.length fsdata.BlockSize) = 11 →
      (updateContent c storage fsdata inode content).1 ≠ .error (.err "file is too long")) ∧
    (max 1 (ceilDiv content.length fsdata.BlockSize) = 12 →
      (updateContent c storage fsdata inode content).1 = .error (.err "file is too long")) := by
  have _ := hbs
  rw [← blocksFor_eq_max]
  have key : (updateContent c storage fsdata inode content).1 = .error (.err "file is too long")
      ↔ 12 ≤ blocksFor content.length fsdata.BlockSize := by
    constructor
    · intro h
      by_contra hn
      unfold updateContent at h
      simp only [if_neg hn] at h
      split at h
      · exact absurd h (by simp)
      · split at h
        · exact absurd h (by simp)
        · exact absurd h (by simp)
    · intro h
      unfold updateContent
      simp only [if_pos h]
  refine ⟨key, ?_, ?_⟩
  · intro h11 h
    have := key.mp h
    omega
  · intro h12
    exact key.mpr (by omega)

/-- C2 at a concrete input: 705 bytes in blocks of 64 bytes need twelve blocks and are
refused, 130 bytes need three and are not. -/
theorem updateContent_too_long_iff_witness :
    0 < layout64.fsdata.BlockSize ∧
    (updateContent (refCollab layout64) region64 layout64.fsdata file64 content705).1
      = .error (.err "file is too long") ∧
    ¬ (updateContent (refCollab layout64) region64 layout64.fsdata file64 content130).1
      = .error (.err "file is too long") :=
  ⟨by decide,
   (updateContent_too_long_iff (refCollab layout64) region64 layout64.fsdata file64 content705
      (by decide)).2.2 (by set_option maxRecDepth 100000 in decide),
   fun h => absurd ((updateContent_too_long_iff (refCollab layout64) region64 layout64.fsdata
      file64 content130 (by decide)).1.mp h) (by set_option maxRecDepth 100000 in decide)⟩

/-- C3, for the literal claim: the record `file64wide` holds twelve non-sentinel pointers
for its size of 768 bytes, twelve blocks of 64 bytes, so it satisfies the invariant as the
claim states it; a content of 768 bytes requires twelve blocks, which is at most the twelve
held; yet `updateContent` returns the error "file is too long" of line 18 and no list. -/
theorem updateContent_keeps_leading_counterexample :
    0 < layout64.fsdata.BlockSize ∧
    (gather file64wide).length = max 1 (ceilDiv file64wide.Size layout64.fsdata.BlockSize) ∧
    (gather file64wide).length = 12 ∧
    max 1 (ceilDiv content768.length layout64.fsdata.BlockSize)
      ≤ max 1 (ceilDiv file64wide.Size layout64.fsdata.BlockSize) ∧
    updateContent (refCollab layout64) region64 layout64.fsdata file64wide content768
      = (.error (.err "file is too long"), region64) := by
  refine ⟨by decide, by decide, by decide, ?_, ?_⟩
  · set_option maxRecDepth 1000000 in
    decide
  · set_option maxRecDepth 1000000 in
    rfl

/-- C3, amended: for an inode that satisfies the invariant (non-sentinel pointer count
= held = `max(1, ceil(size/block_size))`) and a content whose required block count is at
most `held`: when the required count is below 12, `updateContent` returns the first
`required` prior non-sentinel pointers in their order, that is the prior list without its
trailing `held - required` entries (the whole list when the counts are equal), and the
outcome does not depend on the bitmap allocator, which is never queried; when the required
count is 12, which only an inode with all twelve slots in use allows, `updateContent`
returns the error "file is too long" and leaves the storage as it is. -/
theorem updateContent_keeps_leading {σ : Type} (c : Collab σ) (storage : σ) (fsdata : Metadata)
    (inode : Inode) (content : List Byte) (hbs : 0 < fsdata.BlockSize)
    (hinv : (gather inode).length = max 1 (ceilDiv inode.Size fsdata.BlockSize))
    (hreq : max 1 (ceilDiv content.length fsdata.BlockSize)
      ≤ max 1 (ceilDiv inode.Size fsdata.BlockSize)) :
    (max 1 (ceilDiv content.length fsdata.BlockSize) < 12 →
      (updateContent c storage fsdata inode content).1
        = .ok ((gather inode).take (max 1 (ceilDiv content.length fsdata.BlockSize))) ∧
      (gather inode).take (max 1 (ceilDiv content.length fsdata.BlockSize))
        = (gather inode).take ((gather inode).length -
            (max 1 (ceilDiv inode.Size fsdata.BlockSize)
              - max 1 (ceilDiv content.length fsdata.BlockSize))) ∧
      (max 1 (ceilDiv content.length fsdata.BlockSize)
          = max 1 (ceilDiv inode.Size fsdata.BlockSize)
        → (updateContent c storage fsdata inode content).1 = .ok (gather inode)) ∧
      ∀ f : σ → Metadata → Bitmap → List Nat → Except String Nat,
        updateContent { c with findFreeBitmapPosition := f } storage fsdata inode content
          = updateContent c storage fsdata inode content) ∧
    (¬ max 1 (ceilDiv content.length fsdata.BlockSize) < 12 →
      max 1 (ceilDiv content.length fsdata.BlockSize) = 12 ∧ (gather inode).length = 12 ∧
      updateContent c storage fsdata inode content
        = (.error (.err "file is too long"), storage)) := by
  have _ := hbs
  rw [← blocksFor_eq_max] at hinv hreq ⊢
  rw [← blocksFor_eq_max] at hreq ⊢
  have hheld := gather_length_le inode
  constructor
  · intro hlt
    have h12 : ¬ 12 ≤ blocksFor content.length fsdata.BlockSize := by omega
    have hng : ¬ blocksFor inode.Size fsdata.BlockSize
        < blocksFor content.length fsdata.BlockSize := by omega
    have hnp : ¬ (blocksFor content.length fsdata.BlockSize < blocksFor inode.Size fsdata.BlockSize ∧
        (gather inode).length
          < blocksFor inode.Size fsdata.BlockSize - blocksFor content.length fsdata.BlockSize) := by
      omega
    have hval : (updateContent c storage fsdata inode content).1
        = .ok ((gather inode).take (blocksFor content.length fsdata.BlockSize)) := by
      unfold updateContent
      simp only [if_neg h12, if_neg hnp, if_neg hng]
      by_cases hl : blocksFor content.length fsdata.BlockSize < blocksFor inode.Size fsdata.BlockSize
      · simp only [if_pos hl]
        congr 2
        omega
      · simp only [if_neg hl]
        rw [List.take_of_length_le (by omega)]
    refine ⟨hval, ?_, ?_, ?_⟩
    · congr 1
      omega
    · intro he
      rw [hval, List.take_of_length_le (by omega)]
    · intro f
      unfold updateContent
      simp only [if_neg h12, if_neg hnp, if_neg hng, commitLoop_allocator_irrelevant]
  · intro hge
    have h12 : 12 ≤ blocksFor content.length fsdata.BlockSize := by omega
    refine ⟨by omega, by omega, ?_⟩
    unfold updateContent
    simp only [if_pos h12]

/-- C3, amended, at a concrete input: a file that holds blocks 5, 1, 2 for 130 bytes is
given 70 bytes, which need two blocks, and keeps blocks 5 and 1. -/
theorem updateContent_keeps_leading_witness :
    0 < layout64.fsdata.BlockSize ∧
    (gather file64big).length = max 1 (ceilDiv file64big.Size layout64.fsdata.BlockSize) ∧
    max 1 (ceilDiv content70.length layout64.fsdata.BlockSize)
      ≤ max 1 (ceilDiv file64big.Size layout64.fsdata.BlockSize) ∧
    max 1 (ceilDiv content70.length layout64.fsdata.BlockSize) < 12 ∧
    (updateContent (refCollab layout64) region64 layout64.fsdata file64big content70).1
      = .ok [5, 1] :=
  ⟨by decide, by decide, by decide, by decide,
   ((updateContent_keeps_leading (refCollab layout64) region64 layout64.fsdata file64big content70
      (by decide) (by decide) (by decide)).1 (by decide)).1⟩

/-- C4: for an inode that satisfies the invariant with `N` held blocks and pairwise
distinct prior pointers, and a content that requires `M` blocks with `N < M < 12`: if the
allocator never returns an index of the exclusion list it is given and `updateContent`
succeeds, the output is the `N` prior indices in their order followed by exactly `M - N`
new ones, the new ones are pairwise distinct and differ from every retained index, and
every allocator query was given the whole list built so far as its exclusion list. -/
theorem updateContent_grows {σ : Type} (c : Collab σ) (storage : σ) (fsdata : Metadata)
    (inode : Inode) (content : List Byte) (blocks : List Nat) (hbs : 0 < fsdata.BlockSize)
    (hinv : (gather inode).length = max 1 (ceilDiv inode.Size fsdata.BlockSize))
    (hnodup : (gather inode).Nodup)
    (hgrow : max 1 (ceilDiv inode.Size fsdata.BlockSize)
      < max 1 (ceilDiv content.length fsdata.BlockSize))
    (h12 : max 1 (ceilDiv content.length fsdata.BlockSize) < 12)
    (halloc : ∀ ex v, c.findFreeBitmapPosition storage fsdata Bitmap.Blocks ex = .ok v → v ∉ ex)
    (hok : (updateContent c storage fsdata inode content).1 = .ok blocks) :
    blocks = gather inode ++ blocks.drop (gather inode).length ∧
    (blocks.drop (gather inode).length).length
      = max 1 (ceilDiv content.length fsdata.BlockSize)
        - max 1 (ceilDiv inode.Size fsdata.BlockSize) ∧
    (blocks.drop (gather inode).length).Nodup ∧
    (∀ v ∈ blocks.drop (gather inode).length, v ∉ gather inode) ∧
    blocks.Nodup ∧
    ∀ j, j < max 1 (ceilDiv content.length fsdata.BlockSize)
          - max 1 (ceilDiv inode.Size fsdata.BlockSize) →
      c.findFreeBitmapPosition storage fsdata Bitmap.Blocks
          (blocks.take ((gather inode).length + j))
        = .ok (blocks.getD ((gather inode).length + j) 0) := by
  have _ := hbs
  have _ := h12
  rw [← blocksFor_eq_max] at hinv hgrow ⊢
  rw [← blocksFor_eq_max] at hgrow ⊢
  obtain ⟨_, _, hshape⟩ := updateContent_ok c storage fsdata inode content blocks hok
  have hloop : allocLoop c storage fsdata
      (blocksFor content.length fsdata.BlockSize - blocksFor inode.Size fsdata.BlockSize)
      (gather inode) = .ok blocks := by
    rcases hshape with h | h | h
    · omega
    · omega
    · exact h.2
  obtain ⟨hlen, hpre, hq⟩ := allocLoop_spec c storage fsdata _ _ _ hloop
  have hsplit : blocks = gather inode ++ blocks.drop (gather inode).length := by
    conv_lhs => rw [← List.take_append_drop (gather inode).length blocks, hpre]
  have hnd : blocks.Nodup := by
    apply nodup_of_fresh blocks (gather inode).length (by rw [hpre]; exact hnodup)
    intro k hk1 hk2
    have := hq (k - (gather inode).length) (by omega)
    rw [show (gather inode).length + (k - (gather inode).length) = k by omega] at this
    exact halloc _ _ this
  have hnd2 := hnd
  rw [hsplit, List.nodup_append] at hnd2
  refine ⟨hsplit, by rw [List.length_drop]; omega, hnd2.2.1, ?_, hnd, hq⟩
  intro v hv hv2
  exact hnd2.2.2 hv2 hv

/-- C4 at a concrete input: the file of inode 1 in `region64` holds block 5 and is given
130 bytes; blocks 1 and 2 are allocated after it. -/
theorem updateContent_grows_witness :
    0 < layout64.fsdata.BlockSize ∧
    (gather file64).length = max 1 (ceilDiv file64.Size layout64.fsdata.BlockSize) ∧
    (gather file64).Nodup ∧
    max 1 (ceilDiv file64.Size layout64.fsdata.BlockSize)
      < max 1 (ceilDiv content130.length layout64.fsdata.BlockSize) ∧
    max 1 (ceilDiv content130.length layout64.fsdata.BlockSize) < 12 ∧
    (updateContent (refCollab layout64) region64 layout64.fsdata file64 content130).1
      = .ok [5, 1, 2] ∧
    [5, 1, 2] = gather file64 ++ [1, 2] ∧ [5, 1, 2].Nodup := by
  have hok : (updateContent (refCollab layout64) region64 layout64.fsdata file64 content130).1
      = .ok [5, 1, 2] := by
    set_option maxRecDepth 1000000 in
    rfl
  have main := updateContent_grows (refCollab layout64) region64 layout64.fsdata file64
    content130 [5, 1, 2] (by decide) (by decide) (by decide) (by decide) (by decide)
    (fun ex v h => (refFindFree_ok _ _ _ _ _ h).2.2) hok
  exact ⟨by decide, by decide, by decide, by decide, by decide, hok, main.1, main.2.2.2.2.1⟩

/-- C1, for the literal claim: in the region `region64z`, where block 0 is free, the file
inode 1 holds one non-sentinel pointer for size 0, `UpdateFile` with 130 bytes succeeds,
three blocks are required, and the committed record holds two non-sentinel pointers: the
allocator handed out index 0, which a pointer slot cannot tell from the sentinel. -/
theorem updateFile_pointer_count_counterexample :
    0 < layout64.fsdata.BlockSize ∧
    ((refCollab layout64).ReadInode region64z layout64.fsdata 1).toOption.map
        (fun i => ((gather i).length, i.Size)) = some (1, 0) ∧
    max 1 (ceilDiv 0 layout64.fsdata.BlockSize) = 1 ∧
    (UpdateFile (refCollab layout64) region64z 1 content130).1.toOption.map
        (fun i => i.BlocksLocations) = some [5, 0, 1, 0, 0, 0, 0, 0, 0, 0, 0, 0] ∧
    (UpdateFile (refCollab layout64) region64z 1 content130).1.toOption.map
        (fun i => (gather i).length) = some 2 ∧
    max 1 (ceilDiv content130.length layout64.fsdata.BlockSize) = 3 := by
  set_option maxRecDepth 1000000 in
  decide

/-- C1, amended: for a block size above zero and an inode whose non-sentinel pointer
count is `max(1, ceil(size/block_size))`, when `UpdateFile` succeeds on a content of
length `L`, `updateContent` has returned exactly `max(1, ceil(L/block_size))` indices and
that count is at most 11.  The list starts with prior pointers, and each entry beyond the
prior pointer count is the answer of the allocator to the list built so far: these are the
indices handed out during the call.  If none of them is 0 modulo `2^32`, the committed
inode has exactly `max(1, ceil(L/block_size))` non-sentinel pointers, and for `L < 2^32`
it satisfies the invariant with its own size field. -/
theorem updateFile_pointer_count {σ : Type} (c : Collab σ) (storage : σ) (inode : Nat)
    (content : List Byte) (inodeInfo committed : Inode)
    (hbs : 0 < (c.ReadMetadata storage).BlockSize)
    (hread : c.ReadInode storage (c.ReadMetadata storage) inode = .ok inodeInfo)
    (hinv : (gather inodeInfo).length
      = max 1 (ceilDiv inodeInfo.Size (c.ReadMetadata storage).BlockSize))
    (hok : (UpdateFile c storage inode content).1 = .ok committed) :
    ∃ blocks,
      (updateContent c (c.clearFile storage inodeInfo.BlocksLocations (c.ReadMetadata storage))
        (c.ReadMetadata storage) inodeInfo content).1 = .ok blocks ∧
      blocks.length = max 1 (ceilDiv content.length (c.ReadMetadata storage).BlockSize) ∧
      max 1 (ceilDiv content.length (c.ReadMetadata storage).BlockSize) ≤ 11 ∧
      blocks.take (gather inodeInfo).length = (gather inodeInfo).take blocks.length ∧
      (∀ j, (gather inodeInfo).length + j < blocks.length →
        c.findFreeBitmapPosition
            (c.clearFile storage inodeInfo.BlocksLocations (c.ReadMetadata storage))
            (c.ReadMetadata storage) Bitmap.Blocks (blocks.take ((gather inodeInfo).length + j))
          = .ok (blocks.getD ((gather inodeInfo).length + j) 0)) ∧
      ((∀ v ∈ blocks.drop (gather inodeInfo).length, v % 2 ^ 32 ≠ 0) →
        (gather committed).length
          = max 1 (ceilDiv content.length (c.ReadMetadata storage).BlockSize) ∧
        (content.length < 2 ^ 32 → (gather committed).length
          = max 1 (ceilDiv committed.Size (c.ReadMetadata storage).BlockSize))) := by
  have _ := hbs
  rw [← blocksFor_eq_max] at hinv ⊢
  obtain ⟨inodeInfo', _, _, hread', _, hupd⟩ := UpdateFile_ok c storage inode content committed hok
  rw [hread] at hread'
  simp only [Except.ok.injEq] at hread'
  subst hread'
  rw [hupd] at hok
  obtain ⟨blocks, filled, hblocks, hfill, hcom, _⟩ := commit_ok _ _ _ _ _ _ _ _ hok
  have hlen := updateContent_length _ _ _ _ _ _ hinv hblocks
  obtain ⟨h12, _, hshape⟩ := updateContent_ok _ _ _ _ _ _ hblocks
  have hlead : blocks.take (gather inodeInfo).length = (gather inodeInfo).take blocks.length ∧
      ∀ j, (gather inodeInfo).length + j < blocks.length →
        c.findFreeBitmapPosition
            (c.clearFile storage inodeInfo.BlocksLocations (c.ReadMetadata storage))
            (c.ReadMetadata storage) Bitmap.Blocks (blocks.take ((gather inodeInfo).length + j))
          = .ok (blocks.getD ((gather inodeInfo).length + j) 0) := by
    rcases hshape with h | h | h
    · have hle : blocks.length ≤ (gather inodeInfo).length := by omega
      refine ⟨?_, fun j hj => absurd hj (by omega)⟩
      rw [List.take_of_length_le hle]
      conv_lhs => rw [h.2.2]
      congr 1
      omega
    · refine ⟨?_, fun j hj => absurd hj (by rw [h.2]; omega)⟩
      rw [h.2, List.take_of_length_le (le_refl _)]
    · obtain ⟨hl, hpre, hq⟩ := allocLoop_spec _ _ _ _ _ _ h.2
      refine ⟨?_, fun j hj => hq j (by omega)⟩
      rw [hpre, List.take_of_length_le (by omega)]
  refine ⟨blocks, hblocks, hlen, by omega, hlead.1, hlead.2, ?_⟩
  intro hdrop
  have hnz : ∀ v ∈ blocks, v % 2 ^ 32 ≠ 0 := by
    intro v hv
    rw [← List.take_append_drop (gather inodeInfo).length blocks, List.mem_append] at hv
    rcases hv with h | h
    · rw [hlead.1] at h
      have := gather_mem _ _ (List.mem_of_mem_take h)
      rw [Nat.mod_eq_of_lt this.2]
      exact this.1
    · exact hdrop v h
  have hg : (gather committed).length = blocksFor content.length (c.ReadMetadata storage).BlockSize := by
    rw [hcom, gather_filled inodeInfo filled blocks _ (by omega) hfill hnz, List.length_map, hlen]
  refine ⟨hg, ?_⟩
  intro hL
  rw [hg, ← blocksFor_eq_max]
  have : committed.Size = content.length := by
    rw [hcom]
    show content.length % 2 ^ 32 = content.length
    exact Nat.mod_eq_of_lt hL
  rw [this]

/-- C1, amended, at two concrete inputs.  Inode 1 of `region64` is given 130 bytes: the
allocator hands out blocks 1 and 2 and the committed record holds three pointers.  Inode 1
of `region64z`, where the allocator would answer with block 0, is given 10 bytes: nothing
is handed out and the committed record holds one pointer. -/
theorem updateFile_pointer_count_witness :
    0 < ((refCollab layout64).ReadMetadata region64).BlockSize ∧
    (refCollab layout64).ReadInode region64 ((refCollab layout64).ReadMetadata region64) 1
      = .ok file64 ∧
    (gather file64).length = max 1 (ceilDiv file64.Size 64) ∧
    (UpdateFile (refCollab layout64) region64 1 content130).1
      = .ok (Inode.ofFields 1 130 [5, 1, 2]) ∧
    (gather (Inode.ofFields 1 130 [5, 1, 2])).length = max 1 (ceilDiv content130.length 64) ∧
    max 1 (ceilDiv content130.length 64) ≤ 11 ∧
    (refCollab layout64).findFreeBitmapPosition
        ((refCollab layout64).clearFile region64z file64.BlocksLocations
          ((refCollab layout64).ReadMetadata region64z))
        ((refCollab layout64).ReadMetadata region64z) Bitmap.Blocks [] = .ok 0 ∧
    (UpdateFile (refCollab layout64) region64z 1 content10).1
      = .ok (Inode.ofFields 1 10 [5]) ∧
    (gather (Inode.ofFields 1 10 [5])).length = max 1 (ceilDiv content10.length 64) := by
  have hbs : 0 < ((refCollab layout64).ReadMetadata region64).BlockSize := by decide
  have hread : (refCollab layout64).ReadInode region64
      ((refCollab layout64).ReadMetadata region64) 1 = .ok file64 := by
    set_option maxRecDepth 1000000 in
    rfl
  have hinv : (gather file64).length = max 1 (ceilDiv file64.Size 64) := by decide
  have hok : (UpdateFile (refCollab layout64) region64 1 content130).1
      = .ok (Inode.ofFields 1 130 [5, 1, 2]) := by
    set_option maxRecDepth 1000000 in
    rfl
  have hreadz : (refCollab layout64).ReadInode region64z
      ((refCollab layout64).ReadMetadata region64z) 1 = .ok file64 := by
    set_option maxRecDepth 1000000 in
    rfl
  have hokz : (UpdateFile (refCollab layout64) region64z 1 content10).1
      = .ok (Inode.ofFields 1 10 [5]) := by
    set_option maxRecDepth 1000000 in
    rfl
  obtain ⟨blocks, hblocks, _, h11, _, _, hcount⟩ := updateFile_pointer_count
    (refCollab layout64) region64 1 content130 file64 (Inode.ofFields 1 130 [5, 1, 2])
    hbs hread hinv hok
  have hval : (updateContent (refCollab layout64)
      ((refCollab layout64).clearFile region64 file64.BlocksLocations
        ((refCollab layout64).ReadMetadata region64))
      ((refCollab layout64).ReadMetadata region64) file64 content130).1 = .ok [5, 1, 2] := by
    set_option maxRecDepth 1000000 in
    rfl
  rw [hval] at hblocks
  simp only [Except.ok.injEq] at hblocks
  subst hblocks
  obtain ⟨blocksz, hblocksz, _, _, _, _, hcountz⟩ := updateFile_pointer_count
    (refCollab layout64) region64z 1 content10 file64 (Inode.ofFields 1 10 [5])
    hbs hreadz hinv hokz
  have hvalz : (updateContent (refCollab layout64)
      ((refCollab layout64).clearFile region64z file64.BlocksLocations
        ((refCollab layout64).ReadMetadata region64z))
      ((refCollab layout64).ReadMetadata region64z) file64 content10).1 = .ok [5] := by
    set_option maxRecDepth 1000000 in
    rfl
  rw [hvalz] at hblocksz
  simp only [Except.ok.injEq] at hblocksz
  subst hblocksz
  refine ⟨hbs, hread, hinv, hok, (hcount (by decide)).1, h11, ?_, hokz,
    (hcountz (by decide)).1⟩
  set_option maxRecDepth 1000000 in
  rfl

/-! ## Claims about the inode record -/

/-- C6: for every inode and every block list of length `k ≤ 12`, `updateBlockIdsInInode`
succeeds and leaves in slot `i < k` the value `uint32(blocks[i])`, which is `blocks[i]` for
every block index that a `uint32` pointer slot can hold, and the sentinel 0 in every slot
`k ≤ i < 12`, whatever the slots held before; and a successful `UpdateFile` with a content
of length `L` commits the size field `uint32(L)`, which is `L` for every length that the
`uint32` size field can hold. -/
theorem updateBlockIdsInInode_slots {σ : Type} (inodeInfo : Inode) (blocks : List Nat)
    (hk : blocks.length ≤ 12) (c : Collab σ) (storage : σ) (inode : Nat) (content : List Byte)
    (committed : Inode) (hok : (UpdateFile c storage inode content).1 = .ok committed) :
    (∃ out, updateBlockIdsInInode inodeInfo blocks = .ok out ∧
      (∀ i, i < blocks.length → out.BlocksLocations.getD i 0 = blocks.getD i 0 % 2 ^ 32) ∧
      (∀ i, i < blocks.length → blocks.getD i 0 < 2 ^ 32 →
        out.BlocksLocations.getD i 0 = blocks.getD i 0) ∧
      (∀ i, blocks.length ≤ i → i < 12 → out.BlocksLocations.getD i 0 = 0)) ∧
    committed.Size = content.length % 2 ^ 32 ∧
    (content.length < 2 ^ 32 → committed.Size = content.length) := by
  obtain ⟨out, hout, _, _, hb⟩ := updateBlockIdsInInode_spec inodeInfo blocks hk
  have hlow : ∀ i, i < blocks.length →
      out.BlocksLocations.getD i 0 = blocks.getD i 0 % 2 ^ 32 := by
    intro i hi
    rw [hb]
    simp only [List.getD_eq_getElem?_getD]
    rw [List.getElem?_append_left (by simpa using hi)]
    simp [List.getElem?_eq_getElem hi]
  have hsize : committed.Size = content.length % 2 ^ 32 := by
    obtain ⟨inodeInfo', _, _, _, _, hupd⟩ := UpdateFile_ok c storage inode content committed hok
    rw [hupd] at hok
    obtain ⟨_, filled, _, _, hcom, _⟩ := commit_ok _ _ _ _ _ _ _ _ hok
    rw [hcom]
    rfl
  refine ⟨⟨out, hout, hlow, ?_, ?_⟩, hsize, ?_⟩
  · intro i hi hlt
    rw [hlow i hi, Nat.mod_eq_of_lt hlt]
  · intro i hi1 hi2
    rw [hb]
    simp only [List.getD_eq_getElem?_getD]
    rw [List.getElem?_append_right (by simpa using hi1)]
    simp only [List.length_map]
    rw [List.getElem?_replicate, if_pos (by omega)]
    rfl
  · intro hL
    rw [hsize, Nat.mod_eq_of_lt hL]

/-- C6 at the input of the claim: block size 64 and 130 bytes of content give three
blocks, slots 0-2 populated, slots 3-11 sentinel, and the size field 130. -/
theorem updateBlockIdsInInode_slots_witness :
    [5, 1, 2].length ≤ 12 ∧
    (UpdateFile (refCollab layout64) region64 1 content130).1 = .ok file64big ∧
    max 1 (ceilDiv content130.length layout64.fsdata.BlockSize) = 3 ∧
    (updateBlockIdsInInode file64 [5, 1, 2]).toOption.map (fun i => i.BlocksLocations)
      = some [5, 1, 2, 0, 0, 0, 0, 0, 0, 0, 0, 0] ∧
    file64big.BlocksLocations = [5, 1, 2, 0, 0, 0, 0, 0, 0, 0, 0, 0] ∧
    file64big.Size = 130 := by
  have hok : (UpdateFile (refCollab layout64) region64 1 content130).1 = .ok file64big := by
    set_option maxRecDepth 1000000 in
    rfl
  have main := updateBlockIdsInInode_slots file64 [5, 1, 2] (by decide) (refCollab layout64)
    region64 1 content130 file64big hok
  exact ⟨by decide, hok, by decide, by decide, by decide, main.2.2 (by decide)⟩

/-- C9: for every inode record and inode number `n`, `updateInode` issues exactly 14
writes in this order: the decimal text of the type tag at `base = Root + n * InodeSize`,
that of the size at `base + 3`, and that of pointer slot `i` at `base + 13 + 10 * i` for
`i = 0..11`, sentinel slots included.  The fields do not overlap: the text of a 32-bit size
or pointer has at most 10 characters and that of a type tag below 1000 at most 3, so no
payload reaches the offset of the next field. -/
theorem updateInode_writes {σ : Type} (c : Collab σ) (storage : σ) (fsdata : Metadata)
    (inodeInfo : Inode) (inode : Nat) (hmode : inodeInfo.Mode < 1000) :
    updateInode c storage fsdata inodeInfo inode
      = ((Sprint inodeInfo.Mode, fsdata.Root + inode * c.InodeSize) ::
          (Sprint inodeInfo.Size, fsdata.Root + inode * c.InodeSize + 3) ::
          (List.range 12).map (fun i =>
            (Sprint (inodeInfo.BlocksLocations.getD i 0),
              fsdata.Root + inode * c.InodeSize + 13 + 10 * i))).foldl
          (fun s w => c.Write s w.1 w.2) storage ∧
    ((Sprint inodeInfo.Mode, fsdata.Root + inode * c.InodeSize) ::
          (Sprint inodeInfo.Size, fsdata.Root + inode * c.InodeSize + 3) ::
          (List.range 12).map (fun i =>
            (Sprint (inodeInfo.BlocksLocations.getD i 0),
              fsdata.Root + inode * c.InodeSize + 13 + 10 * i))).length = 14 ∧
    fsdata.Root + inode * c.InodeSize + (Sprint inodeInfo.Mode).length
      ≤ fsdata.Root + inode * c.InodeSize + 3 ∧
    fsdata.Root + inode * c.InodeSize + 3 + (Sprint inodeInfo.Size).length
      ≤ fsdata.Root + inode * c.InodeSize + 13 ∧
    (∀ i, i < 12 →
      fsdata.Root + inode * c.InodeSize + 13 + 10 * i
          + (Sprint (inodeInfo.BlocksLocations.getD i 0)).length
        ≤ fsdata.Root + inode * c.InodeSize + 13 + 10 * (i + 1)) ∧
    (∀ n, n < 2 ^ 32 → (Sprint n).length ≤ 10) ∧
    (∀ n, n < 1000 → (Sprint n).length ≤ 3) := by
  have h10 : ∀ n, n < 2 ^ 32 → (Sprint n).length ≤ 10 := by
    intro n hn
    exact Sprint_length n 10 (by decide) (by omega)
  have h3 : ∀ n, n < 1000 → (Sprint n).length ≤ 3 := by
    intro n hn
    exact Sprint_length n 3 (by decide) (by omega)
  refine ⟨?_, by simp, ?_, ?_, ?_, h10, h3⟩
  · exact updateInode_eq_foldl c storage fsdata inodeInfo inode
  · have := h3 _ hmode
    omega
  · have := h10 _ inodeInfo.size_lt
    omega
  · intro i hi
    have hslot : inodeInfo.BlocksLocations.getD i 0 < 2 ^ 32 := by
      have hlt : i < inodeInfo.BlocksLocations.length := by rw [inodeInfo.slots_len]; exact hi
      rw [List.getD_eq_getElem?_getD, List.getElem?_eq_getElem hlt]
      exact inodeInfo.slots_lt _ (List.getElem_mem hlt)
    have := h10 _ hslot
    omega

/-- C9 at a concrete input: the record of the file of inode 1 in `region64`. -/
theorem updateInode_writes_witness :
    file64.Mode < 1000 ∧
    updateInode (refCollab layout64) region64 layout64.fsdata file64 1
      = ((Sprint file64.Mode, 233) :: (Sprint file64.Size, 236) ::
          (List.range 12).map (fun i =>
            (Sprint (file64.BlocksLocations.getD i 0), 246 + 10 * i))).foldl
          (fun s w => writeBytes s w.1 w.2) region64 :=
  ⟨by decide, (updateInode_writes (refCollab layout64) region64 layout64.fsdata file64 1
    (by decide)).1⟩

/-! ## Claims about the type tag -/

/-- C10: when inode `n ≠ 0` is occupied and readable, `UpdateFile` on a Directory-tagged
inode (Mode 0) returns an error for every content and leaves the storage as it was, and
`UpdateDirectory` on a File-tagged inode (Mode 1) returns an error for every entry list and
leaves the storage as it was. -/
theorem update_rejects_wrong_type {σ : Type} (c : Collab σ) (storage : σ) (inode : Nat)
    (inodeInfo : Inode) (hn : inode ≠ 0)
    (hocc : c.getInodeValue storage (c.ReadMetadata storage) Bitmap.Inodes inode = true)
    (hread : c.ReadInode storage (c.ReadMetadata storage) inode = .ok inodeInfo) :
    (inodeInfo.Mode = 0 → ∀ content : List Byte,
      UpdateFile c storage inode content
        = (.error (.err "update file: file is directory"), storage)) ∧
    (inodeInfo.Mode = 1 → ∀ entries : List DirectoryEntry,
      UpdateDirectory c storage inode entries
        = (.error (.err "update directory: directory is file"), storage)) := by
  constructor
  · intro hm content
    unfold UpdateFile
    simp only [if_neg hn, hocc, hread, hm]
    rfl
  · intro hm entries
    unfold UpdateDirectory
    simp only [if_neg hn, hocc, hread, hm]
    rfl

/-- C10 at concrete inputs: in `region64` inode 2 is a directory and inode 1 a file. -/
theorem update_rejects_wrong_type_witness :
    ((2 : Nat) ≠ 0 ∧ dir64.Mode = 0 ∧
      (UpdateFile (refCollab layout64) region64 2 content130).1
        = .error (.err "update file: file is directory")) ∧
    ((1 : Nat) ≠ 0 ∧ file64.Mode = 1 ∧
      (UpdateDirectory (refCollab layout64) region64 1 [⟨3, "a", by decide⟩]).1
        = .error (.err "update directory: directory is file")) := by
  have h2 := update_rejects_wrong_type (refCollab layout64) region64 2 dir64 (by decide)
    (by set_option maxRecDepth 1000000 in rfl) (by set_option maxRecDepth 1000000 in rfl)
  have h1 := update_rejects_wrong_type (refCollab layout64) region64 1 file64 (by decide)
    (by set_option maxRecDepth 1000000 in rfl) (by set_option maxRecDepth 1000000 in rfl)
  exact ⟨⟨by decide, rfl, by rw [h2.1 rfl content130]⟩, ⟨by decide, rfl, by rw [h1.2 rfl _]⟩⟩

/-! ## Claims about the block bitmap -/

/-- C7: in a region of `n` blocks that the `uint32` pointers can address (`n ≤ 2^32`, the
prior pointers and the indices that the allocator returns below `n`), with
`set_bitmap_flag` setting exactly the flag of the index it is given and neither the block
writes nor the clearing and rewriting of the inode record (133 bytes, type tag below 1000)
touching the block flags: after a successful `UpdateFile` or `UpdateDirectory` every block
index referenced by the committed pointer array is marked used in the block bitmap. -/
theorem update_marks_pointers {σ : Type} (c : Collab σ) (storage : σ) (inode n : Nat)
    (inodeInfo : Inode) (hn : n ≤ 2 ^ 32)
    (hc : BitmapContract c (c.ReadMetadata storage) inode n) (h133 : 133 ≤ c.InodeSize)
    (hread : c.ReadInode storage (c.ReadMetadata storage) inode = .ok inodeInfo)
    (hmode : inodeInfo.Mode < 1000) (hprior : ∀ p ∈ gather inodeInfo, p < n)
    (halloc : ∀ ex v, c.findFreeBitmapPosition
        (c.clearFile storage inodeInfo.BlocksLocations (c.ReadMetadata storage))
        (c.ReadMetadata storage) Bitmap.Blocks ex = .ok v → v < n) :
    (∀ content committed, (UpdateFile c storage inode content).1 = .ok committed →
      ∀ p ∈ gather committed,
        c.getInodeValue (UpdateFile c storage inode content).2 (c.ReadMetadata storage)
          Bitmap.Blocks p = true) ∧
    (∀ entries committed, (UpdateDirectory c storage inode entries).1 = .ok committed →
      ∀ p ∈ gather committed,
        c.getInodeValue (UpdateDirectory c storage inode entries).2 (c.ReadMetadata storage)
          Bitmap.Blocks p = true) := by
  constructor
  · intro content committed hok
    obtain ⟨inodeInfo', _, _, hread', _, hupd⟩ := UpdateFile_ok c storage inode content committed hok
    rw [hread] at hread'
    simp only [Except.ok.injEq] at hread'
    subst hread'
    rw [hupd] at hok ⊢
    exact commit_marks c _ _ _ inodeInfo inode n content committed hn hc h133 hmode hprior
      halloc hok
  · intro entries committed hok
    obtain ⟨inodeInfo', encoded, _, _, hread', _, _, hupd⟩ :=
      UpdateDirectory_ok c storage inode entries committed hok
    rw [hread] at hread'
    simp only [Except.ok.injEq] at hread'
    subst hread'
    rw [hupd] at hok ⊢
    exact commit_marks c _ _ _ inodeInfo inode n encoded committed hn hc h133 hmode hprior
      halloc hok

/-- C7 at a concrete input: inode 1 of `region64`, a region of 16 blocks, is
given 130 bytes; blocks 5, 1 and 2 are flagged afterwards. -/
theorem update_marks_pointers_witness :
    (16 : Nat) ≤ 2 ^ 32 ∧
    BitmapContract (refCollab layout64) ((refCollab layout64).ReadMetadata region64) 1 16 ∧
    (UpdateFile (refCollab layout64) region64 1 content130).1 = .ok file64big ∧
    gather file64big = [5, 1, 2] ∧
    ∀ p ∈ gather file64big,
      (refCollab layout64).getInodeValue (UpdateFile (refCollab layout64) region64 1 content130).2
        ((refCollab layout64).ReadMetadata region64) Bitmap.Blocks p = true := by
  have hc : BitmapContract (refCollab layout64) ((refCollab layout64).ReadMetadata region64) 1 16 :=
    refCollab_bitmapContract layout64 1 16 (Or.inl (by decide)) (Or.inl (by decide))
  have hok : (UpdateFile (refCollab layout64) region64 1 content130).1 = .ok file64big := by
    set_option maxRecDepth 1000000 in
    rfl
  have main := update_marks_pointers (refCollab layout64) region64 1 16 file64 (by decide) hc
    (by decide) (by set_option maxRecDepth 1000000 in rfl) (by decide) (by decide)
    (fun ex v h => (refFindFree_ok _ _ _ _ _ h).1)
  exact ⟨by decide, hc, hok, by decide, main.1 content130 file64big hok⟩

/-! ## Claims about the block contents -/

/-- C5, for the literal claim: three regions in which `UpdateFile` succeeds on 130 bytes
(fewer than `11 * 64`) and reading back does not give the content.  In `region64z` block 0
is free and is allocated, and the slot that holds 0 reads as a sentinel; in `region64twice`
the inode holds block 5 twice; in `region64extra` the inode holds two blocks for size 0. -/
theorem updateFile_round_trip_counterexample :
    content130.length < 11 * layout64.fsdata.BlockSize ∧
    (UpdateFile (refCollab layout64) region64z 1 content130).1.toOption.map
        (fun i => (i.BlocksLocations,
          decide (readBack (fun s a => s a)
            (UpdateFile (refCollab layout64) region64z 1 content130).2 layout64.fsdata i
            content130.length = content130)))
      = some ([5, 0, 1, 0, 0, 0, 0, 0, 0, 0, 0, 0], false) ∧
    (UpdateFile (refCollab layout64) region64twice 1 content130).1.toOption.map
        (fun i => (i.BlocksLocations,
          decide (readBack (fun s a => s a)
            (UpdateFile (refCollab layout64) region64twice 1 content130).2 layout64.fsdata i
            content130.length = content130)))
      = some ([5, 5, 1, 0, 0, 0, 0, 0, 0, 0, 0, 0], false) ∧
    (UpdateFile (refCollab layout64) region64extra 1 content130).1.toOption.map
        (fun i => (i.BlocksLocations,
          decide (readBack (fun s a => s a)
            (UpdateFile (refCollab layout64) region64extra 1 content130).2 layout64.fsdata i
            content130.length = content130)))
      = some ([5, 7, 1, 2, 0, 0, 0, 0, 0, 0, 0, 0], false) := by
  set_option maxRecDepth 1000000 in
  decide

/-- C5, amended: let the region have `n ≤ 2^32` blocks, let the inode satisfy the invariant
(non-sentinel pointer count = `max(1, ceil(size/block_size))`) with pairwise distinct
pointers below `n` and a type tag below 1000, let the allocator return only indices that
are not in its exclusion list, not 0 and below `n`, and let the collaborators honour the
block contract with the 133-byte inode record below the block area.  Then for every content
on which `UpdateFile` succeeds, reading the blocks of the committed inode back in pointer
order, `block_size` bytes from each but `L - (k-1) * block_size` from the last of the `k`
blocks, and concatenating, yields the content. -/
theorem updateFile_round_trip {σ : Type} (c : Collab σ) (peek : σ → Nat → Byte) (storage : σ)
    (inode n : Nat) (content : List Byte) (inodeInfo committed : Inode)
    (hbs : 0 < (c.ReadMetadata storage).BlockSize) (hn : n ≤ 2 ^ 32)
    (hc : BlockContract c peek (c.ReadMetadata storage) inode n)
    (hrec : (c.ReadMetadata storage).Root + inode * c.InodeSize + 133
      ≤ (c.ReadMetadata storage).FirstBlock)
    (hread : c.ReadInode storage (c.ReadMetadata storage) inode = .ok inodeInfo)
    (hmode : inodeInfo.Mode < 1000)
    (hinv : (gather inodeInfo).length
      = max 1 (ceilDiv inodeInfo.Size (c.ReadMetadata storage).BlockSize))
    (hnodup : (gather inodeInfo).Nodup) (hprior : ∀ p ∈ gather inodeInfo, p < n)
    (halloc : ∀ ex v, c.findFreeBitmapPosition
        (c.clearFile storage inodeInfo.BlocksLocations (c.ReadMetadata storage))
        (c.ReadMetadata storage) Bitmap.Blocks ex = .ok v → v ∉ ex ∧ v ≠ 0 ∧ v < n)
    (hok : (UpdateFile c storage inode content).1 = .ok committed) :
    readBack peek (UpdateFile c storage inode content).2 (c.ReadMetadata storage) committed
      content.length = content := by
  rw [← blocksFor_eq_max] at hinv
  obtain ⟨inodeInfo', _, _, hread', _, hupd⟩ := UpdateFile_ok c storage inode content committed hok
  rw [hread] at hread'
  simp only [Except.ok.injEq] at hread'
  subst hread'
  rw [hupd] at hok ⊢
  exact commit_readBack c peek _ _ _ inodeInfo inode n content committed hbs hn hc hrec hmode
    hinv hnodup hprior halloc hok

/-- C5, amended, at a concrete input: inode 1 of `region64`, a region of 16 blocks with
block 0 reserved, is given 130 bytes and reads back as those 130 bytes. -/
theorem updateFile_round_trip_witness :
    0 < ((refCollab layout64).ReadMetadata region64).BlockSize ∧
    BlockContract (refCollab layout64) (fun s a => s a)
      ((refCollab layout64).ReadMetadata region64) 1 16 ∧
    (gather file64).length = max 1 (ceilDiv file64.Size 64) ∧ (gather file64).Nodup ∧
    (UpdateFile (refCollab layout64) region64 1 content130).1 = .ok file64big ∧
    readBack (fun s a => s a) (UpdateFile (refCollab layout64) region64 1 content130).2
      ((refCollab layout64).ReadMetadata region64) file64big content130.length = content130 := by
  have hc : BlockContract (refCollab layout64) (fun s a => s a)
      ((refCollab layout64).ReadMetadata region64) 1 16 :=
    refCollab_blockContract layout64 1 16 (Or.inl (by decide)) (by decide)
  have hok : (UpdateFile (refCollab layout64) region64 1 content130).1 = .ok file64big := by
    set_option maxRecDepth 1000000 in
    rfl
  have halloc : ∀ ex v, (refCollab layout64).findFreeBitmapPosition
      ((refCollab layout64).clearFile region64 file64.BlocksLocations
        ((refCollab layout64).ReadMetadata region64))
      ((refCollab layout64).ReadMetadata region64) Bitmap.Blocks ex = .ok v →
      v ∉ ex ∧ v ≠ 0 ∧ v < 16 := by
    intro ex v h
    obtain ⟨h1, h2, h3⟩ := refFindFree_ok _ _ _ _ _ h
    refine ⟨h3, ?_, h1⟩
    intro h0
    subst h0
    revert h2
    set_option maxRecDepth 1000000 in
    decide
  exact ⟨by decide, hc, by decide, by decide, hok,
    updateFile_round_trip (refCollab layout64) (fun s a => s a) region64 1 16 content130 file64
      file64big (by decide) (by decide) hc (by decide)
      (by set_option maxRecDepth 1000000 in rfl) (by decide) (by decide) (by decide) (by decide)
      halloc hok⟩

/-! ## Claims about block ownership -/

/-- C8: in a region of `n ≤ 2^32` blocks with the inodes below `m`, let every block
referenced by an occupied inode be marked used and no block be referenced twice, by one
inode or by two, and let the allocator return only indices of the region that are free in
the bitmap and not in its exclusion list.  Let the collaborators work on their own parts of
the storage: `clearFile` changes no block flag but those of the inode's own pointers, the
steps of the update change neither the occupancy flag of an inode nor the record of
another inode, and the inode table reads back the record that `updateInode` writes.  Then
after a successful `UpdateFile` or `UpdateDirectory` on an inode below `m` no block index is
referenced twice in the state after, by one inode or by two: the updated inode references
the committed pointers, every other inode the blocks it referenced before. -/
theorem update_no_double_booking {σ : Type} (c : Collab σ) (storage : σ) (inode m n : Nat)
    (inodeInfo committed : Inode) (content : List Byte) (entries : List DirectoryEntry)
    (hm : inode < m) (hn : n ≤ 2 ^ 32) (h133 : 133 ≤ c.InodeSize)
    (hread : c.ReadInode storage (c.ReadMetadata storage) inode = .ok inodeInfo)
    (hmode : inodeInfo.Mode < 1000) (hprior : ∀ p ∈ gather inodeInfo, p < n)
    (hclear : ∀ w, w ∉ gather inodeInfo →
      c.getInodeValue (c.clearFile storage inodeInfo.BlocksLocations (c.ReadMetadata storage))
          (c.ReadMetadata storage) Bitmap.Blocks w
        = c.getInodeValue storage (c.ReadMetadata storage) Bitmap.Blocks w)
    (hused : ∀ i, i < m → ∀ p ∈ pointersOf c storage (c.ReadMetadata storage) i,
      c.getInodeValue storage (c.ReadMetadata storage) Bitmap.Blocks p = true)
    (hbook : NoDoubleBooking c storage (c.ReadMetadata storage) m)
    (halloc : ∀ ex v, c.findFreeBitmapPosition
        (c.clearFile storage inodeInfo.BlocksLocations (c.ReadMetadata storage))
        (c.ReadMetadata storage) Bitmap.Blocks ex = .ok v →
      c.getInodeValue (c.clearFile storage inodeInfo.BlocksLocations (c.ReadMetadata storage))
          (c.ReadMetadata storage) Bitmap.Blocks v = false ∧ v ∉ ex ∧ v < n)
    (hocc : ∀ j, j < m → Untouched c (c.ReadMetadata storage) inode n
      (fun s => c.getInodeValue s (c.ReadMetadata storage) Bitmap.Inodes j))
    (hrec : ∀ j, j < m → j ≠ inode → Untouched c (c.ReadMetadata storage) inode n
      (fun s => c.ReadInode s (c.ReadMetadata storage) j))
    (hback : ∀ s, c.ReadInode
        (updateInode c (c.clearInode s (c.ReadMetadata storage) inode) (c.ReadMetadata storage)
          committed inode)
        (c.ReadMetadata storage) inode = .ok committed) :
    ((UpdateFile c storage inode content).1 = .ok committed →
      NoDoubleBooking c (UpdateFile c storage inode content).2 (c.ReadMetadata storage) m ∧
      pointersOf c (UpdateFile c storage inode content).2 (c.ReadMetadata storage) inode
        = gather committed ∧
      ∀ j, j < m → j ≠ inode →
        pointersOf c (UpdateFile c storage inode content).2 (c.ReadMetadata storage) j
          = pointersOf c storage (c.ReadMetadata storage) j) ∧
    ((UpdateDirectory c storage inode entries).1 = .ok committed →
      NoDoubleBooking c (UpdateDirectory c storage inode entries).2 (c.ReadMetadata storage) m ∧
      pointersOf c (UpdateDirectory c storage inode entries).2 (c.ReadMetadata storage) inode
        = gather committed ∧
      ∀ j, j < m → j ≠ inode →
        pointersOf c (UpdateDirectory c storage inode entries).2 (c.ReadMetadata storage) j
          = pointersOf c storage (c.ReadMetadata storage) j) := by
  have halloc32 : ∀ ex v, c.findFreeBitmapPosition
        (c.clearFile storage inodeInfo.BlocksLocations (c.ReadMetadata storage))
        (c.ReadMetadata storage) Bitmap.Blocks ex = .ok v →
      c.getInodeValue (c.clearFile storage inodeInfo.BlocksLocations (c.ReadMetadata storage))
          (c.ReadMetadata storage) Bitmap.Blocks v = false ∧ v ∉ ex ∧ v < 2 ^ 32 := by
    intro ex v h
    obtain ⟨h1, h2, h3⟩ := halloc ex v h
    exact ⟨h1, h2, by omega⟩
  have key : ∀ (tag : String) (payload : List Byte) (after : σ),
      c.getInodeValue storage (c.ReadMetadata storage) Bitmap.Inodes inode = true →
      (commit c tag (c.clearFile storage inodeInfo.BlocksLocations (c.ReadMetadata storage))
        (c.ReadMetadata storage) inodeInfo inode payload).1 = .ok committed →
      after = (commit c tag (c.clearFile storage inodeInfo.BlocksLocations
        (c.ReadMetadata storage)) (c.ReadMetadata storage) inodeInfo inode payload).2 →
      NoDoubleBooking c after (c.ReadMetadata storage) m ∧
      pointersOf c after (c.ReadMetadata storage) inode = gather committed ∧
      ∀ j, j < m → j ≠ inode →
        pointersOf c after (c.ReadMetadata storage) j
          = pointersOf c storage (c.ReadMetadata storage) j := by
    intro tag payload after hoccupied hok hafter
    subst hafter
    have hown := pointersOf_of_read c storage _ inode inodeInfo hoccupied hread
    have hnew := commit_no_double_booking c tag storage _ _ inodeInfo inode m payload
      committed hown hm hclear hused hbook halloc32 hok
    have hpost := commit_table_after c tag storage (c.ReadMetadata storage) inodeInfo committed
      inode m n payload hoccupied h133 hmode hprior (fun ex v h => (halloc ex v h).2.2)
      hocc hrec hback hok
    refine ⟨noDoubleBooking_after c storage _ _ inode m committed hbook hnew hpost, ?_, ?_⟩
    · rw [hpost inode hm, if_pos rfl]
    · intro j hj hji
      rw [hpost j hj, if_neg hji]
  constructor
  · intro hok
    obtain ⟨inodeInfo', _, hoccupied, hread', _, hupd⟩ :=
      UpdateFile_ok c storage inode content committed hok
    rw [hread] at hread'
    simp only [Except.ok.injEq] at hread'
    subst hread'
    exact key "update file" content _ hoccupied (by rw [← hupd]; exact hok) (by rw [hupd])
  · intro hok
    obtain ⟨inodeInfo', encoded, _, hoccupied, hread', _, _, hupd⟩ :=
      UpdateDirectory_ok c storage inode entries committed hok
    rw [hread] at hread'
    simp only [Except.ok.injEq] at hread'
    subst hread'
    exact key "update directory" encoded _ hoccupied (by rw [← hupd]; exact hok) (by rw [hupd])

/-- C8 at a concrete input: in `region64`, a region of 16 blocks with the inodes 0 to 2
where the file of inode 1 owns block 5 and the directory of inode 2 block 6, inode 1 is
given 130 bytes; afterwards it owns blocks 5, 1, 2 and no block is referenced twice. -/
theorem update_no_double_booking_witness :
    NoDoubleBooking (refCollab layout64) region64 ((refCollab layout64).ReadMetadata region64) 3 ∧
    (UpdateFile (refCollab layout64) region64 1 content130).1 = .ok file64big ∧
    (∀ j, j < 3 → Untouched (refCollab layout64) ((refCollab layout64).ReadMetadata region64)
      1 16 (fun s => (refCollab layout64).getInodeValue s
        ((refCollab layout64).ReadMetadata region64) Bitmap.Inodes j)) ∧
    (∀ j, j < 3 → j ≠ 1 → Untouched (refCollab layout64)
      ((refCollab layout64).ReadMetadata region64) 1 16
      (fun s => (refCollab layout64).ReadInode s ((refCollab layout64).ReadMetadata region64) j)) ∧
    pointersOf (refCollab layout64) (UpdateFile (refCollab layout64) region64 1 content130).2
      layout64.fsdata 1 = [5, 1, 2] ∧
    pointersOf (refCollab layout64) (UpdateFile (refCollab layout64) region64 1 content130).2
      layout64.fsdata 2 = [6] ∧
    NoDoubleBooking (refCollab layout64) (UpdateFile (refCollab layout64) region64 1 content130).2
      ((refCollab layout64).ReadMetadata region64) 3 := by
  have hbook : NoDoubleBooking (refCollab layout64) region64
      ((refCollab layout64).ReadMetadata region64) 3 := by
    rw [noDoubleBooking_iff]
    set_option maxRecDepth 1000000 in
    decide
  have hok : (UpdateFile (refCollab layout64) region64 1 content130).1 = .ok file64big := by
    set_option maxRecDepth 1000000 in
    rfl
  have hclear : ∀ w, w ∉ gather file64 →
      (refCollab layout64).getInodeValue
          ((refCollab layout64).clearFile region64 file64.BlocksLocations
            ((refCollab layout64).ReadMetadata region64))
          ((refCollab layout64).ReadMetadata region64) Bitmap.Blocks w
        = (refCollab layout64).getInodeValue region64
            ((refCollab layout64).ReadMetadata region64) Bitmap.Blocks w := by
    intro w hw
    show decide (refClearFile layout64 region64 file64.BlocksLocations
        (layout64.flagAt Bitmap.Blocks w) ≠ 0) = decide (region64 (layout64.flagAt Bitmap.Blocks w) ≠ 0)
    rw [refClearFile_flag layout64 w _ _ hw]
  have halloc : ∀ ex v, (refCollab layout64).findFreeBitmapPosition
      ((refCollab layout64).clearFile region64 file64.BlocksLocations
        ((refCollab layout64).ReadMetadata region64))
      ((refCollab layout64).ReadMetadata region64) Bitmap.Blocks ex = .ok v →
      (refCollab layout64).getInodeValue
          ((refCollab layout64).clearFile region64 file64.BlocksLocations
            ((refCollab layout64).ReadMetadata region64))
          ((refCollab layout64).ReadMetadata region64) Bitmap.Blocks v = false ∧
        v ∉ ex ∧ v < 16 := by
    intro ex v h
    obtain ⟨h1, h2, h3⟩ := refFindFree_ok _ _ _ _ _ h
    refine ⟨?_, h3, h1⟩
    show decide (refClearFile layout64 region64 file64.BlocksLocations
        (layout64.flagAt Bitmap.Blocks v) ≠ 0) = false
    have h2' : refClearFile layout64 region64 file64.BlocksLocations
        (layout64.flagAt Bitmap.Blocks v) = 0 := h2
    simp [h2']
  have hocc : ∀ j, j < 3 → Untouched (refCollab layout64)
      ((refCollab layout64).ReadMetadata region64) 1 16
      (fun s => (refCollab layout64).getInodeValue s
        ((refCollab layout64).ReadMetadata region64) Bitmap.Inodes j) := by
    intro j hj
    refine refCollab_untouched layout64 1 16 _ (fun a => a = j) ?_ ?_
    · intro s t h
      show decide (s (layout64.flagAt Bitmap.Inodes j) ≠ 0)
        = decide (t (layout64.flagAt Bitmap.Inodes j) ≠ 0)
      have e : layout64.flagAt Bitmap.Inodes j = j := Nat.zero_add j
      rw [e, h j rfl]
    · intro a ha
      have ha' : a = j := ha
      have e1 : layout64.fsdata.FirstBlock = 700 := rfl
      have e2 : layout64.blockFlags = 16 := rfl
      have e3 : layout64.fsdata.Root = 100 := rfl
      omega
  have hrec : ∀ j, j < 3 → j ≠ 1 → Untouched (refCollab layout64)
      ((refCollab layout64).ReadMetadata region64) 1 16
      (fun s => (refCollab layout64).ReadInode s
        ((refCollab layout64).ReadMetadata region64) j) := by
    intro j hj hj1
    refine refCollab_untouched layout64 1 16 _
      (fun a => layout64.fsdata.Root + j * 133 ≤ a ∧ a < layout64.fsdata.Root + j * 133 + 133)
      ?_ ?_
    · intro s t h
      exact refReadInode_local s t _ j (fun a h1 h2 => h a ⟨h1, h2⟩)
    · intro a ha
      have ha' : layout64.fsdata.Root + j * 133 ≤ a ∧ a < layout64.fsdata.Root + j * 133 + 133 := ha
      have e1 : layout64.fsdata.FirstBlock = 700 := rfl
      have e2 : layout64.blockFlags = 16 := rfl
      have e3 : layout64.fsdata.Root = 100 := rfl
      have e4 : layout64.fsdata.BlockSize = 64 := rfl
      rw [e1, e2, e3, e4]
      rw [e3] at ha'
      omega
  have hback : ∀ s, (refCollab layout64).ReadInode
      (updateInode (refCollab layout64)
        ((refCollab layout64).clearInode s ((refCollab layout64).ReadMetadata region64) 1)
        ((refCollab layout64).ReadMetadata region64) file64big 1)
      ((refCollab layout64).ReadMetadata region64) 1 = .ok file64big := by
    intro s
    refine (refReadInode_written layout64 s file64big 1).trans ?_
    set_option maxRecDepth 1000000 in
    rfl
  have main := (update_no_double_booking (refCollab layout64) region64 1 3 16 file64 file64big
    content130 [] (by decide) (by decide) (by decide)
    (by set_option maxRecDepth 1000000 in rfl) (by decide) (by decide) hclear
    (by set_option maxRecDepth 1000000 in decide) hbook halloc hocc hrec hback).1 hok
  have h1 : pointersOf (refCollab layout64)
      (UpdateFile (refCollab layout64) region64 1 content130).2 layout64.fsdata 1 = [5, 1, 2] := by
    set_option maxRecDepth 1000000 in
    decide
  have h2 : pointersOf (refCollab layout64)
      (UpdateFile (refCollab layout64) region64 1 content130).2 layout64.fsdata 2 = [6] := by
    set_option maxRecDepth 1000000 in
    decide
  exact ⟨hbook, hok, hocc, hrec, h1, h2, main.1⟩

/-! ## Claims about failures of the orchestrators -/

/-- The outcome of `UpdateFile` once the four checks have passed. -/
theorem UpdateFile_checked {σ : Type} (c : Collab σ) (storage : σ) (inode : Nat)
    (content : List Byte) (inodeInfo : Inode) (hn : inode ≠ 0)
    (hocc : c.getInodeValue storage (c.ReadMetadata storage) Bitmap.Inodes inode = true)
    (hread : c.ReadInode storage (c.ReadMetadata storage) inode = .ok inodeInfo)
    (hmode : inodeInfo.Mode ≠ 0) :
    UpdateFile c storage inode content
      = commit c "update file" (c.clearFile storage inodeInfo.BlocksLocations
          (c.ReadMetadata storage)) (c.ReadMetadata storage) inodeInfo inode content := by
  unfold UpdateFile
  simp only [if_neg hn, hocc, hread, if_neg hmode]
  rfl

/-- C11: for an existing inode that is not Directory-tagged and a content whose length
needs `max(1, ceil(L/block_size)) ≥ 12` blocks, `UpdateFile` fails after `clearFile` and
before any write: the storage it leaves is the one `clearFile` left, and as `clearFile`
leaves the inode record as it reads, the record (type tag, size, all 12 pointer slots)
reads back after the call as before it. -/
theorem updateFile_too_long_keeps_inode {σ : Type} (c : Collab σ) (storage : σ) (inode : Nat)
    (content : List Byte) (inodeInfo : Inode)
    (hbs : 0 < (c.ReadMetadata storage).BlockSize) (hn : inode ≠ 0)
    (hocc : c.getInodeValue storage (c.ReadMetadata storage) Bitmap.Inodes inode = true)
    (hread : c.ReadInode storage (c.ReadMetadata storage) inode = .ok inodeInfo)
    (hmode : inodeInfo.Mode ≠ 0)
    (hlong : 12 ≤ max 1 (ceilDiv content.length (c.ReadMetadata storage).BlockSize))
    (hframe : c.ReadInode (c.clearFile storage inodeInfo.BlocksLocations
        (c.ReadMetadata storage)) (c.ReadMetadata storage) inode
      = c.ReadInode storage (c.ReadMetadata storage) inode) :
    UpdateFile c storage inode content
      = (.error (.err "update file: could not update content"),
          c.clearFile storage inodeInfo.BlocksLocations (c.ReadMetadata storage)) ∧
    c.ReadInode (UpdateFile c storage inode content).2 (c.ReadMetadata storage) inode
      = .ok inodeInfo := by
  have _ := hbs
  rw [← blocksFor_eq_max] at hlong
  have h1 : UpdateFile c storage inode content
      = (.error (.err "update file: could not update content"),
          c.clearFile storage inodeInfo.BlocksLocations (c.ReadMetadata storage)) := by
    rw [UpdateFile_checked c storage inode content inodeInfo hn hocc hread hmode]
    unfold commit updateContent
    simp only [if_pos hlong]
    rfl
  refine ⟨h1, ?_⟩
  rw [h1]
  show c.ReadInode (c.clearFile storage inodeInfo.BlocksLocations (c.ReadMetadata storage))
    (c.ReadMetadata storage) inode = .ok inodeInfo
  rw [hframe, hread]

/-- C11 at a concrete input: the file of inode 1 in `region64` is given 705 bytes, which
need twelve blocks of 64 bytes; its record reads back as before. -/
theorem updateFile_too_long_keeps_inode_witness :
    0 < ((refCollab layout64).ReadMetadata region64).BlockSize ∧
    file64.Mode ≠ 0 ∧
    12 ≤ max 1 (ceilDiv content705.length ((refCollab layout64).ReadMetadata region64).BlockSize) ∧
    (UpdateFile (refCollab layout64) region64 1 content705).1
      = .error (.err "update file: could not update content") ∧
    (refCollab layout64).ReadInode (UpdateFile (refCollab layout64) region64 1 content705).2
      ((refCollab layout64).ReadMetadata region64) 1 = .ok file64 := by
  have hlong : 12 ≤ max 1
      (ceilDiv content705.length ((refCollab layout64).ReadMetadata region64).BlockSize) := by
    set_option maxRecDepth 100000 in
    decide
  have main := updateFile_too_long_keeps_inode (refCollab layout64) region64 1 content705 file64
    (by decide) (by decide) (by set_option maxRecDepth 1000000 in rfl)
    (by set_option maxRecDepth 1000000 in rfl) (by decide) hlong
    (by set_option maxRecDepth 1000000 in rfl)
  exact ⟨by decide, by decide, hlong, by rw [main.1], main.2⟩

theorem fillSlots_error : ∀ (blocks : List Nat) (inodeInfo : Inode) (i : Nat) (f : Fault),
    fillSlots inodeInfo i blocks = .error f → f = Fault.panic := by
  intro blocks
  induction blocks with
  | nil => intro inodeInfo i f h; exact absurd h (by simp [fillSlots])
  | cons value rest ih =>
    intro inodeInfo i f h
    simp only [fillSlots] at h
    by_cases hi : i < 12
    · rw [if_pos hi] at h
      exact ih _ _ _ h
    · rw [if_neg hi] at h
      simp only [Except.error.injEq] at h
      exact h.symm

/-- An error that `commit` returns is the reallocation failure. -/
theorem commit_err {σ : Type} (c : Collab σ) (tag : String) (storage : σ) (fsdata : Metadata)
    (inodeInfo : Inode) (inode : Nat) (content : List Byte) (t : String)
    (h : (commit c tag storage fsdata inodeInfo inode content).1 = .error (.err t)) :
    t = tag ++ ": could not update content" := by
  unfold commit at h
  generalize updateContent c storage fsdata inodeInfo content = r at h
  obtain ⟨r1, r2⟩ := r
  cases r1 with
  | error f =>
    cases f with
    | err text => simp only [Except.error.injEq, Fault.err.injEq] at h; exact h.symm
    | collab text => simp only [Except.error.injEq, Fault.err.injEq] at h; exact h.symm
    | panic => exact absurd h (by simp)
  | ok blocks =>
    simp only at h
    cases hf : updateBlockIdsInInode inodeInfo blocks with
    | error f =>
      rw [hf] at h
      have := fillSlots_error _ _ _ _ hf
      subst this
      exact absurd h (by simp)
    | ok filled => rw [hf] at h; exact absurd h (by simp)

/-- Every error of `UpdateFile` other than the reallocation failure leaves the storage as
it was. -/
theorem UpdateFile_fail_fast {σ : Type} (c : Collab σ) (storage : σ) (inode : Nat)
    (content : List Byte) (t : String)
    (h : (UpdateFile c storage inode content).1 = .error (.err t))
    (ht : t ≠ "update file: could not update content") :
    (UpdateFile c storage inode content).2 = storage := by
  unfold UpdateFile at h ⊢
  by_cases h0 : inode = 0
  · simp only [if_pos h0]
  · simp only [if_neg h0] at h ⊢
    cases hocc : c.getInodeValue storage (c.ReadMetadata storage) Bitmap.Inodes inode with
    | false => rfl
    | true =>
      simp only [hocc] at h ⊢
      cases hread : c.ReadInode storage (c.ReadMetadata storage) inode with
      | error e => simp only [hread]; rfl
      | ok inodeInfo =>
        simp only [hread] at h ⊢
        by_cases hm : inodeInfo.Mode = 0
        · simp only [if_pos hm]; rfl
        · simp only [if_neg hm, Bool.not_true, Bool.false_eq_true, if_false] at h
          exact absurd (commit_err _ _ _ _ _ _ _ _ h) ht

/-- Every error that `UpdateDirectory` makes itself, other than the reallocation failure,
leaves the storage as it was. -/
theorem UpdateDirectory_fail_fast {σ : Type} (c : Collab σ) (storage : σ) (inode : Nat)
    (content : List DirectoryEntry) (t : String)
    (h : (UpdateDirectory c storage inode content).1 = .error (.err t))
    (ht : t ≠ "update directory: could not update content") :
    (UpdateDirectory c storage inode content).2 = storage := by
  unfold UpdateDirectory at h ⊢
  by_cases h0 : inode = 0
  · simp only [if_pos h0]
  · simp only [if_neg h0] at h ⊢
    cases hocc : c.getInodeValue storage (c.ReadMetadata storage) Bitmap.Inodes inode with
    | false => rfl
    | true =>
      simp only [hocc] at h ⊢
      cases hread : c.ReadInode storage (c.ReadMetadata storage) inode with
      | error e => simp only [hread]; rfl
      | ok inodeInfo =>
        simp only [hread] at h ⊢
        by_cases hm : inodeInfo.Mode = 1
        · simp only [if_pos hm]; rfl
        · simp only [if_neg hm, Bool.not_true, Bool.false_eq_true, if_false] at h
          cases henc : c.EncodeDirectoryContent content with
          | error e => rw [henc] at h; exact absurd h (by simp)
          | ok encoded =>
            rw [henc] at h
            exact absurd (commit_err _ _ _ _ _ _ _ _ h) ht

/-- When the codec refuses the entry list, `UpdateDirectory` returns the codec's error
after `clearFile` has run. -/
theorem UpdateDirectory_encode_failure {σ : Type} (c : Collab σ) (storage : σ) (inode : Nat)
    (content : List DirectoryEntry) (inodeInfo : Inode) (e : String) (hn : inode ≠ 0)
    (hocc : c.getInodeValue storage (c.ReadMetadata storage) Bitmap.Inodes inode = true)
    (hread : c.ReadInode storage (c.ReadMetadata storage) inode = .ok inodeInfo)
    (hmode : inodeInfo.Mode ≠ 1) (henc : c.EncodeDirectoryContent content = .error e) :
    UpdateDirectory c storage inode content
      = (.error (.collab e),
          c.clearFile storage inodeInfo.BlocksLocations (c.ReadMetadata storage)) := by
  unfold UpdateDirectory
  simp only [if_neg hn, hocc, hread, if_neg hmode, henc]
  rfl

/-- C12, the code at the failing input: in `region64` the directory of inode 2 owns
block 6, whose flag is set.  `UpdateDirectory` on inode 2 with an entry list that the
codec refuses returns the codec's error, neither inode 0, nor occupancy, nor readability,
nor the type tag being at fault, and the flag of block 6 is clear afterwards while the
record of inode 2 still references block 6: the blocks were released before the entry
list was encoded. -/
theorem updateDirectory_encode_failure_mutates :
    (strictCollab layout64).EncodeDirectoryContent [⟨1, "a-b", by decide⟩]
      = .error "directory entry cannot be encoded" ∧
    UpdateDirectory (strictCollab layout64) region64 2 [⟨1, "a-b", by decide⟩]
      = (.error (.collab "directory entry cannot be encoded"),
          (strictCollab layout64).clearFile region64 dir64.BlocksLocations layout64.fsdata) ∧
    (strictCollab layout64).getInodeValue region64 layout64.fsdata Bitmap.Blocks 6 = true ∧
    (strictCollab layout64).getInodeValue
      (UpdateDirectory (strictCollab layout64) region64 2 [⟨1, "a-b", by decide⟩]).2
      layout64.fsdata Bitmap.Blocks 6 = false ∧
    pointersOf (strictCollab layout64)
      (UpdateDirectory (strictCollab layout64) region64 2 [⟨1, "a-b", by decide⟩]).2
      layout64.fsdata 2 = [6] := by
  have henc : (strictCollab layout64).EncodeDirectoryContent [⟨1, "a-b", by decide⟩]
      = .error "directory entry cannot be encoded" := by
    rfl
  have hrun := UpdateDirectory_encode_failure (strictCollab layout64) region64 2
    [⟨1, "a-b", by decide⟩] dir64 "directory entry cannot be encoded" (by decide)
    (by set_option maxRecDepth 1000000 in rfl) (by set_option maxRecDepth 1000000 in rfl)
    (by decide) henc
  refine ⟨henc, hrun, ?_, ?_, ?_⟩
  · set_option maxRecDepth 1000000 in
    decide
  · set_option maxRecDepth 1000000 in
    decide
  · set_option maxRecDepth 1000000 in
    decide

/-! ## The loop of `RenameFile` -/

theorem uint32_of_nat (n : Nat) (h : n < 2 ^ 32) : uint32 (n : Int) = n := by
  unfold uint32
  have hmod : (n : Int) % 2 ^ 32 = (n : Int) :=
    Int.emod_eq_of_lt (Int.natCast_nonneg n) (by exact_mod_cast h)
  rw [hmod]
  exact Int.toNat_natCast n

theorem uint32_of_range (x : Int) (h0 : 0 ≤ x) (h1 : x < 2 ^ 32) : ((uint32 x : Nat) : Int) = x := by
  unfold uint32
  rw [Int.emod_eq_of_lt h0 h1]
  exact Int.toNat_of_nonneg h0

theorem containsReserved_iff (newName : String) :
    containsReserved newName = true ↔
      ∃ ch ∈ newName.toList, ch = Char.ofNat 92 ∨ ch = ':' ∨ ch = '-' := by
  unfold containsReserved
  simp only [List.any_eq_true, Bool.or_eq_true, decide_eq_true_eq]
  constructor
  · rintro ⟨ch, hch, h⟩
    exact ⟨ch, hch, by tauto⟩
  · rintro ⟨ch, hch, h⟩
    exact ⟨ch, hch, by tauto⟩

theorem renameEntry_none_iff (target : Nat) (newName : String) :
    ∀ entries : List DirectoryEntry,
      renameEntry target newName entries = none ↔ ∀ e ∈ entries, e.Inode ≠ target := by
  intro entries
  induction entries with
  | nil => simp [renameEntry]
  | cons dirEntry rest ih =>
    simp only [renameEntry]
    by_cases h : dirEntry.Inode = target
    · rw [if_pos h]
      simp [h]
    · rw [if_neg h]
      simp only [Option.map_eq_none', ih, List.mem_cons, forall_eq_or_imp]
      exact ⟨fun hr => ⟨h, hr⟩, fun hr => hr.2⟩

theorem renameEntry_some (target : Nat) (newName : String) :
    ∀ (entries renamed : List DirectoryEntry),
      renameEntry target newName entries = some renamed →
      ∃ k e, entries[k]? = some e ∧ e.Inode = target ∧
        (∀ j, j < k → ∀ e', entries[j]? = some e' → e'.Inode ≠ target) ∧
        renamed = entries.take k ++ { e with FileName := newName } :: entries.drop (k + 1) := by
  intro entries
  induction entries with
  | nil => intro renamed h; exact absurd h (by simp [renameEntry])
  | cons dirEntry rest ih =>
    intro renamed h
    simp only [renameEntry] at h
    by_cases hd : dirEntry.Inode = target
    · rw [if_pos hd] at h
      simp only [Option.some.injEq] at h
      refine ⟨0, dirEntry, by simp, hd, fun j hj => absurd hj (by omega), ?_⟩
      rw [← h]
      rfl
    · rw [if_neg hd] at h
      cases hr : renameEntry target newName rest with
      | none => rw [hr] at h; exact absurd h (by simp)
      | some tail =>
        rw [hr] at h
        simp only [Option.map_some', Option.some.injEq] at h
        obtain ⟨k, e, hk, he, hbefore, htail⟩ := ih tail hr
        refine ⟨k + 1, e, by simpa using hk, he, ?_, ?_⟩
        · intro j hj e' hj'
          cases j with
          | zero =>
            simp only [List.getElem?_cons_zero, Option.some.injEq] at hj'
            rw [← hj']
            exact hd
          | succ j =>
            simp only [List.getElem?_cons_succ] at hj'
            exact hbefore j (by omega) e' hj'
        · rw [← h, htail]
          rfl

/-- The outcome of `RenameFile` once inode number and name are accepted and an entry
matches: the iterator holds the renamed list, the storage is the one `UpdateDirectory`
leaves for that list, and the value returned is `nil` unless `UpdateDirectory` panics. -/
theorem RenameFile_found {σ : Type} (c : Collab σ) (storage : σ)
    (currentDirectory : DirectoryIterator) (inode : Int) (newName : String)
    (renamed : List DirectoryEntry) (hn : inode ≠ 0) (hname : containsReserved newName = false)
    (hfound : renameEntry (uint32 inode) newName currentDirectory.DirectoryContent
      = some renamed) :
    (RenameFile c storage currentDirectory inode newName).2.1
      = { currentDirectory with DirectoryContent := renamed } ∧
    (RenameFile c storage currentDirectory inode newName).2.2
      = (UpdateDirectory c storage currentDirectory.DirectoryInode renamed).2 ∧
    ((UpdateDirectory c storage currentDirectory.DirectoryInode renamed).1
        = .error Fault.panic →
      (RenameFile c storage currentDirectory inode newName).1 = .error Fault.panic) ∧
    ((UpdateDirectory c storage currentDirectory.DirectoryInode renamed).1
        ≠ .error Fault.panic →
      (RenameFile c storage currentDirectory inode newName).1 = .ok ()) := by
  unfold RenameFile
  simp only [if_neg hn, hname, hfound, Bool.false_eq_true, if_false]
  generalize UpdateDirectory c storage currentDirectory.DirectoryInode renamed = r
  obtain ⟨r1, r2⟩ := r
  cases r1 with
  | error f => cases f <;> simp
  | ok committed => simp

/-- The outcome of `RenameFile` once inode number and name are accepted and no entry
matches. -/
theorem RenameFile_not_found {σ : Type} (c : Collab σ) (storage : σ)
    (currentDirectory : DirectoryIterator) (inode : Int) (newName : String)
    (hn : inode ≠ 0) (hname : containsReserved newName = false)
    (hnone : renameEntry (uint32 inode) newName currentDirectory.DirectoryContent = none) :
    RenameFile c storage currentDirectory inode newName
      = (.error (.err "rename file: file not found"), currentDirectory, storage) := by
  unfold RenameFile
  simp only [if_neg hn, hname, hnone, Bool.false_eq_true, if_false]

/-! ## Claims about `RenameFile` -/

/-- C13: for every directory iterator, every inode number and every new name that holds a
backslash, a colon or a dash, `RenameFile` returns an error (for inode 0 the one of line
111, otherwise the one of line 114), the iterator with every entry and the storage are
as before, and no collaborator is consulted, `UpdateDirectory` included: the outcome is
the same triple for every environment.  A name that holds none of the three characters
never gets the error of line 114. -/
theorem renameFile_rejects_reserved {σ : Type} (c : Collab σ) (storage : σ)
    (currentDirectory : DirectoryIterator) (inode : Int) (newName : String)
    (hres : ∃ ch ∈ newName.toList, ch = Char.ofNat 92 ∨ ch = ':' ∨ ch = '-') :
    RenameFile c storage currentDirectory inode newName
      = (.error (.err (if inode = 0 then "rename file: inode cannot be 0"
          else reservedNameText)), currentDirectory, storage) ∧
    (∀ c' : Collab σ, RenameFile c' storage currentDirectory inode newName
      = RenameFile c storage currentDirectory inode newName) ∧
    (∀ other : String, (∀ ch ∈ other.toList, ch ≠ Char.ofNat 92 ∧ ch ≠ ':' ∧ ch ≠ '-') →
      (RenameFile c storage currentDirectory inode other).1
        ≠ .error (.err reservedNameText)) := by
  have hc := (containsReserved_iff newName).mpr hres
  have hval : ∀ c' : Collab σ, RenameFile c' storage currentDirectory inode newName
      = (.error (.err (if inode = 0 then "rename file: inode cannot be 0"
          else reservedNameText)), currentDirectory, storage) := by
    intro c'
    unfold RenameFile
    by_cases h0 : inode = 0
    · simp only [if_pos h0]
    · simp only [if_neg h0, hc, if_true]
  refine ⟨hval c, fun c' => by rw [hval c', hval c], ?_⟩
  intro other hother
  have hfree : containsReserved other = false := by
    cases hcr : containsReserved other with
    | false => rfl
    | true =>
      obtain ⟨ch, hch, h⟩ := (containsReserved_iff other).mp hcr
      have := hother ch hch
      tauto
  unfold RenameFile
  by_cases h0 : inode = 0
  · simp only [if_pos h0]
    intro h
    simp only [Except.error.injEq, Fault.err.injEq] at h
    revert h
    decide
  · simp only [if_neg h0, hfree, Bool.false_eq_true, if_false]
    cases hr : renameEntry (uint32 inode) other currentDirectory.DirectoryContent with
    | none =>
      simp only
      intro h
      simp only [Except.error.injEq, Fault.err.injEq] at h
      revert h
      decide
    | some renamed =>
      simp only
      generalize UpdateDirectory c storage currentDirectory.DirectoryInode renamed = r
      obtain ⟨r1, r2⟩ := r
      cases r1 with
      | error f => cases f <;> simp
      | ok committed => simp

/-- C13 at a concrete input: renaming inode 5 of `iterator64` to `a:b` is refused and
changes nothing, and the name `ab` is not refused. -/
theorem renameFile_rejects_reserved_witness :
    (∃ ch ∈ "a:b".toList, ch = Char.ofNat 92 ∨ ch = ':' ∨ ch = '-') ∧
    RenameFile (refCollab layout64) region64 iterator64 5 "a:b"
      = (.error (.err reservedNameText), iterator64, region64) ∧
    (RenameFile (refCollab layout64) region64 iterator64 5 "ab").1
      ≠ .error (.err reservedNameText) := by
  have hres : ∃ ch ∈ "a:b".toList, ch = Char.ofNat 92 ∨ ch = ':' ∨ ch = '-' :=
    ⟨':', by decide, Or.inr (Or.inl rfl)⟩
  have main := renameFile_rejects_reserved (refCollab layout64) region64 iterator64 5 "a:b" hres
  exact ⟨hres, main.1, main.2.2 "ab" (by decide)⟩

theorem containsReserved_false (newName : String)
    (hname : ∀ ch ∈ newName.toList, ch ≠ Char.ofNat 92 ∧ ch ≠ ':' ∧ ch ≠ '-') :
    containsReserved newName = false := by
  cases hcr : containsReserved newName with
  | false => rfl
  | true =>
    obtain ⟨ch, hch, h⟩ := (containsReserved_iff newName).mp hcr
    have := hname ch hch
    tauto

/-- C14: for a non-zero inode number, a name free of reserved characters and an entry list
that holds an entry with that inode number, after `RenameFile` the list has the same
length, the first entry whose inode number matches (position `k`) has the new name and
its inode number, every other position holds the entry it held, the iterator still names
the same directory inode, and the storage is the one `UpdateDirectory` leaves when it is
handed that directory inode and exactly the updated list. -/
theorem renameFile_renames_first_match {σ : Type} (c : Collab σ) (storage : σ)
    (currentDirectory : DirectoryIterator) (inode : Int) (newName : String)
    (hn : inode ≠ 0)
    (hname : ∀ ch ∈ newName.toList, ch ≠ Char.ofNat 92 ∧ ch ≠ ':' ∧ ch ≠ '-')
    (hex : ∃ e ∈ currentDirectory.DirectoryContent, (e.Inode : Int) = inode) :
    ∃ (k : Nat) (e : DirectoryEntry),
      currentDirectory.DirectoryContent[k]? = some e ∧ (e.Inode : Int) = inode ∧
      (∀ j, j < k → ∀ e' : DirectoryEntry,
        currentDirectory.DirectoryContent[j]? = some e' → (e'.Inode : Int) ≠ inode) ∧
      (RenameFile c storage currentDirectory inode newName).2.1.DirectoryContent.length
        = currentDirectory.DirectoryContent.length ∧
      (RenameFile c storage currentDirectory inode newName).2.1.DirectoryContent[k]?
        = some { e with FileName := newName } ∧
      (∀ j, j ≠ k →
        (RenameFile c storage currentDirectory inode newName).2.1.DirectoryContent[j]?
          = currentDirectory.DirectoryContent[j]?) ∧
      (RenameFile c storage currentDirectory inode newName).2.1.DirectoryInode
        = currentDirectory.DirectoryInode ∧
      (RenameFile c storage currentDirectory inode newName).2.2
        = (UpdateDirectory c storage currentDirectory.DirectoryInode
            (RenameFile c storage currentDirectory inode newName).2.1.DirectoryContent).2 := by
  obtain ⟨e0, he0, he0i⟩ := hex
  have ht : uint32 inode = e0.Inode := by
    rw [← he0i]
    exact uint32_of_nat _ e0.inode_lt
  have hcast : ∀ e : DirectoryEntry, e.Inode = uint32 inode ↔ (e.Inode : Int) = inode := by
    intro e
    rw [ht, ← he0i]
    exact Nat.cast_inj.symm
  have hfree := containsReserved_false newName hname
  cases hr : renameEntry (uint32 inode) newName currentDirectory.DirectoryContent with
  | none =>
    have := (renameEntry_none_iff _ _ _).mp hr e0 he0
    exact absurd ht.symm this
  | some renamed =>
    obtain ⟨k, e, hk, he, hbefore, hren⟩ := renameEntry_some _ _ _ _ hr
    obtain ⟨hit, hst, _, _⟩ := RenameFile_found c storage currentDirectory inode newName renamed
      hn hfree hr
    have hklt : k < currentDirectory.DirectoryContent.length := by
      obtain ⟨h, _⟩ := List.getElem?_eq_some.mp hk
      exact h
    have hset : renamed = currentDirectory.DirectoryContent.set k { e with FileName := newName } := by
      rw [hren, List.set_eq_take_append_cons_drop, if_pos hklt]
    refine ⟨k, e, hk, (hcast e).mp he,
      fun j hj e' hj' h => hbefore j hj e' hj' ((hcast e').mpr h), ?_, ?_, ?_, ?_, ?_⟩
    · rw [hit]
      show renamed.length = _
      rw [hset, List.length_set]
    · rw [hit]
      show renamed[k]? = _
      rw [hset, List.getElem?_set_self hklt]
    · intro j hj
      rw [hit]
      show renamed[j]? = _
      rw [hset, List.getElem?_set_ne (Ne.symm hj)]
    · rw [hit]
    · rw [hst, hit]

/-- C14 at a concrete input: in `iterator64`, whose entries are (7, x), (5, a), (5, b),
inode 5 is renamed to `new`; the entries afterwards are (7, x), (5, new), (5, b). -/
theorem renameFile_renames_first_match_witness :
    (5 : Int) ≠ 0 ∧
    (∃ e ∈ iterator64.DirectoryContent, (e.Inode : Int) = 5) ∧
    (RenameFile (refCollab layout64) region64 iterator64 5 "new").2.1
      = { DirectoryInode := 2
          DirectoryContent :=
            [⟨7, "x", by decide⟩, ⟨5, "new", by decide⟩, ⟨5, "b", by decide⟩] } ∧
    (RenameFile (refCollab layout64) region64 iterator64 5 "new").2.1.DirectoryContent.length
      = iterator64.DirectoryContent.length := by
  have hex : ∃ e ∈ iterator64.DirectoryContent, (e.Inode : Int) = 5 :=
    ⟨⟨5, "a", by decide⟩, by decide, rfl⟩
  obtain ⟨k, e, _, _, _, hlen, _⟩ := renameFile_renames_first_match (refCollab layout64)
    region64 iterator64 5 "new" (by decide) (by decide) hex
  refine ⟨by decide, hex, ?_, hlen⟩
  set_option maxRecDepth 1000000 in
  decide

/-- C15, for the literal claim: the inode number `2^32 + 5` is not zero, the name `new`
holds no reserved character and no entry of `iterator64` has the inode number `2^32 + 5`,
yet `RenameFile` returns `nil` and renames the first entry of inode 5: line 117 compares
with `uint32(inode)`.  In the same way the inode number `-1` matches the entry of inode
`2^32 - 1` of `iteratorWide`. -/
theorem renameFile_not_found_iff_counterexample :
    ((4294967301 : Int) ≠ 0 ∧
      containsReserved "new" = false ∧
      (∀ e ∈ iterator64.DirectoryContent, (e.Inode : Int) ≠ 4294967301) ∧
      (RenameFile (refCollab layout64) region64 iterator64 4294967301 "new").1.toOption
        = some () ∧
      (RenameFile (refCollab layout64) region64 iterator64 4294967301 "new").2.1
        = { DirectoryInode := 2
            DirectoryContent :=
              [⟨7, "x", by decide⟩, ⟨5, "new", by decide⟩, ⟨5, "b", by decide⟩] }) ∧
    ((-1 : Int) ≠ 0 ∧
      (∀ e ∈ iteratorWide.DirectoryContent, (e.Inode : Int) ≠ -1) ∧
      (RenameFile (refCollab layout64) region64 iteratorWide (-1) "new").1.toOption
        = some () ∧
      (RenameFile (refCollab layout64) region64 iteratorWide (-1) "new").2.1
        = { DirectoryInode := 2, DirectoryContent := [⟨4294967295, "new", by decide⟩] }) := by
  refine ⟨⟨by decide, by decide, by decide, ?_, ?_⟩, ⟨by decide, by decide, ?_, ?_⟩⟩
  · set_option maxRecDepth 1000000 in
    decide
  · set_option maxRecDepth 1000000 in
    decide
  · set_option maxRecDepth 1000000 in
    decide
  · set_option maxRecDepth 1000000 in
    decide

/-- C15, amended: for a non-zero inode number of either sign and a name free of reserved
characters, `RenameFile` returns the error "file not found" if and only if no entry of the
list has an inode number equal to `uint32(inode)`, the given one reduced modulo `2^32`
into the range from 0 to `2^32 - 1` (to the given one itself when it lies in that range);
in that case iterator and storage are as before and no collaborator is consulted,
`UpdateDirectory` included. -/
theorem renameFile_not_found_iff {σ : Type} (c : Collab σ) (storage : σ)
    (currentDirectory : DirectoryIterator) (inode : Int) (newName : String)
    (hn : inode ≠ 0)
    (hname : ∀ ch ∈ newName.toList, ch ≠ Char.ofNat 92 ∧ ch ≠ ':' ∧ ch ≠ '-') :
    ((RenameFile c storage currentDirectory inode newName).1
        = .error (.err "rename file: file not found")
      ↔ ∀ e ∈ currentDirectory.DirectoryContent, e.Inode ≠ uint32 inode) ∧
    (uint32 inode < 2 ^ 32 ∧ (2 : Int) ^ 32 ∣ inode - (uint32 inode : Int)) ∧
    (0 ≤ inode → inode < 2 ^ 32 →
      ((RenameFile c storage currentDirectory inode newName).1
          = .error (.err "rename file: file not found")
        ↔ ∀ e ∈ currentDirectory.DirectoryContent, (e.Inode : Int) ≠ inode)) ∧
    ((RenameFile c storage currentDirectory inode newName).1
        = .error (.err "rename file: file not found") →
      RenameFile c storage currentDirectory inode newName
        = (.error (.err "rename file: file not found"), currentDirectory, storage) ∧
      ∀ c' : Collab σ, RenameFile c' storage currentDirectory inode newName
        = RenameFile c storage currentDirectory inode newName) := by
  have hfree := containsReserved_false newName hname
  have key : ∀ c' : Collab σ, ((RenameFile c' storage currentDirectory inode newName).1
        = .error (.err "rename file: file not found")
      ↔ ∀ e ∈ currentDirectory.DirectoryContent, e.Inode ≠ uint32 inode) := by
    intro c'
    rw [← renameEntry_none_iff (uint32 inode) newName]
    constructor
    · intro h
      cases hr : renameEntry (uint32 inode) newName currentDirectory.DirectoryContent with
      | none => rfl
      | some renamed =>
        obtain ⟨_, _, hp, hq⟩ := RenameFile_found c' storage currentDirectory inode newName
          renamed hn hfree hr
        by_cases hpanic : (UpdateDirectory c' storage currentDirectory.DirectoryInode renamed).1
            = .error Fault.panic
        · rw [hp hpanic] at h
          exact absurd h (by simp)
        · rw [hq hpanic] at h
          exact absurd h (by simp)
    · intro h
      rw [RenameFile_not_found c' storage currentDirectory inode newName hn hfree h]
  have hpos : (0 : Int) < 2 ^ 32 := by norm_num
  have hcast : ((uint32 inode : Nat) : Int) = inode % 2 ^ 32 := by
    unfold uint32
    exact Int.toNat_of_nonneg (Int.emod_nonneg _ (ne_of_gt hpos))
  refine ⟨key c, ⟨?_, ?_⟩, ?_, ?_⟩
  · have h := Int.emod_lt_of_pos inode hpos
    rw [← hcast] at h
    exact_mod_cast h
  · rw [hcast]
    exact Int.dvd_sub_of_emod_eq rfl
  · intro h0 hlt
    rw [key c]
    have hu := uint32_of_range inode h0 hlt
    constructor
    · intro h e he hc
      apply h e he
      rw [← hu] at hc
      exact_mod_cast hc
    · intro h e he hc
      apply h e he
      rw [← hu, hc]
  · intro h
    have hnone : renameEntry (uint32 inode) newName currentDirectory.DirectoryContent = none :=
      (renameEntry_none_iff _ _ _).mpr ((key c).mp h)
    refine ⟨RenameFile_not_found c storage currentDirectory inode newName hn hfree hnone, ?_⟩
    intro c'
    rw [RenameFile_not_found c storage currentDirectory inode newName hn hfree hnone,
      RenameFile_not_found c' storage currentDirectory inode newName hn hfree hnone]

/-- C15, amended, at a concrete input: no entry of `iterator64` has inode number 9, and
renaming inode 9 gives "file not found" and changes nothing. -/
theorem renameFile_not_found_iff_witness :
    (9 : Int) ≠ 0 ∧
    (∀ e ∈ iterator64.DirectoryContent, (e.Inode : Int) ≠ 9) ∧
    RenameFile (refCollab layout64) region64 iterator64 9 "new"
      = (.error (.err "rename file: file not found"), iterator64, region64) := by
  have main := renameFile_not_found_iff (refCollab layout64) region64 iterator64 9 "new"
    (by decide) (by decide)
  have hno : ∀ e ∈ iterator64.DirectoryContent, (e.Inode : Int) ≠ 9 := by decide
  exact ⟨by decide, hno, (main.2.2.2 ((main.2.2.1 (by decide) (by decide)).mpr hno)).1⟩

/-- C16, the code on every input: whenever inode number and name are accepted, an entry
matches, and the call of `UpdateDirectory` that persists the renamed list returns an
error, `RenameFile` returns `nil`: line 119 drops the value and line 120 returns `nil`. -/
theorem renameFile_drops_update_error {σ : Type} (c : Collab σ) (storage : σ)
    (currentDirectory : DirectoryIterator) (inode : Int) (newName : String)
    (renamed : List DirectoryEntry) (text : String) (hn : inode ≠ 0)
    (hname : ∀ ch ∈ newName.toList, ch ≠ Char.ofNat 92 ∧ ch ≠ ':' ∧ ch ≠ '-')
    (hfound : renameEntry (uint32 inode) newName currentDirectory.DirectoryContent
      = some renamed)
    (hfail : (UpdateDirectory c storage currentDirectory.DirectoryInode renamed).1
        = .error (.err text) ∨
      (UpdateDirectory c storage currentDirectory.DirectoryInode renamed).1
        = .error (.collab text)) :
    (RenameFile c storage currentDirectory inode newName).1 = .ok () := by
  have hfree := containsReserved_false newName hname
  obtain ⟨_, _, _, hq⟩ := RenameFile_found c storage currentDirectory inode newName renamed
    hn hfree hfound
  apply hq
  rcases hfail with h | h <;> rw [h] <;> simp

/-- C16 at the failing input: `iteratorStale` names the directory inode 3, which is not
occupied in `region64`.  Renaming inode 5 to `b` finds the entry, `UpdateDirectory` fails
with "directory does not exits", and `RenameFile` returns `nil`; the entry is renamed in
the iterator and nothing is persisted. -/
theorem renameFile_drops_update_error_witness :
    (5 : Int) ≠ 0 ∧
    renameEntry (uint32 5) "b" iteratorStale.DirectoryContent = some [⟨5, "b", by decide⟩] ∧
    UpdateDirectory (refCollab layout64) region64 3 [⟨5, "b", by decide⟩]
      = (.error (.err "update directory: directory does not exits"), region64) ∧
    (RenameFile (refCollab layout64) region64 iteratorStale 5 "b").1 = .ok () ∧
    (RenameFile (refCollab layout64) region64 iteratorStale 5 "b").2.1.DirectoryContent
      = [⟨5, "b", by decide⟩] := by
  have hfound : renameEntry (uint32 5) "b" iteratorStale.DirectoryContent
      = some [⟨5, "b", by decide⟩] := by decide
  have hfail : UpdateDirectory (refCollab layout64) region64 3 [⟨5, "b", by decide⟩]
      = (.error (.err "update directory: directory does not exits"), region64) := by
    set_option maxRecDepth 1000000 in
    rfl
  refine ⟨by decide, hfound, hfail,
    renameFile_drops_update_error (refCollab layout64) region64 iteratorStale 5 "b"
      [⟨5, "b", by decide⟩] "update directory: directory does not exits" (by decide) (by decide)
      hfound (Or.inl (by rw [show iteratorStale.DirectoryInode = 3 from rfl, hfail])), ?_⟩
  set_option maxRecDepth 1000000 in
  decide

/-! ## Claims about the order of effects -/

theorem allocLoop_recorder {σ : Type} (c : Collab σ) (storage : σ) (log : List Effect)
    (fsdata : Metadata) : ∀ (n : Nat) (gathered : List Nat),
    allocLoop (recorder c) (storage, log) fsdata n gathered
      = allocLoop c storage fsdata n gathered := by
  intro n
  induction n with
  | zero => intro gathered; rfl
  | succ n ih =>
    intro gathered
    simp only [allocLoop]
    show (match c.findFreeBitmapPosition storage fsdata Bitmap.Blocks gathered with
      | .error e => Except.error e
      | .ok freeBlock => allocLoop (recorder c) (storage, log) fsdata n (gathered ++ [freeBlock]))
      = _
    cases c.findFreeBitmapPosition storage fsdata Bitmap.Blocks gathered with
    | error e => rfl
    | ok freeBlock => exact ih _

theorem commitLoop_recorder {σ : Type} (c : Collab σ) (fsdata : Metadata)
    (content : List Byte) : ∀ (blocks : List Nat) (i : Nat) (storage : σ) (log : List Effect),
    commitLoop (recorder c) fsdata content blocks i (storage, log)
      = (commitLoop c fsdata content blocks i storage,
          log ++ commitEffects fsdata content blocks i) := by
  intro blocks
  induction blocks with
  | nil => intro i storage log; simp [commitLoop, commitEffects]
  | cons value rest ih =>
    intro i storage log
    simp only [commitLoop, commitEffects]
    show commitLoop (recorder c) fsdata content rest (i + 1)
        (c.markOnBitmap (c.Write storage (cutContent content i fsdata.BlockSize)
            (fsdata.FirstBlock + value * fsdata.BlockSize)) fsdata true value Bitmap.Blocks,
          log ++ [Effect.write (cutContent content i fsdata.BlockSize)
              (fsdata.FirstBlock + value * fsdata.BlockSize)]
            ++ [Effect.mark true value Bitmap.Blocks]) = _
    rw [ih]
    simp

/-- The run of `updateContent` in the recording environment: the outcome and the storage
of the plain run, and as log the commit effects of the returned list, or nothing on an
error. -/
theorem updateContent_recorder {σ : Type} (c : Collab σ) (storage : σ) (log : List Effect)
    (fsdata : Metadata) (inode : Inode) (content : List Byte) :
    updateContent (recorder c) (storage, log) fsdata inode content
      = ((updateContent c storage fsdata inode content).1,
          ((updateContent c storage fsdata inode content).2,
            match (updateContent c storage fsdata inode content).1 with
            | .ok blocks => log ++ commitEffects fsdata content blocks 0
            | .error _ => log)) := by
  unfold updateContent
  simp only [allocLoop_recorder]
  split
  · rfl
  · split
    · rfl
    · split
      · rename_i e he
        simp only [he]
      · rename_i blocks hb
        simp only [hb, commitLoop_recorder]

theorem commitEffects_length (fsdata : Metadata) (content : List Byte) :
    ∀ (blocks : List Nat) (i : Nat),
      (commitEffects fsdata content blocks i).length = 2 * blocks.length := by
  intro blocks
  induction blocks with
  | nil => intro i; rfl
  | cons b rest ih =>
    intro i
    simp only [commitEffects, List.length_cons, ih]
    omega

theorem commitEffects_get (fsdata : Metadata) (content : List Byte) :
    ∀ (blocks : List Nat) (i j : Nat) (b : Nat), blocks[j]? = some b →
      (commitEffects fsdata content blocks i)[2 * j]?
        = some (Effect.write (cutContent content (i + j) fsdata.BlockSize)
            (fsdata.FirstBlock + b * fsdata.BlockSize)) ∧
      (commitEffects fsdata content blocks i)[2 * j + 1]?
        = some (Effect.mark true b Bitmap.Blocks) := by
  intro blocks
  induction blocks with
  | nil => intro i j b h; exact absurd h (by simp)
  | cons v rest ih =>
    intro i j b h
    cases j with
    | zero =>
      simp only [List.getElem?_cons_zero, Option.some.injEq] at h
      subst h
      simp [commitEffects]
    | succ j =>
      simp only [List.getElem?_cons_succ] at h
      obtain ⟨h1, h2⟩ := ih (i + 1) j b h
      have e1 : 2 * (j + 1) = 2 * j + 1 + 1 := by omega
      have e2 : 2 * (j + 1) + 1 = 2 * j + 1 + 1 + 1 := by omega
      have e3 : i + (j + 1) = i + 1 + j := by omega
      simp only [commitEffects]
      rw [e2, e1, e3]
      simp only [List.getElem?_cons_succ]
      exact ⟨h1, h2⟩

theorem commitEffects_under_marked (fsdata : Metadata) (content : List Byte) :
    ∀ (blocks : List Nat) (i m b : Nat),
      Effect.mark true b Bitmap.Blocks ∈ (commitEffects fsdata content blocks i).take m →
      ∃ j, Effect.write (cutContent content j fsdata.BlockSize)
          (fsdata.FirstBlock + b * fsdata.BlockSize)
        ∈ (commitEffects fsdata content blocks i).take m := by
  intro blocks
  induction blocks with
  | nil => intro i m b h; simp [commitEffects] at h
  | cons v rest ih =>
    intro i m b h
    simp only [commitEffects] at h ⊢
    cases m with
    | zero => simp at h
    | succ m =>
      cases m with
      | zero => simp at h
      | succ m =>
        simp only [List.take_succ_cons, List.mem_cons] at h ⊢
        rcases h with h | h | h
        · exact absurd h (by simp)
        · simp only [Effect.mark.injEq, true_and, and_true] at h
          subst h
          exact ⟨i, Or.inl rfl⟩
        · obtain ⟨j, hj⟩ := ih (i + 1) m b h
          exact ⟨j, Or.inr (Or.inr hj)⟩

/-- C18: on every successful run of `updateContent` with output `b_0 .. b_(k-1)` the log
of the recording environment, that is the sequence of calls of mutating collaborators, is
exactly write(chunk_0 at `FirstBlock + b_0 * BlockSize`), mark-used(b_0), write(chunk_1
...), mark-used(b_1), ...: `2k` effects, the write of chunk `j` at position `2j` and the
mark of `b_j` at position `2j + 1`.  In every initial segment of that sequence an index
that has been marked has had a chunk written to its block before. -/
theorem updateContent_effects {σ : Type} (c : Collab σ) (storage : σ) (fsdata : Metadata)
    (inode : Inode) (content : List Byte) (blocks : List Nat)
    (hok : (updateContent c storage fsdata inode content).1 = .ok blocks) :
    updateContent (recorder c) (storage, []) fsdata inode content
      = (.ok blocks, ((updateContent c storage fsdata inode content).2,
          commitEffects fsdata content blocks 0)) ∧
    (commitEffects fsdata content blocks 0).length = 2 * blocks.length ∧
    (∀ j b, blocks[j]? = some b →
      (commitEffects fsdata content blocks 0)[2 * j]?
        = some (Effect.write (cutContent content j fsdata.BlockSize)
            (fsdata.FirstBlock + b * fsdata.BlockSize)) ∧
      (commitEffects fsdata content blocks 0)[2 * j + 1]?
        = some (Effect.mark true b Bitmap.Blocks)) ∧
    (∀ m b, Effect.mark true b Bitmap.Blocks ∈ (commitEffects fsdata content blocks 0).take m →
      ∃ j, Effect.write (cutContent content j fsdata.BlockSize)
          (fsdata.FirstBlock + b * fsdata.BlockSize)
        ∈ (commitEffects fsdata content blocks 0).take m) := by
  refine ⟨?_, commitEffects_length fsdata content blocks 0, ?_,
    commitEffects_under_marked fsdata content blocks 0⟩
  · rw [updateContent_recorder, hok]
    simp
  · intro j b hj
    have := commitEffects_get fsdata content blocks 0 j b hj
    rw [Nat.zero_add] at this
    exact this

/-- C18 at a concrete input: the file of inode 1 in `region64` is given 70 bytes; the
effects are the write of 64 bytes at 1020, the mark of block 5, the write of 6 bytes at
764 and the mark of block 1. -/
theorem updateContent_effects_witness :
    (updateContent (refCollab layout64) region64 layout64.fsdata file64 content70).1
      = .ok [5, 1] ∧
    (updateContent (recorder (refCollab layout64)) (region64, []) layout64.fsdata file64
        content70).2.2
      = [Effect.write (content70.take 64) 1020, Effect.mark true 5 Bitmap.Blocks,
          Effect.write (content70.drop 64) 764, Effect.mark true 1 Bitmap.Blocks] := by
  have hok : (updateContent (refCollab layout64) region64 layout64.fsdata file64 content70).1
      = .ok [5, 1] := by
    set_option maxRecDepth 1000000 in
    rfl
  have main := (updateContent_effects (refCollab layout64) region64 layout64.fsdata file64
    content70 [5, 1] hok).1
  refine ⟨hok, ?_⟩
  rw [main]
  set_option maxRecDepth 1000000 in
  decide

/-! ## Claims about failures of `updateContent` -/

theorem allocLoop_error {σ : Type} (c : Collab σ) (storage : σ) (fsdata : Metadata) :
    ∀ (n : Nat) (gathered : List Nat) (e : String),
      allocLoop c storage fsdata n gathered = .error e →
      ∃ ex, c.findFreeBitmapPosition storage fsdata Bitmap.Blocks ex = .error e := by
  intro n
  induction n with
  | zero => intro gathered e h; exact absurd h (by simp [allocLoop])
  | succ n ih =>
    intro gathered e h
    simp only [allocLoop] at h
    split at h
    · rename_i e' he'
      simp only [Except.error.injEq] at h
      subst h
      exact ⟨gathered, he'⟩
    · exact ih _ _ h

/-- C19: whenever `updateContent` ends with a failure (the content is too long, the
allocator fails on one of its queries, or a slice bound is out of range), the storage is
the one it was given and the recording environment has logged no call of a mutating
collaborator: no block content has been written and no flag set.  On success every
allocator query was made on the storage as given, before the first write.  The inode is a
value of the model, as lines 13-54 read `inode.Size` and `inode.BlocksLocations` and
assign to neither. -/
theorem updateContent_error_atomic {σ : Type} (c : Collab σ) (storage : σ) (fsdata : Metadata)
    (inode : Inode) (content : List Byte) :
    (∀ f, (updateContent c storage fsdata inode content).1 = .error f →
      (updateContent c storage fsdata inode content).2 = storage ∧
      updateContent (recorder c) (storage, []) fsdata inode content
        = (.error f, (storage, [])) ∧
      (f = Fault.err "file is too long" ∨ f = Fault.panic ∨
        ∃ e ex, f = Fault.collab e ∧
          c.findFreeBitmapPosition storage fsdata Bitmap.Blocks ex = .error e)) ∧
    (∀ blocks, (updateContent c storage fsdata inode content).1 = .ok blocks →
      blocksFor inode.Size fsdata.BlockSize < blocksFor content.length fsdata.BlockSize →
      allocLoop c storage fsdata
        (blocksFor content.length fsdata.BlockSize - blocksFor inode.Size fsdata.BlockSize)
        (gather inode) = .ok blocks) := by
  constructor
  · intro f h
    have hst : (updateContent c storage fsdata inode content).2 = storage ∧
        (f = Fault.err "file is too long" ∨ f = Fault.panic ∨
          ∃ e ex, f = Fault.collab e ∧
            c.findFreeBitmapPosition storage fsdata Bitmap.Blocks ex = .error e) := by
      unfold updateContent at h ⊢
      simp only at h ⊢
      split
      · rename_i h12
        rw [if_pos h12] at h
        simp only [Except.error.injEq] at h
        exact ⟨rfl, Or.inl h.symm⟩
      · rename_i h12
        rw [if_neg h12] at h
        split
        · rename_i hp
          rw [if_pos hp] at h
          simp only [Except.error.injEq] at h
          exact ⟨rfl, Or.inr (Or.inl h.symm)⟩
        · rename_i hp
          rw [if_neg hp] at h
          split
          · rename_i e he
            rw [he] at h
            simp only [Except.error.injEq] at h
            refine ⟨rfl, Or.inr (Or.inr ⟨e, ?_⟩)⟩
            split at he
            · obtain ⟨ex, hex⟩ := allocLoop_error c storage fsdata _ _ _ he
              exact ⟨ex, h.symm, hex⟩
            · exact absurd he (by simp)
          · rename_i blocks hb
            rw [hb] at h
            exact absurd h (by simp)
    refine ⟨hst.1, ?_, hst.2⟩
    rw [updateContent_recorder, h, hst.1]
  · intro blocks hok hgrow
    obtain ⟨_, _, hshape⟩ := updateContent_ok c storage fsdata inode content blocks hok
    rcases hshape with h | h | h
    · omega
    · omega
    · exact h.2

/-- C19 at concrete inputs: 705 bytes are too long, and in `region64full` no block is
free for 130 bytes; both runs leave the storage as given and log nothing. -/
theorem updateContent_error_atomic_witness :
    updateContent (recorder (refCollab layout64)) (region64, []) layout64.fsdata file64
        content705
      = (.error (.err "file is too long"), (region64, [])) ∧
    updateContent (recorder (refCollab layout64)) (region64full, []) layout64.fsdata file64
        content130
      = (.error (.collab "no free position"), (region64full, [])) := by
  have h1 : (updateContent (refCollab layout64) region64 layout64.fsdata file64 content705).1
      = .error (.err "file is too long") := by
    set_option maxRecDepth 1000000 in
    rfl
  have h2 : (updateContent (refCollab layout64) region64full layout64.fsdata file64
      content130).1 = .error (.collab "no free position") := by
    set_option maxRecDepth 1000000 in
    rfl
  exact ⟨((updateContent_error_atomic (refCollab layout64) region64 layout64.fsdata file64
      content705).1 _ h1).2.1,
    ((updateContent_error_atomic (refCollab layout64) region64full layout64.fsdata file64
      content130).1 _ h2).2.1⟩

/-! ## Claims about index safety -/

/-- A panic of `updateContent` is the slice bound of line 34 below zero. -/
theorem updateContent_panic {σ : Type} (c : Collab σ) (storage : σ) (fsdata : Metadata)
    (inode : Inode) (content : List Byte)
    (h : (updateContent c storage fsdata inode content).1 = .error Fault.panic) :
    blocksFor content.length fsdata.BlockSize < blocksFor inode.Size fsdata.BlockSize ∧
    (gather inode).length
      < blocksFor inode.Size fsdata.BlockSize - blocksFor content.length fsdata.BlockSize := by
  unfold updateContent at h
  simp only at h
  split at h
  · exact absurd h (by simp)
  · split at h
    · rename_i hp
      exact hp
    · split at h
      · exact absurd h (by simp)
      · exact absurd h (by simp)

/-- C20: for a block size above zero and an inode whose non-sentinel pointer count is
`max(1, ceil(size/block_size))`, the slice bound of the truncation in `updateContent`
lies within `0 .. len(gatheredBlocks)`, so the run does not panic, and a list that
`updateContent` returns has at most 11 entries, so `updateBlockIdsInInode` fills the slots
without reaching index 12.  For every inode, when `updateContent` succeeds the length of
the list is (count of non-sentinel prior pointers) + required - held, which differs from
`required` exactly when the count differs from `held`. -/
theorem updateContent_index_safety {σ : Type} (c : Collab σ) (storage : σ) (fsdata : Metadata)
    (inode : Inode) (content : List Byte) (hbs : 0 < fsdata.BlockSize) :
    ((gather inode).length = max 1 (ceilDiv inode.Size fsdata.BlockSize) →
      (max 1 (ceilDiv inode.Size fsdata.BlockSize)
          - max 1 (ceilDiv content.length fsdata.BlockSize) ≤ (gather inode).length) ∧
      (updateContent c storage fsdata inode content).1 ≠ .error Fault.panic ∧
      ∀ blocks, (updateContent c storage fsdata inode content).1 = .ok blocks →
        blocks.length ≤ 11 ∧
        ∀ inodeInfo : Inode, ∃ out, updateBlockIdsInInode inodeInfo blocks = .ok out) ∧
    (∀ blocks, (updateContent c storage fsdata inode content).1 = .ok blocks →
      blocks.length + max 1 (ceilDiv inode.Size fsdata.BlockSize)
        = (gather inode).length + max 1 (ceilDiv content.length fsdata.BlockSize) ∧
      (blocks.length ≠ max 1 (ceilDiv content.length fsdata.BlockSize)
        ↔ (gather inode).length ≠ max 1 (ceilDiv inode.Size fsdata.BlockSize))) := by
  have _ := hbs
  rw [← blocksFor_eq_max, ← blocksFor_eq_max]
  have hgen : ∀ blocks, (updateContent c storage fsdata inode content).1 = .ok blocks →
      blocks.length + blocksFor inode.Size fsdata.BlockSize
        = (gather inode).length + blocksFor content.length fsdata.BlockSize := by
    intro blocks hok
    obtain ⟨_, _, hshape⟩ := updateContent_ok c storage fsdata inode content blocks hok
    rcases hshape with h | h | h
    · rw [h.2.2, List.length_take]
      omega
    · rw [h.2]
      omega
    · obtain ⟨hlen, _, _⟩ := allocLoop_spec c storage fsdata _ _ _ h.2
      omega
  constructor
  · intro hinv
    refine ⟨by omega, ?_, ?_⟩
    · intro hpanic
      have := updateContent_panic c storage fsdata inode content hpanic
      omega
    · intro blocks hok
      have hlen := hgen blocks hok
      have h12 := (updateContent_ok c storage fsdata inode content blocks hok).1
      refine ⟨by omega, fun inodeInfo => ?_⟩
      obtain ⟨out, hout, _⟩ := updateBlockIdsInInode_spec inodeInfo blocks (by omega)
      exact ⟨out, hout⟩
  · intro blocks hok
    have hlen := hgen blocks hok
    exact ⟨hlen, by omega⟩

/-- C20 at a concrete input: a file that holds blocks 5, 1, 2 for 130 bytes is given 70
bytes; the slice bound is 2 of 3, the run returns two indices, and they fill slots 0
and 1. -/
theorem updateContent_index_safety_witness :
    0 < layout64.fsdata.BlockSize ∧
    (gather file64big).length = max 1 (ceilDiv file64big.Size layout64.fsdata.BlockSize) ∧
    (updateContent (refCollab layout64) region64 layout64.fsdata file64big content70).1
      = .ok [5, 1] ∧
    [5, 1].length ≤ 11 ∧
    (updateContent (refCollab layout64) region64 layout64.fsdata file64big content70).1
      ≠ .error Fault.panic := by
  have hok : (updateContent (refCollab layout64) region64 layout64.fsdata file64big
      content70).1 = .ok [5, 1] := by
    set_option maxRecDepth 1000000 in
    rfl
  have main := (updateContent_index_safety (refCollab layout64) region64 layout64.fsdata
    file64big content70 (by decide)).1 (by decide)
  exact ⟨by decide, by decide, hok, (main.2.2 [5, 1] hok).1, main.2.1⟩

/-! ## A second update with the same content -/

theorem commitLoop_lastCover {σ : Type} (c : Collab σ) (peek : σ → Nat → Byte)
    (fsdata : Metadata) (inode n : Nat) (hc : BlockContract c peek fsdata inode n)
    (content : List Byte) (a : Nat) (ha1 : fsdata.FirstBlock ≤ a)
    (ha2 : a < fsdata.FirstBlock + n * fsdata.BlockSize) :
    ∀ (blocks : List Nat) (i : Nat) (s : σ), (∀ b ∈ blocks, b < n) →
      peek (commitLoop c fsdata content blocks i s) a
        = (lastCover fsdata content blocks i a).getD (peek s a) := by
  intro blocks
  induction blocks with
  | nil => intro i s _; rfl
  | cons value rest ih =>
    intro i s hb
    have hv : value < n := hb value (List.mem_cons_self _ _)
    simp only [commitLoop, lastCover]
    rw [ih _ _ (fun b hbm => hb b (List.mem_cons_of_mem _ hbm))]
    cases lastCover fsdata content rest (i + 1) a with
    | some byte => rfl
    | none =>
      simp only [Option.getD_none]
      rw [hc.peek_mark _ _ _ hv ha1 ha2, hc.peek_write]
      split
      · rfl
      · rfl

/-- The bytes of the block area after a successful `commit`. -/
theorem commit_peek {σ : Type} (c : Collab σ) (peek : σ → Nat → Byte) (tag : String)
    (storage : σ) (fsdata : Metadata) (inodeInfo : Inode) (inode n : Nat)
    (content : List Byte) (committed : Inode) (blocks : List Nat)
    (hc : BlockContract c peek fsdata inode n)
    (hrec : fsdata.Root + inode * c.InodeSize + 133 ≤ fsdata.FirstBlock)
    (hmode : inodeInfo.Mode < 1000)
    (hblocks : (updateContent c storage fsdata inodeInfo content).1 = .ok blocks)
    (hlt : ∀ b ∈ blocks, b < n)
    (hok : (commit c tag storage fsdata inodeInfo inode content).1 = .ok committed)
    (a : Nat) (ha1 : fsdata.FirstBlock ≤ a)
    (ha2 : a < fsdata.FirstBlock + n * fsdata.BlockSize) :
    peek (commit c tag storage fsdata inodeInfo inode content).2 a
      = (lastCover fsdata content blocks 0 a).getD (peek storage a) := by
  obtain ⟨blocks', filled, hblocks', hfill, hcom, hst⟩ := commit_ok _ _ _ _ _ _ _ _ hok
  rw [hblocks] at hblocks'
  simp only [Except.ok.injEq] at hblocks'
  subst hblocks'
  obtain ⟨_, hloop, _⟩ := updateContent_ok _ _ _ _ _ _ hblocks
  have hcm : committed.Mode < 1000 := by
    rw [hcom]
    show filled.Mode < 1000
    rw [updateBlockIdsInInode_mode _ _ _ hfill]
    exact hmode
  rw [hst, updateInode_eq_foldl,
    foldl_write_peek_kept c peek fsdata inode n hc hrec a ha1 _ _
      (updateInode_writes_inside c fsdata committed inode hcm),
    hc.peek_clear _ _ ha1 ha2, hloop]
  exact commitLoop_lastCover c peek fsdata inode n hc content a ha1 ha2 blocks 0 storage hlt

/-- With as many blocks held as required, `updateContent` reuses the pointers as they
are. -/
theorem updateContent_same_count {σ : Type} (c : Collab σ) (storage : σ) (fsdata : Metadata)
    (inode : Inode) (content : List Byte)
    (h12 : blocksFor content.length fsdata.BlockSize < 12)
    (heq : blocksFor inode.Size fsdata.BlockSize = blocksFor content.length fsdata.BlockSize) :
    updateContent c storage fsdata inode content
      = (.ok (gather inode), commitLoop c fsdata content (gather inode) 0 storage) := by
  unfold updateContent
  simp only [heq, if_neg (show ¬ 12 ≤ blocksFor content.length fsdata.BlockSize by omega),
    Nat.lt_irrefl, false_and, if_false]

theorem Inode.eq_of_fields (x y : Inode) (hm : x.Mode = y.Mode) (hs : x.Size = y.Size)
    (hb : x.BlocksLocations = y.BlocksLocations) : x = y := by
  cases x
  cases y
  simp only at hm hs hb
  subst hm hs hb
  rfl

/-- A record that `commit` has written for a content shorter than `2^32` from blocks
stored as non-sentinel values is committed again, unchanged, by a `commit` that starts
from it with the same content. -/
theorem commit_again {σ : Type} (c : Collab σ) (tag : String) (first second : σ)
    (fsdata : Metadata) (inodeInfo committed : Inode) (inode : Nat) (content : List Byte)
    (hL : content.length < 2 ^ 32)
    (halloc : ∀ ex v, c.findFreeBitmapPosition first fsdata Bitmap.Blocks ex = .ok v →
      v % 2 ^ 32 ≠ 0)
    (hok : (commit c tag first fsdata inodeInfo inode content).1 = .ok committed) :
    (commit c tag second fsdata committed inode content).1 = .ok committed ∧
    (updateContent c second fsdata committed content).1 = .ok (gather committed) := by
  obtain ⟨blocks, filled, hblocks, hfill, hcom, _⟩ := commit_ok _ _ _ _ _ _ _ _ hok
  have h12 := (updateContent_ok _ _ _ _ _ _ hblocks).1
  have hnz : ∀ v ∈ blocks, v % 2 ^ 32 ≠ 0 := by
    intro v hv
    rcases updateContent_mem _ _ _ _ _ _ hblocks v hv with h | ⟨ex, h⟩
    · have := gather_mem _ _ h
      rw [Nat.mod_eq_of_lt this.2]
      exact this.1
    · exact halloc ex v h
  have hlen := updateBlockIdsInInode_ok_length _ _ _ hfill
  have hg : gather committed = blocks.map (fun v => v % 2 ^ 32) := by
    rw [hcom]
    exact gather_filled inodeInfo filled blocks _ hlen hfill hnz
  obtain ⟨out, hout, hmode1, _, hslots1⟩ := updateBlockIdsInInode_spec inodeInfo blocks hlen
  rw [hfill] at hout
  simp only [Except.ok.injEq] at hout
  subst hout
  have hsize : committed.Size = content.length := by
    rw [hcom]
    show content.length % 2 ^ 32 = content.length
    exact Nat.mod_eq_of_lt hL
  have hslots : committed.BlocksLocations
      = blocks.map (fun v => v % 2 ^ 32) ++ List.replicate (12 - blocks.length) 0 := by
    rw [hcom]
    exact hslots1
  have hupd := updateContent_same_count c second fsdata committed content h12 (by rw [hsize])
  refine ⟨?_, by rw [hupd]⟩
  unfold commit
  rw [hupd]
  simp only
  obtain ⟨out2, hout2, hmode2, hsize2, hslots2⟩ :=
    updateBlockIdsInInode_spec committed (gather committed) (gather_length_le committed)
  rw [hout2]
  simp only [Except.ok.injEq]
  apply Inode.eq_of_fields
  · show out2.Mode = committed.Mode
    exact hmode2
  · show content.length % 2 ^ 32 = committed.Size
    rw [hsize, Nat.mod_eq_of_lt hL]
  · show out2.BlocksLocations = committed.BlocksLocations
    rw [hslots2, hslots, hg, List.length_map, List.map_map]
    congr 1
    apply List.map_congr_left
    intro v _
    show v % 2 ^ 32 % 2 ^ 32 = v % 2 ^ 32
    exact Nat.mod_mod _ _

/-- The pointers of a record that `commit` has written from blocks that are not 0 and
below `n ≤ 2^32` are the blocks. -/
theorem commit_gather {σ : Type} (c : Collab σ) (tag : String) (storage : σ)
    (fsdata : Metadata) (inodeInfo committed : Inode) (inode n : Nat) (content : List Byte)
    (blocks : List Nat) (hn : n ≤ 2 ^ 32)
    (hblocks : (updateContent c storage fsdata inodeInfo content).1 = .ok blocks)
    (hlt : ∀ b ∈ blocks, b ≠ 0 ∧ b < n)
    (hok : (commit c tag storage fsdata inodeInfo inode content).1 = .ok committed) :
    gather committed = blocks := by
  obtain ⟨blocks', filled, hblocks', hfill, hcom, _⟩ := commit_ok _ _ _ _ _ _ _ _ hok
  rw [hblocks] at hblocks'
  simp only [Except.ok.injEq] at hblocks'
  subst hblocks'
  rw [hcom, gather_committed inodeInfo filled blocks _ hfill]
  have hmap : blocks.map (fun v => v % 2 ^ 32) = blocks := by
    conv_rhs => rw [← List.map_id blocks]
    apply List.map_congr_left
    intro b hb
    exact Nat.mod_eq_of_lt (by have := (hlt b hb).2; omega)
  rw [hmap, List.filter_eq_self]
  intro b hb
  simpa using (hlt b hb).1

theorem refClearFile_peek (l : Layout) (a : Nat) : ∀ (blocks : List Nat) (s : Mem),
    (∀ v ∈ blocks, l.blockFlags + v ≠ a) → refClearFile l s blocks a = s a := by
  intro blocks
  unfold refClearFile
  induction blocks with
  | nil => intro s _; rfl
  | cons value rest ih =>
    intro s h
    simp only [List.foldl_cons]
    rw [ih _ (fun v hv => h v (List.mem_cons_of_mem _ hv))]
    have hne := h value (List.mem_cons_self _ _)
    split
    · rfl
    · simp only [writeBytes, Layout.flagAt, List.length_singleton]
      rw [if_neg (by omega)]

/-! ## Claims about repeated updates -/

/-- C17, for the literal claim: in `region64z`, where block 0 is free, `UpdateFile` on the
file of inode 1 with 130 bytes succeeds and commits the slots 5, 0, 1; a second
`UpdateFile` with the same content succeeds and commits the slots 5, 1, 0: the two
records differ. -/
theorem updateFile_twice_counterexample :
    (UpdateFile (refCollab layout64) region64z 1 content130).1.toOption.map
        (fun i => (i.Mode, i.Size, i.BlocksLocations))
      = some (1, 130, [5, 0, 1, 0, 0, 0, 0, 0, 0, 0, 0, 0]) ∧
    (UpdateFile (refCollab layout64) (UpdateFile (refCollab layout64) region64z 1 content130).2
        1 content130).1.toOption.map (fun i => (i.Mode, i.Size, i.BlocksLocations))
      = some (1, 130, [5, 1, 0, 0, 0, 0, 0, 0, 0, 0, 0, 0]) := by
  constructor
  · set_option maxRecDepth 1000000 in
    decide
  · set_option maxRecDepth 1000000 in
    decide

/-- C17, amended: on a region of `n ≤ 2^32` blocks, for an inode with a type tag below
1000 and prior pointers below `n`, and a content of length `L < 2^32` on which
`UpdateFile` succeeds with the allocator handing out only indices that are not 0 and below
`n`: when the storage after the call reads as written (same metadata, the inode occupied
and reading back as the committed record) and the collaborators honour the block contract
(the 133-byte record below the block area, `clearFile` leaving the block area alone), a
second `UpdateFile` with the same content succeeds and commits the identical record (type
tag, size, all 12 slots), and every byte of the block area is as the first call left it. -/
theorem updateFile_twice {σ : Type} (c : Collab σ) (peek : σ → Nat → Byte) (storage : σ)
    (inode n : Nat) (content : List Byte) (inodeInfo committed : Inode)
    (hL : content.length < 2 ^ 32) (hn : n ≤ 2 ^ 32)
    (hread : c.ReadInode storage (c.ReadMetadata storage) inode = .ok inodeInfo)
    (hmode : inodeInfo.Mode < 1000) (hprior : ∀ p ∈ gather inodeInfo, p < n)
    (halloc : ∀ ex v, c.findFreeBitmapPosition
        (c.clearFile storage inodeInfo.BlocksLocations (c.ReadMetadata storage))
        (c.ReadMetadata storage) Bitmap.Blocks ex = .ok v → v ≠ 0 ∧ v < n)
    (hok : (UpdateFile c storage inode content).1 = .ok committed)
    (hmeta : c.ReadMetadata (UpdateFile c storage inode content).2 = c.ReadMetadata storage)
    (hocc : c.getInodeValue (UpdateFile c storage inode content).2 (c.ReadMetadata storage)
      Bitmap.Inodes inode = true)
    (hback : c.ReadInode (UpdateFile c storage inode content).2 (c.ReadMetadata storage) inode
      = .ok committed)
    (hc : BlockContract c peek (c.ReadMetadata storage) inode n)
    (hrec : (c.ReadMetadata storage).Root + inode * c.InodeSize + 133
      ≤ (c.ReadMetadata storage).FirstBlock)
    (hclear : ∀ a, (c.ReadMetadata storage).FirstBlock ≤ a →
      a < (c.ReadMetadata storage).FirstBlock + n * (c.ReadMetadata storage).BlockSize →
      peek (c.clearFile (UpdateFile c storage inode content).2 committed.BlocksLocations
          (c.ReadMetadata storage)) a
        = peek (UpdateFile c storage inode content).2 a) :
    (UpdateFile c (UpdateFile c storage inode content).2 inode content).1 = .ok committed ∧
    ∀ a, (c.ReadMetadata storage).FirstBlock ≤ a →
      a < (c.ReadMetadata storage).FirstBlock + n * (c.ReadMetadata storage).BlockSize →
      peek (UpdateFile c (UpdateFile c storage inode content).2 inode content).2 a
        = peek (UpdateFile c storage inode content).2 a := by
  obtain ⟨inodeInfo', h0, _, hread', hm0, hupd⟩ :=
    UpdateFile_ok c storage inode content committed hok
  rw [hread] at hread'
  simp only [Except.ok.injEq] at hread'
  subst hread'
  have hok1 := hok
  rw [hupd] at hok1
  obtain ⟨blocks, filled, hblocks, hfill, hcom, _⟩ := commit_ok _ _ _ _ _ _ _ _ hok1
  have hcmode : committed.Mode = inodeInfo.Mode := by
    rw [hcom]
    show filled.Mode = inodeInfo.Mode
    exact updateBlockIdsInInode_mode _ _ _ hfill
  have hlt : ∀ b ∈ blocks, b ≠ 0 ∧ b < n := by
    intro b hb
    rcases updateContent_mem _ _ _ _ _ _ hblocks b hb with h | ⟨ex, h⟩
    · exact ⟨(gather_mem _ _ h).1, hprior b h⟩
    · exact halloc ex b h
  have hg := commit_gather c _ _ _ inodeInfo committed inode n content blocks hn hblocks hlt hok1
  have hsecond : UpdateFile c (UpdateFile c storage inode content).2 inode content
      = commit c "update file"
          (c.clearFile (UpdateFile c storage inode content).2 committed.BlocksLocations
            (c.ReadMetadata storage)) (c.ReadMetadata storage) committed inode content := by
    have := UpdateFile_checked c (UpdateFile c storage inode content).2 inode content committed
      h0 (by rw [hmeta]; exact hocc) (by rw [hmeta]; exact hback) (by rw [hcmode]; exact hm0)
    rw [hmeta] at this
    exact this
  have hagain := commit_again c "update file" _
    (c.clearFile (UpdateFile c storage inode content).2 committed.BlocksLocations
      (c.ReadMetadata storage)) _ inodeInfo committed inode content hL
    (fun ex v h => by
      have := halloc ex v h
      rw [Nat.mod_eq_of_lt (by omega)]
      exact this.1) hok1
  have hok2 : (UpdateFile c (UpdateFile c storage inode content).2 inode content).1
      = .ok committed := by
    rw [hsecond]
    exact hagain.1
  refine ⟨hok2, ?_⟩
  intro a ha1 ha2
  have hp2 := commit_peek c peek "update file"
    (c.clearFile (UpdateFile c storage inode content).2 committed.BlocksLocations
      (c.ReadMetadata storage)) (c.ReadMetadata storage) committed inode n content committed
    (gather committed) hc hrec (by rw [hcmode]; exact hmode) hagain.2
    (by rw [hg]; exact fun b hb => (hlt b hb).2) hagain.1 a ha1 ha2
  have hp1 := commit_peek c peek "update file" _ (c.ReadMetadata storage) inodeInfo inode n
    content committed blocks hc hrec hmode hblocks (fun b hb => (hlt b hb).2) hok1 a ha1 ha2
  rw [hsecond, hp2, hclear a ha1 ha2, hg]
  rw [← hupd] at hp1
  cases hl : lastCover (c.ReadMetadata storage) content blocks 0 a with
  | none => rfl
  | some byte =>
    rw [hl] at hp1
    rw [hp1]
    rfl

/-- C17, amended, at a concrete input: inode 1 of `region64`, a region of 16 blocks with
block 0 reserved, is given the same 130 bytes twice; both calls commit the record with
size 130 and the slots 5, 1, 2, and the second call leaves every byte of the block area as
the first call left it. -/
theorem updateFile_twice_witness :
    content130.length < 2 ^ 32 ∧
    (UpdateFile (refCollab layout64) region64 1 content130).1 = .ok file64big ∧
    (refCollab layout64).ReadInode (UpdateFile (refCollab layout64) region64 1 content130).2
      ((refCollab layout64).ReadMetadata region64) 1 = .ok file64big ∧
    BlockContract (refCollab layout64) (fun s a => s a)
      ((refCollab layout64).ReadMetadata region64) 1 16 ∧
    ((UpdateFile (refCollab layout64)
        (UpdateFile (refCollab layout64) region64 1 content130).2 1 content130).1
      = .ok file64big ∧
    ∀ a, ((refCollab layout64).ReadMetadata region64).FirstBlock ≤ a →
      a < ((refCollab layout64).ReadMetadata region64).FirstBlock
        + 16 * ((refCollab layout64).ReadMetadata region64).BlockSize →
      (fun (s : Mem) a => s a) (UpdateFile (refCollab layout64)
        (UpdateFile (refCollab layout64) region64 1 content130).2 1 content130).2 a
        = (fun (s : Mem) a => s a)
          (UpdateFile (refCollab layout64) region64 1 content130).2 a) := by
  have hc : BlockContract (refCollab layout64) (fun s a => s a)
      ((refCollab layout64).ReadMetadata region64) 1 16 :=
    refCollab_blockContract layout64 1 16 (Or.inl (by decide)) (by decide)
  have hok : (UpdateFile (refCollab layout64) region64 1 content130).1 = .ok file64big := by
    set_option maxRecDepth 1000000 in
    rfl
  have hback : (refCollab layout64).ReadInode
      (UpdateFile (refCollab layout64) region64 1 content130).2
      ((refCollab layout64).ReadMetadata region64) 1 = .ok file64big := by
    set_option maxRecDepth 1000000 in
    rfl
  have hL : content130.length < 2 ^ 32 := by
    set_option maxRecDepth 1000000 in
    decide
  have halloc : ∀ ex v, (refCollab layout64).findFreeBitmapPosition
      ((refCollab layout64).clearFile region64 file64.BlocksLocations
        ((refCollab layout64).ReadMetadata region64))
      ((refCollab layout64).ReadMetadata region64) Bitmap.Blocks ex = .ok v →
      v ≠ 0 ∧ v < 16 := by
    intro ex v h
    obtain ⟨h1, h2, _⟩ := refFindFree_ok _ _ _ _ _ h
    refine ⟨?_, h1⟩
    intro h0
    subst h0
    revert h2
    set_option maxRecDepth 1000000 in
    decide
  have hslots : ∀ v ∈ file64big.BlocksLocations, v < 600 := by
    set_option maxRecDepth 1000000 in
    decide
  exact ⟨hL, hok, hback, hc,
    updateFile_twice (refCollab layout64) (fun s a => s a) region64 1 16 content130 file64
      file64big hL (by decide) (by set_option maxRecDepth 1000000 in rfl) (by decide)
      (by decide) halloc hok rfl (by set_option maxRecDepth 1000000 in rfl) hback hc
      (by decide)
      (fun a ha1 ha2 => refClearFile_peek layout64 a file64big.BlocksLocations _
        (fun v hv => by
          have h600 := hslots v hv
          have h700 : 700 ≤ a := ha1
          have h16 : layout64.blockFlags = 16 := rfl
          omega))⟩

end Core
